import Mathlib

/-!
# The byte-code interpreter of `src/bytecode.c`

A shallow embedding of `exec_byte_code__`, `Fbyte_code`, `get_byte_code_arity`
and `relocate_byte_stack`, followed by theorems about them.

Conventions of the embedding.

* The operand stack is a list whose head is `TOP`; `PUSH (x)` conses, `POP`
  takes the tail.  Reading `TOP`, or an element `top[-n]`, that lies at or
  below `stack_base` reads a slot the interpreter never wrote; the model
  reports this as `undefined`.
* The program counter is kept as the offset `stack.pc - stack.byte_string_start`
  (an integer, since a short jump may leave the byte string on either side).
  `relocate_byte_stack`, which works on addresses, is embedded separately.
* The list has no capacity.  The `maxdepth + 1` slots of the frame hold a list
  of at most `maxdepth` values (`Frame.fits`); a store beyond them is outside
  the model, and the theorems about the unpacker and about the push of a
  constant carry the hypothesis that the stack they describe fits.
* Non-local exits (`Fsignal`, `error`, `Fthrow`) are results of an instruction,
  not control flow.  What the host's unwinding does with them is the
  parameter `unwind_to_catch`; `landing` sends an exit caught by a handler of
  the invocation to the block behind `sys_setjmp`, after which the loop goes
  on.
* Declarations of `bytecode.h` and `lisp.h` that `bytecode.c` uses but which are
  not among the sources at hand are parameters: the opcode numbering
  `B : Insn → Nat`, the build switches in `Build`, `PTRDIFF_MAX`, and the host
  primitives in `Host`.
-/

namespace Bytecode

/-! ## Values -/

/-- Modelled from the spec: the tagged value union `Lisp_Object` of `lisp.h`
(not among the sources), a sum over nil, t, cons, symbol, integer, float,
string, vector, misc and the unbound marker.  Conses are structural so that the
lists built by `Flist` and `list2` can be compared; the other boxed kinds carry
an opaque reference. -/
inductive LispObject where
  | nil
  | t
  | cons (car cdr : LispObject)
  | symbol (name : String)
  | integer (n : Int)
  | float (ref : Nat)
  | string (data : String)
  | vector (ref : Nat)
  | misc (ref : Nat)
  | unbound
  deriving DecidableEq, Repr, Inhabited

/-- Modelled from the spec: the constant `Qnil` of `lisp.h`, the nil value. -/
abbrev Qnil : LispObject := LispObject.nil

/-- Modelled from the spec: the constant `Qt` of `lisp.h`, the true value. -/
abbrev Qt : LispObject := LispObject.t

/-- Modelled from the spec: the constant `Qunbound` of `lisp.h`, the unbound marker. -/
abbrev Qunbound : LispObject := LispObject.unbound

/-- Modelled from the spec: the symbol `Qmany` of the host, the marker "any" that stands
for an unbounded maximum in an arity. -/
def Qmany : LispObject := LispObject.symbol "many"

/-- Modelled from the spec: the error symbol `Qwrong_number_of_arguments` of the host
(the kind WrongArgCount). -/
def Qwrong_number_of_arguments : LispObject := LispObject.symbol "wrong-number-of-arguments"

/-- Modelled from the spec: the error symbol `Qerror` of the host, under which the
interpreter's own errors are raised. -/
def Qerror : LispObject := LispObject.symbol "error"

/-- Modelled from the spec: the error symbol `Qquit` of the host (the kind Quit). -/
def Qquit : LispObject := LispObject.symbol "quit"

/-- Modelled from the spec: the predicate `NILP` of `lisp.h` (is-nil). -/
def NILP (x : LispObject) : Bool := x == Qnil

/-- Modelled from the spec: the constructor `make_number` of `lisp.h`
(construct-integer), for the small integers built in `bytecode.c`. -/
def make_number (n : Int) : LispObject := LispObject.integer n

/-- Modelled from the spec: the primitive `Fcons` of the host, which builds a cons. -/
def Fcons (a d : LispObject) : LispObject := LispObject.cons a d

/-- Modelled from the spec: the helper `list1` of the host, the list of one value. -/
def list1 (a : LispObject) : LispObject := Fcons a Qnil

/-- Modelled from the spec: the helper `list2` of the host, the list of two values. -/
def list2 (a b : LispObject) : LispObject := Fcons a (Fcons b Qnil)

/-- Modelled from the spec: the primitive `Flist (nargs, args)` of the host, the
freshly constructed list of the `nargs` values at `args`, in their order. -/
def Flist : List LispObject → LispObject
  | [] => Qnil
  | a :: args => Fcons a (Flist args)

/-- Modelled from the spec: the host's non-local control flow (`Fsignal`, `error`,
`quit`, `Fthrow`, none of them in `bytecode.c`), as the value that describes the
exit: a raised condition with its error symbol and data, or a throw to a tag. -/
inductive NonLocalExit where
  | signal (error_symbol data : LispObject)
  | throw (tag value : LispObject)
  deriving DecidableEq, Repr

/-! ## Arity descriptors -/

/-- The line `bool rest = (at & 128) != 0;`. -/
def arity_rest (tmpl : Nat) : Bool := (tmpl &&& 128) != 0

/-- The line `int mandatory = at & 127;`. -/
def arity_mandatory (tmpl : Nat) : Nat := tmpl &&& 127

/-- The line `ptrdiff_t nonrest = at >> 8;`. -/
def arity_nonrest (tmpl : Nat) : Nat := tmpl >>> 8

/-- The function `get_byte_code_arity` on a non-negative template
(`eassert (NATNUMP (args_template))`): the cons of the mandatory count and
either `many` or the non-rest count. -/
def get_byte_code_arity (args_template : Nat) : LispObject :=
  let rest := (args_template &&& 128) != 0
  let mandatory := args_template &&& 127
  let nonrest := args_template >>> 8
  Fcons (make_number mandatory) (if rest then Qmany else make_number nonrest)

/-- The argument unpacker of `exec_byte_code__` (the block guarded by
`!NILP (args_template)`), run on operand stack `top` with the `nargs = args.length`
actuals `args`.  It either signals `wrong-number-of-arguments` or returns the
operand stack after its pushes.  The pushes are the unchecked stores
`*++top = ...` of `PUSH`: the unpacker does not look at `maxdepth`, and the list
returned describes the operand stack when it has at most `maxdepth` values
(the slots allocated for the frame); a descriptor that asks for more writes
outside them. -/
def unpack_args (PTRDIFF_MAX : Nat) (tmpl : Nat) (args : List LispObject)
    (top : List LispObject) : Except NonLocalExit (List LispObject) :=
  let nargs : Nat := args.length
  let rest : Bool := (tmpl &&& 128) != 0
  let mandatory : Nat := tmpl &&& 127
  let nonrest : Nat := tmpl >>> 8
  let maxargs : Nat := if rest then PTRDIFF_MAX else nonrest
  if !(decide (mandatory ≤ nargs) && decide (nargs ≤ maxargs)) then
    Except.error (NonLocalExit.signal Qwrong_number_of_arguments
      (list2 (Fcons (make_number mandatory) (make_number nonrest)) (make_number nargs)))
  else
    let pushedargs : Nat := min nonrest nargs
    -- for (i = 0; i < pushedargs; i++, args++) PUSH (*args);
    let top := (args.take pushedargs).foldl (fun top a => a :: top) top
    let args := args.drop pushedargs
    if nonrest < nargs then
      -- PUSH (Flist (nargs - nonrest, args));
      Except.ok (Flist (args.take (nargs - nonrest)) :: top)
    else
      -- for (i = nargs - rest; i < nonrest; i++) PUSH (Qnil);
      let i : Int := (nargs : Int) - (if rest then 1 else 0)
      Except.ok (List.replicate ((nonrest : Int) - i).toNat Qnil ++ top)

/-! ## Opcodes and dispatch -/

/-- The labels of the interpreter: one for every `CASE (...)` of the dispatch
body, `Bstack_ref` (the label under `CASE_ABORT`), and the two labels
`Bset_mark`, `Bscan_buffer` that exist only in a `BYTE_CODE_SAFE` build. -/
inductive Insn where
  | Bstack_ref | Bvarref7 | Bvarref | Bvarref1 | Bvarref2 | Bvarref3 | Bvarref4 | Bvarref5
  | Bvarref6 | Bgotoifnil | Bcar | Beq | Bmemq | Bcdr | Bvarset | Bvarset1 | Bvarset2
  | Bvarset3 | Bvarset4 | Bvarset5 | Bvarset7 | Bvarset6 | Bdup | Bvarbind6 | Bvarbind7
  | Bvarbind | Bvarbind1 | Bvarbind2 | Bvarbind3 | Bvarbind4 | Bvarbind5 | Bcall6 | Bcall7
  | Bcall | Bcall1 | Bcall2 | Bcall3 | Bcall4 | Bcall5 | Bunbind6 | Bunbind7 | Bunbind
  | Bunbind1 | Bunbind2 | Bunbind3 | Bunbind4 | Bunbind5 | Bunbind_all | Bgoto | Bgotoifnonnil
  | Bgotoifnilelsepop | Bgotoifnonnilelsepop | BRgoto | BRgotoifnil | BRgotoifnonnil
  | BRgotoifnilelsepop | BRgotoifnonnilelsepop | Breturn | Bdiscard | Bconstant2
  | Bsave_excursion | Bsave_current_buffer | Bsave_current_buffer_1 | Bsave_window_excursion
  | Bsave_restriction | Bcatch | Bpushcatch | Bpushconditioncase | Bpophandler
  | Bunwind_protect | Bcondition_case | Btemp_output_buffer_setup | Btemp_output_buffer_show
  | Bnth | Bsymbolp | Bconsp | Bstringp | Blistp | Bnot | Bcons | Blist1 | Blist2 | Blist3
  | Blist4 | BlistN | Blength | Baref | Baset | Bsymbol_value | Bsymbol_function | Bset | Bfset
  | Bget | Bsubstring | Bconcat2 | Bconcat3 | Bconcat4 | BconcatN | Bsub1 | Badd1 | Beqlsign
  | Bgtr | Blss | Bleq | Bgeq | Bdiff | Bnegate | Bplus | Bmax | Bmin | Bmult | Bquo | Brem
  | Bpoint | Bgoto_char | Binsert | BinsertN | Bpoint_max | Bpoint_min | Bchar_after
  | Bfollowing_char | Bpreceding_char | Bcurrent_column | Bindent_to | Beolp | Beobp | Bbolp
  | Bbobp | Bcurrent_buffer | Bset_buffer | Binteractive_p | Bforward_char | Bforward_word
  | Bskip_chars_forward | Bskip_chars_backward | Bforward_line | Bchar_syntax
  | Bbuffer_substring | Bdelete_region | Bnarrow_to_region | Bwiden | Bend_of_line
  | Bset_marker | Bmatch_beginning | Bmatch_end | Bupcase | Bdowncase | Bstringeqlsign
  | Bstringlss | Bequal | Bnthcdr | Belt | Bmember | Bassq | Bnreverse | Bsetcar | Bsetcdr
  | Bcar_safe | Bcdr_safe | Bnconc | Bnumberp | Bintegerp | Bstack_ref1 | Bstack_ref2
  | Bstack_ref3 | Bstack_ref4 | Bstack_ref5 | Bstack_ref6 | Bstack_ref7 | Bstack_set
  | Bstack_set2 | BdiscardN | Bconstant | Bset_mark | Bscan_buffer
  deriving DecidableEq, Repr, Inhabited

/-- The `CASE (...)` labels of the dispatch body, in source order, without the
label under `CASE_ABORT`. -/
def caseLabels : List Insn :=
  [
   Insn.Bvarref7, Insn.Bvarref, Insn.Bvarref1, Insn.Bvarref2, Insn.Bvarref3, Insn.Bvarref4,
   Insn.Bvarref5, Insn.Bvarref6, Insn.Bgotoifnil, Insn.Bcar, Insn.Beq, Insn.Bmemq, Insn.Bcdr,
   Insn.Bvarset, Insn.Bvarset1, Insn.Bvarset2, Insn.Bvarset3, Insn.Bvarset4, Insn.Bvarset5,
   Insn.Bvarset7, Insn.Bvarset6, Insn.Bdup, Insn.Bvarbind6, Insn.Bvarbind7, Insn.Bvarbind,
   Insn.Bvarbind1, Insn.Bvarbind2, Insn.Bvarbind3, Insn.Bvarbind4, Insn.Bvarbind5, Insn.Bcall6,
   Insn.Bcall7, Insn.Bcall, Insn.Bcall1, Insn.Bcall2, Insn.Bcall3, Insn.Bcall4, Insn.Bcall5,
   Insn.Bunbind6, Insn.Bunbind7, Insn.Bunbind, Insn.Bunbind1, Insn.Bunbind2, Insn.Bunbind3,
   Insn.Bunbind4, Insn.Bunbind5, Insn.Bunbind_all, Insn.Bgoto, Insn.Bgotoifnonnil,
   Insn.Bgotoifnilelsepop, Insn.Bgotoifnonnilelsepop, Insn.BRgoto, Insn.BRgotoifnil,
   Insn.BRgotoifnonnil, Insn.BRgotoifnilelsepop, Insn.BRgotoifnonnilelsepop, Insn.Breturn,
   Insn.Bdiscard, Insn.Bconstant2, Insn.Bsave_excursion, Insn.Bsave_current_buffer,
   Insn.Bsave_current_buffer_1, Insn.Bsave_window_excursion, Insn.Bsave_restriction,
   Insn.Bcatch, Insn.Bpushcatch, Insn.Bpushconditioncase, Insn.Bpophandler,
   Insn.Bunwind_protect, Insn.Bcondition_case, Insn.Btemp_output_buffer_setup,
   Insn.Btemp_output_buffer_show, Insn.Bnth, Insn.Bsymbolp, Insn.Bconsp, Insn.Bstringp,
   Insn.Blistp, Insn.Bnot, Insn.Bcons, Insn.Blist1, Insn.Blist2, Insn.Blist3, Insn.Blist4,
   Insn.BlistN, Insn.Blength, Insn.Baref, Insn.Baset, Insn.Bsymbol_value,
   Insn.Bsymbol_function, Insn.Bset, Insn.Bfset, Insn.Bget, Insn.Bsubstring, Insn.Bconcat2,
   Insn.Bconcat3, Insn.Bconcat4, Insn.BconcatN, Insn.Bsub1, Insn.Badd1, Insn.Beqlsign,
   Insn.Bgtr, Insn.Blss, Insn.Bleq, Insn.Bgeq, Insn.Bdiff, Insn.Bnegate, Insn.Bplus, Insn.Bmax,
   Insn.Bmin, Insn.Bmult, Insn.Bquo, Insn.Brem, Insn.Bpoint, Insn.Bgoto_char, Insn.Binsert,
   Insn.BinsertN, Insn.Bpoint_max, Insn.Bpoint_min, Insn.Bchar_after, Insn.Bfollowing_char,
   Insn.Bpreceding_char, Insn.Bcurrent_column, Insn.Bindent_to, Insn.Beolp, Insn.Beobp,
   Insn.Bbolp, Insn.Bbobp, Insn.Bcurrent_buffer, Insn.Bset_buffer, Insn.Binteractive_p,
   Insn.Bforward_char, Insn.Bforward_word, Insn.Bskip_chars_forward, Insn.Bskip_chars_backward,
   Insn.Bforward_line, Insn.Bchar_syntax, Insn.Bbuffer_substring, Insn.Bdelete_region,
   Insn.Bnarrow_to_region, Insn.Bwiden, Insn.Bend_of_line, Insn.Bset_marker,
   Insn.Bmatch_beginning, Insn.Bmatch_end, Insn.Bupcase, Insn.Bdowncase, Insn.Bstringeqlsign,
   Insn.Bstringlss, Insn.Bequal, Insn.Bnthcdr, Insn.Belt, Insn.Bmember, Insn.Bassq,
   Insn.Bnreverse, Insn.Bsetcar, Insn.Bsetcdr, Insn.Bcar_safe, Insn.Bcdr_safe, Insn.Bnconc,
   Insn.Bnumberp, Insn.Bintegerp, Insn.Bstack_ref1, Insn.Bstack_ref2, Insn.Bstack_ref3,
   Insn.Bstack_ref4, Insn.Bstack_ref5, Insn.Bstack_ref6, Insn.Bstack_ref7, Insn.Bstack_set,
   Insn.Bstack_set2, Insn.BdiscardN, Insn.Bconstant
  ]

/-- How the interpreter was compiled: as a `switch` (with or without
`BYTE_CODE_SAFE`), or threaded through the table `targets`.  The threaded
interpreter cannot be built with `BYTE_CODE_SAFE`, whose extra cases are
written with plain `case`. -/
inductive Build where
  | switch (BYTE_CODE_SAFE : Bool)
  | threaded
  deriving DecidableEq, Repr

/-- The value of the macro `BYTE_CODE_SAFE` in a build. -/
def Build.BYTE_CODE_SAFE : Build → Bool
  | Build.switch safe => safe
  | Build.threaded => false

/-- The declarations `bytecode.c` takes from headers that are not among the
sources: the build, the opcode numbering `B` (the table `BYTE_CODES`) and
`PTRDIFF_MAX`; and what the platform leaves open.  `quitcounter` is a local
variable without `volatile` that changes between `sys_setjmp` and the
`sys_longjmp` into a handler, so C leaves its value after the jump
indeterminate: `longjmp_quitcounter saved now` is that value, given the value
`saved` at `sys_setjmp` and the value `now` at the time of the jump (a
compilation that keeps the counter in memory has `now`, one that keeps it in a
register saved in the jump buffer has `saved`). -/
structure Config where
  build : Build
  B : Insn → Nat
  PTRDIFF_MAX : Nat
  longjmp_quitcounter : Nat → Nat → Nat := fun _ now => now

/-- The labels that carry a `case` in a switch build: every `CASE (...)`, and
under `BYTE_CODE_SAFE` also `Bset_mark` and `Bscan_buffer`. -/
def switchLabels (safe : Bool) : List Insn :=
  caseLabels ++ (if safe then [Insn.Bset_mark, Insn.Bscan_buffer] else [])

/-- The labels that have an entry `LABEL (name)` in the table `targets` of a
threaded build: `insn_Bstack_ref` and every `CASE (...)`. -/
def threadedLabels : List Insn :=
  Insn.Bstack_ref :: caseLabels

/-- The body an opcode byte selects.  `Insn.Bstack_ref` stands for the body
under `CASE_ABORT` and `Insn.Bconstant` for the body under `CASE_DEFAULT`.

* switch: `FIRST` is `switch (op)`; a byte that is the value of a `case` label
  goes there; otherwise `case 0` is `CASE_ABORT` and `case 255: default:` falls
  into the `Bconstant` body.
* threaded: `targets[op]`, where `[0 ... (Bconstant - 1)]` is `insn_default`
  (the body under `CASE_ABORT`), `[Bconstant ... 255]` is `insn_Bconstant`, and
  the `LABEL` entries override both. -/
def dispatch (c : Config) (op : Nat) : Insn :=
  match c.build with
  | Build.switch safe =>
    match (switchLabels safe).find? (fun l => c.B l == op) with
    | some l => l
    | none => if op == 0 then Insn.Bstack_ref else Insn.Bconstant
  | Build.threaded =>
    match threadedLabels.find? (fun l => c.B l == op) with
    | some l => l
    | none => if op < c.B Insn.Bconstant then Insn.Bstack_ref else Insn.Bconstant

/-- What the dispatch code takes for granted about the opcode numbering: no two
labels share a value (they are `case` labels of one `switch`, and indices of
one table), and `Bconstant` is the largest, the bytes above it being the
constants with an inline index. -/
structure Config.WellFormed (c : Config) : Prop where
  injective : Function.Injective c.B
  le_Bconstant : ∀ l, c.B l ≤ c.B Insn.Bconstant

/-- A sample opcode numbering: the values of the byte compiler's opcode table.
The theorems below hold for every well-formed numbering; this one instantiates
them. -/
def stdB : Insn → Nat
  | Insn.Bstack_ref => 0
  | Insn.Bvarref7 => 15
  | Insn.Bvarref => 8
  | Insn.Bvarref1 => 9
  | Insn.Bvarref2 => 10
  | Insn.Bvarref3 => 11
  | Insn.Bvarref4 => 12
  | Insn.Bvarref5 => 13
  | Insn.Bvarref6 => 14
  | Insn.Bgotoifnil => 131
  | Insn.Bcar => 64
  | Insn.Beq => 61
  | Insn.Bmemq => 62
  | Insn.Bcdr => 65
  | Insn.Bvarset => 16
  | Insn.Bvarset1 => 17
  | Insn.Bvarset2 => 18
  | Insn.Bvarset3 => 19
  | Insn.Bvarset4 => 20
  | Insn.Bvarset5 => 21
  | Insn.Bvarset7 => 23
  | Insn.Bvarset6 => 22
  | Insn.Bdup => 137
  | Insn.Bvarbind6 => 30
  | Insn.Bvarbind7 => 31
  | Insn.Bvarbind => 24
  | Insn.Bvarbind1 => 25
  | Insn.Bvarbind2 => 26
  | Insn.Bvarbind3 => 27
  | Insn.Bvarbind4 => 28
  | Insn.Bvarbind5 => 29
  | Insn.Bcall6 => 38
  | Insn.Bcall7 => 39
  | Insn.Bcall => 32
  | Insn.Bcall1 => 33
  | Insn.Bcall2 => 34
  | Insn.Bcall3 => 35
  | Insn.Bcall4 => 36
  | Insn.Bcall5 => 37
  | Insn.Bunbind6 => 46
  | Insn.Bunbind7 => 47
  | Insn.Bunbind => 40
  | Insn.Bunbind1 => 41
  | Insn.Bunbind2 => 42
  | Insn.Bunbind3 => 43
  | Insn.Bunbind4 => 44
  | Insn.Bunbind5 => 45
  | Insn.Bunbind_all => 146
  | Insn.Bgoto => 130
  | Insn.Bgotoifnonnil => 132
  | Insn.Bgotoifnilelsepop => 133
  | Insn.Bgotoifnonnilelsepop => 134
  | Insn.BRgoto => 170
  | Insn.BRgotoifnil => 171
  | Insn.BRgotoifnonnil => 172
  | Insn.BRgotoifnilelsepop => 173
  | Insn.BRgotoifnonnilelsepop => 174
  | Insn.Breturn => 135
  | Insn.Bdiscard => 136
  | Insn.Bconstant2 => 129
  | Insn.Bsave_excursion => 138
  | Insn.Bsave_current_buffer => 97
  | Insn.Bsave_current_buffer_1 => 114
  | Insn.Bsave_window_excursion => 139
  | Insn.Bsave_restriction => 140
  | Insn.Bcatch => 141
  | Insn.Bpushcatch => 50
  | Insn.Bpushconditioncase => 49
  | Insn.Bpophandler => 48
  | Insn.Bunwind_protect => 142
  | Insn.Bcondition_case => 143
  | Insn.Btemp_output_buffer_setup => 144
  | Insn.Btemp_output_buffer_show => 145
  | Insn.Bnth => 56
  | Insn.Bsymbolp => 57
  | Insn.Bconsp => 58
  | Insn.Bstringp => 59
  | Insn.Blistp => 60
  | Insn.Bnot => 63
  | Insn.Bcons => 66
  | Insn.Blist1 => 67
  | Insn.Blist2 => 68
  | Insn.Blist3 => 69
  | Insn.Blist4 => 70
  | Insn.BlistN => 175
  | Insn.Blength => 71
  | Insn.Baref => 72
  | Insn.Baset => 73
  | Insn.Bsymbol_value => 74
  | Insn.Bsymbol_function => 75
  | Insn.Bset => 76
  | Insn.Bfset => 77
  | Insn.Bget => 78
  | Insn.Bsubstring => 79
  | Insn.Bconcat2 => 80
  | Insn.Bconcat3 => 81
  | Insn.Bconcat4 => 82
  | Insn.BconcatN => 176
  | Insn.Bsub1 => 83
  | Insn.Badd1 => 84
  | Insn.Beqlsign => 85
  | Insn.Bgtr => 86
  | Insn.Blss => 87
  | Insn.Bleq => 88
  | Insn.Bgeq => 89
  | Insn.Bdiff => 90
  | Insn.Bnegate => 91
  | Insn.Bplus => 92
  | Insn.Bmax => 93
  | Insn.Bmin => 94
  | Insn.Bmult => 95
  | Insn.Bquo => 165
  | Insn.Brem => 166
  | Insn.Bpoint => 96
  | Insn.Bgoto_char => 98
  | Insn.Binsert => 99
  | Insn.BinsertN => 177
  | Insn.Bpoint_max => 100
  | Insn.Bpoint_min => 101
  | Insn.Bchar_after => 102
  | Insn.Bfollowing_char => 103
  | Insn.Bpreceding_char => 104
  | Insn.Bcurrent_column => 105
  | Insn.Bindent_to => 106
  | Insn.Beolp => 108
  | Insn.Beobp => 109
  | Insn.Bbolp => 110
  | Insn.Bbobp => 111
  | Insn.Bcurrent_buffer => 112
  | Insn.Bset_buffer => 113
  | Insn.Binteractive_p => 116
  | Insn.Bforward_char => 117
  | Insn.Bforward_word => 118
  | Insn.Bskip_chars_forward => 119
  | Insn.Bskip_chars_backward => 120
  | Insn.Bforward_line => 121
  | Insn.Bchar_syntax => 122
  | Insn.Bbuffer_substring => 123
  | Insn.Bdelete_region => 124
  | Insn.Bnarrow_to_region => 125
  | Insn.Bwiden => 126
  | Insn.Bend_of_line => 127
  | Insn.Bset_marker => 147
  | Insn.Bmatch_beginning => 148
  | Insn.Bmatch_end => 149
  | Insn.Bupcase => 150
  | Insn.Bdowncase => 151
  | Insn.Bstringeqlsign => 152
  | Insn.Bstringlss => 153
  | Insn.Bequal => 154
  | Insn.Bnthcdr => 155
  | Insn.Belt => 156
  | Insn.Bmember => 157
  | Insn.Bassq => 158
  | Insn.Bnreverse => 159
  | Insn.Bsetcar => 160
  | Insn.Bsetcdr => 161
  | Insn.Bcar_safe => 162
  | Insn.Bcdr_safe => 163
  | Insn.Bnconc => 164
  | Insn.Bnumberp => 167
  | Insn.Bintegerp => 168
  | Insn.Bstack_ref1 => 1
  | Insn.Bstack_ref2 => 2
  | Insn.Bstack_ref3 => 3
  | Insn.Bstack_ref4 => 4
  | Insn.Bstack_ref5 => 5
  | Insn.Bstack_ref6 => 6
  | Insn.Bstack_ref7 => 7
  | Insn.Bstack_set => 178
  | Insn.Bstack_set2 => 179
  | Insn.BdiscardN => 182
  | Insn.Bconstant => 192
  | Insn.Bset_mark => 115
  | Insn.Bscan_buffer => 107

/-- The sample numbering in a given build, on a 64-bit host. -/
def stdConfig (build : Build) : Config :=
  { build := build, B := stdB, PTRDIFF_MAX := 2 ^ 63 - 1 }

/-! ## The host and the global state -/

/-- Modelled from the spec: the enumeration `handlertype` of `lisp.h`, the category
tag of a handler frame (catcher or condition-case). -/
inductive handlertype where
  | CATCHER
  | CONDITION_CASE
  deriving DecidableEq, Repr

/-- Modelled from the spec: `struct handler` of `lisp.h`, with the fields that
`bytecode.c` reads and writes: the category, the tag or clauses, the slot where
the thrown value lands, the saved destination offset and the saved
operand-stack top (kept as the number of live operand slots); and with the
interpreter state that `push_handler` and `sys_setjmp` save for the host's
unwinding: `byte_stack`, the frame list at the time, and of the registers in
`jmp` the value of `quitcounter`. -/
structure handler where
  type : handlertype
  tag_or_ch : LispObject
  val : LispObject
  bytecode_dest : Nat
  bytecode_top : Nat
  byte_stack : List (List Nat)
  jmp_quitcounter : Nat
  deriving DecidableEq, Repr

/-- Modelled from the spec: the global variables of the host that `bytecode.c`
touches directly (the active-frame list, the handler stack, the quit flags and
`pending_signals`), and the rest of the host state `host`.  `byte_stack_list` lists the byte strings of the linked
frames, innermost first. -/
structure World (H : Type) where
  byte_stack_list : List (List Nat)
  handlerlist : List handler
  Vquit_flag : LispObject
  Vinhibit_quit : LispObject
  Vthrow_on_input : LispObject
  pending_signals : Bool
  host : H

/-- What a call into the host comes back with: a value, or a non-local exit. -/
inductive HostResult (W α : Type) where
  | ok (value : α) (w : W)
  | exit (e : NonLocalExit) (w : W)

/-- The host functions and macros called by the interpreter, none of which is
defined in `bytecode.c`.  `primitive l args` stands for the primitive that the
body of label `l` applies to `args` (for `Bplus`, `Fplus (2, args)`), with the
inlined fast paths of that body folded in; `effect l args` for the
`record_unwind_protect` calls of the `Bsave_...` and `Bunwind_protect` bodies.
The macros that only read or write the host's own data (`SPECPDL_INDEX`, the
symbol accessors) work on `H`; functions that may run Lisp code work on the
whole `World`.

`unwind_to_catch e w` is what the host does with the non-local exit `e` raised
with globals `w`: the search for a handler (`Fthrow`, `Fsignal`) and
`unwind_to_catch`.  It is `none` when no handler on `handlerlist` catches `e`,
and otherwise the globals with which `sys_longjmp` is reached: the catching
handler is the head of `handlerlist` and holds the thrown value in `val`. -/
structure Host (H : Type) where
  SPECPDL_INDEX : H → Int
  unbind_to : Int → LispObject → World H → HostResult (World H) LispObject
  specbind : LispObject → LispObject → World H → HostResult (World H) Unit
  SYMBOLP : LispObject → Bool
  SYMBOL_PLAINVAL : Nat
  redirect : LispObject → H → Nat
  SYMBOL_VAL : LispObject → H → LispObject
  SYMBOL_TRAPPED_WRITE_P : LispObject → H → Bool
  SET_SYMBOL_VAL : LispObject → LispObject → H → H
  Fsymbol_value : LispObject → World H → HostResult (World H) LispObject
  set_internal : LispObject → LispObject → World H → HostResult (World H) Unit
  Ffuncall : List LispObject → World H → HostResult (World H) LispObject
  maybe_gc : World H → World H
  process_pending_signals : World H → HostResult (World H) Unit
  primitive : Insn → List LispObject → World H → HostResult (World H) LispObject
  effect : Insn → List LispObject → World H → HostResult (World H) Unit
  unwind_to_catch : NonLocalExit → World H → Option (World H)

/-! ## The interpreter state -/

/-- What stays fixed during one invocation of `exec_byte_code__`: the byte
string, the constant vector `vectorp` (of length `const_length`), `maxdepth`,
`count`, the binding-stack depth recorded at entry, and `next`, the frame list
found at entry (`stack.next = byte_stack_list`), over which the frame is
linked. -/
structure Frame where
  bytestr : List Nat
  vectorp : List LispObject
  maxdepth : Nat
  count : Int
  next : List (List Nat) := []

/-- The frame list while the frame of the invocation is its head:
`byte_stack_list == &stack`. -/
def Frame.linked (f : Frame) : List (List Nat) :=
  f.bytestr :: f.next

/-- The operand stack `top` lies within the `maxdepth + 1` slots allocated for
the frame: `top` starts at `stack_base` and `PUSH` stores at `*++top`, so
`maxdepth` values fit below `stack_lim`. -/
def Frame.fits (f : Frame) (top : List LispObject) : Prop :=
  top.length ≤ f.maxdepth

/-- What changes: the program counter (as an offset into the byte string), the
operand stack (head is `TOP`), the `unsigned char quitcounter`, and the
globals. -/
structure Machine (H : Type) where
  pc : Int
  top : List LispObject
  quitcounter : Nat
  world : World H

/-- Where one pass through the dispatch body ends: at `NEXT`, at `goto exit`,
in a non-local exit, in `emacs_abort ()`, or outside what the model describes
(a read or write outside the live operand stack, the constant vector or the
byte string, or a null `handlerlist`). -/
inductive Step (H : Type) where
  | next (m : Machine H)
  | exit (m : Machine H)
  | nonlocal (e : NonLocalExit) (m : Machine H)
  | abort
  | undefined

/-- How an invocation of `exec_byte_code__` ends. -/
inductive Result (H : Type) where
  | value (result : LispObject) (w : World H)
  | nonlocal (e : NonLocalExit) (w : World H)
  | abort
  | undefined
  | out_of_fuel

/-! ## The macros of `bytecode.c` -/

/-- The read `*stack.pc`. -/
def deref_pc {H : Type} (f : Frame) (m : Machine H) (k : Nat → Step H) : Step H :=
  if m.pc < 0 then Step.undefined
  else
    match f.bytestr[m.pc.toNat]? with
    | some b => k b
    | none => Step.undefined

/-- The macro `FETCH`, `*stack.pc++`. -/
def FETCH {H : Type} (f : Frame) (m : Machine H) (k : Nat → Machine H → Step H) : Step H :=
  deref_pc f m fun b => k b { m with pc := m.pc + 1 }

/-- The macro `FETCH2`, `(op = FETCH, op + (FETCH << 8))`. -/
def FETCH2 {H : Type} (f : Frame) (m : Machine H) (k : Nat → Machine H → Step H) : Step H :=
  FETCH f m fun op m => FETCH f m fun b m => k (op + (b <<< 8)) m

/-- The macro `PUSH (x)`, `*++top = x`.  The operand stack is kept as the list
of its live values; that the store lands within the slots of the frame is the
condition `Frame.fits` on the list that results, which the code does not check
(outside the `BYTE_CODE_SAFE` check at the head of the loop) and the theorems
about pushes assume. -/
def PUSH {H : Type} (x : LispObject) (m : Machine H) : Machine H :=
  { m with top := x :: m.top }

/-- The macro `POP`, `*top--`. -/
def POP {H : Type} (m : Machine H) (k : LispObject → Machine H → Step H) : Step H :=
  match m.top with
  | [] => Step.undefined
  | v :: rest => k v { m with top := rest }

/-- The macro `TOP`, `*top`, when read. -/
def TOP {H : Type} (m : Machine H) (k : LispObject → Step H) : Step H :=
  match m.top with
  | [] => Step.undefined
  | v :: _ => k v

/-- The macro `DISCARD (n)`, `top -= n`. -/
def DISCARD {H : Type} (n : Nat) (m : Machine H) (k : Machine H → Step H) : Step H :=
  if n ≤ m.top.length then k { m with top := m.top.drop n } else Step.undefined

/-- The read `top[-n]`. -/
def top_at {H : Type} (n : Int) (m : Machine H) (k : LispObject → Step H) : Step H :=
  if n < 0 then Step.undefined
  else
    match m.top[n.toNat]? with
    | some v => k v
    | none => Step.undefined

/-- The read `vectorp[i]`. -/
def vectorp_at {H : Type} (f : Frame) (i : Int) (k : LispObject → Step H) : Step H :=
  if i < 0 then Step.undefined
  else
    match f.vectorp[i.toNat]? with
    | some v => k v
    | none => Step.undefined

/-- The macro `CHECK_RANGE (ARG)`:
`BYTE_CODE_SAFE && bytestr_length <= (ARG) ? emacs_abort () : (void) 0`. -/
def CHECK_RANGE {H : Type} (c : Config) (f : Frame) (arg : Nat) (k : Step H) : Step H :=
  if c.build.BYTE_CODE_SAFE && decide (f.bytestr.length ≤ arg) then Step.abort else k

/-- The result of a host call that yields no value, followed by `k`. -/
def after_host {H α : Type} (r : HostResult (World H) α) (m : Machine H)
    (k : α → Machine H → Step H) : Step H :=
  match r with
  | HostResult.ok a w => k a { m with world := w }
  | HostResult.exit e w => Step.nonlocal e { m with world := w }

/-- The macro `BYTE_CODE_QUIT`.  `quitcounter++` is tested before it is
incremented, and wraps as an `unsigned char`.  The host's `quit ()` and
`Fthrow` do not return: the first raises `quit`, the second throws to its tag. -/
def BYTE_CODE_QUIT {H : Type} (h : Host H) (m : Machine H) (k : Machine H → Step H) : Step H :=
  let old := m.quitcounter
  let m := { m with quitcounter := (m.quitcounter + 1) % 256 }
  if old != 0 then k m
  else
    let m := { m with world := h.maybe_gc m.world }
    if !NILP m.world.Vquit_flag && NILP m.world.Vinhibit_quit then
      let flag := m.world.Vquit_flag
      let m := { m with world := { m.world with Vquit_flag := Qnil } }
      if m.world.Vthrow_on_input == flag then
        Step.nonlocal (NonLocalExit.throw m.world.Vthrow_on_input Qt) m
      else
        Step.nonlocal (NonLocalExit.signal Qquit Qnil) m
    else if m.world.pending_signals then
      after_host (h.process_pending_signals m.world) m fun _ m => k m
    else k m

/-- The macro `BYTE_CODE_QUIT` on its own, followed by nothing. -/
def quit_gate {H : Type} (h : Host H) (m : Machine H) : Step H :=
  BYTE_CODE_QUIT h m Step.next

/-- The globals after `BYTE_CODE_QUIT`, entered with `quitcounter = q` and
globals `w`, when it falls through; `none` when it leaves by `Fthrow`, `quit`
or out of `process_pending_signals`. -/
def gate_world {H : Type} (h : Host H) (q : Nat) (w : World H) : Option (World H) :=
  match quit_gate h { pc := 0, top := [], quitcounter := q, world := w } with
  | Step.next m => some m.world
  | _ => none

/-- Modelled from the spec: the function `error` of the host with a constant
message, which raises `error` with that message as data. -/
def error_exit (msg : String) : NonLocalExit :=
  NonLocalExit.signal Qerror (list1 (LispObject.string msg))

/-! ## Instruction bodies -/

/-- The body at label `varref`. -/
def varref {H : Type} (h : Host H) (f : Frame) (op : Int) (m : Machine H) : Step H :=
  vectorp_at f op fun v1 =>
    if !h.SYMBOLP v1 || h.redirect v1 m.world.host != h.SYMBOL_PLAINVAL
        || h.SYMBOL_VAL v1 m.world.host == Qunbound then
      after_host (h.Fsymbol_value v1 m.world) m fun v2 m => Step.next (PUSH v2 m)
    else
      Step.next (PUSH (h.SYMBOL_VAL v1 m.world.host) m)

/-- The body at label `varset`. -/
def varset {H : Type} (h : Host H) (f : Frame) (op : Int) (m : Machine H) : Step H :=
  vectorp_at f op fun sym =>
    POP m fun val m =>
      if h.SYMBOLP sym && val != Qunbound && h.redirect sym m.world.host == 0
          && !h.SYMBOL_TRAPPED_WRITE_P sym m.world.host then
        Step.next
          { m with world := { m.world with host := h.SET_SYMBOL_VAL sym val m.world.host } }
      else
        after_host (h.set_internal sym val m.world) m fun _ m => Step.next m

/-- The body at label `varbind`, `specbind (vectorp[op], POP)`. -/
def varbind {H : Type} (h : Host H) (f : Frame) (op : Int) (m : Machine H) : Step H :=
  vectorp_at f op fun sym =>
    POP m fun val m =>
      after_host (h.specbind sym val m.world) m fun _ m => Step.next m

/-- The body at label `docall`: `DISCARD (op); TOP = Ffuncall (op + 1, &TOP)`. -/
def docall {H : Type} (h : Host H) (op : Nat) (m : Machine H) : Step H :=
  if m.top.length < op + 1 then Step.undefined
  else
    after_host (h.Ffuncall (m.top.take (op + 1)).reverse m.world)
      { m with top := m.top.drop op }
      fun v m => Step.next { m with top := v :: m.top.drop 1 }

/-- The body at label `dounbind`, `unbind_to (SPECPDL_INDEX () - op, Qnil)`. -/
def dounbind {H : Type} (h : Host H) (op : Int) (m : Machine H) : Step H :=
  after_host (h.unbind_to (h.SPECPDL_INDEX m.world.host - op) Qnil m.world) m
    fun _ m => Step.next m

/-- The jump common to the long branches, once `op` holds the destination:
`BYTE_CODE_QUIT; CHECK_RANGE (op); stack.pc = stack.byte_string_start + op`. -/
def jump_to {H : Type} (c : Config) (h : Host H) (f : Frame) (op : Nat) (m : Machine H) :
    Step H :=
  BYTE_CODE_QUIT h m fun m => CHECK_RANGE c f op (Step.next { m with pc := op })

/-- The body of `Bgoto`: the gate comes before `FETCH2`. -/
def insn_Bgoto {H : Type} (c : Config) (h : Host H) (f : Frame) (m : Machine H) : Step H :=
  BYTE_CODE_QUIT h m fun m =>
    FETCH2 f m fun op m => CHECK_RANGE c f op (Step.next { m with pc := op })

/-- The bodies of `Bgotoifnil` (`ifnil = true`) and `Bgotoifnonnil`. -/
def insn_Bgotoif {H : Type} (c : Config) (h : Host H) (f : Frame) (ifnil : Bool)
    (m : Machine H) : Step H :=
  FETCH2 f m fun op m =>
    POP m fun v1 m =>
      if NILP v1 == ifnil then jump_to c h f op m else Step.next m

/-- The bodies of `Bgotoifnilelsepop` (`ifnil = true`) and
`Bgotoifnonnilelsepop`. -/
def insn_Bgotoifelsepop {H : Type} (c : Config) (h : Host H) (f : Frame) (ifnil : Bool)
    (m : Machine H) : Step H :=
  FETCH2 f m fun op m =>
    TOP m fun v =>
      if NILP v == ifnil then jump_to c h f op m
      else DISCARD 1 m fun m => Step.next m

/-- The body of `BRgoto`: `BYTE_CODE_QUIT; stack.pc += (int) *stack.pc - 127`. -/
def insn_BRgoto {H : Type} (h : Host H) (f : Frame) (m : Machine H) : Step H :=
  BYTE_CODE_QUIT h m fun m =>
    deref_pc f m fun b => Step.next { m with pc := m.pc + ((b : Int) - 127) }

/-- The bodies of `BRgotoifnil` (`ifnil = true`) and `BRgotoifnonnil`:
the operand byte is read after the gate, and `stack.pc++` follows in both
branches. -/
def insn_BRgotoif {H : Type} (h : Host H) (f : Frame) (ifnil : Bool) (m : Machine H) :
    Step H :=
  POP m fun v m =>
    if NILP v == ifnil then
      BYTE_CODE_QUIT h m fun m =>
        deref_pc f m fun b =>
          let m := { m with pc := m.pc + ((b : Int) - 128) }
          Step.next { m with pc := m.pc + 1 }
    else
      Step.next { m with pc := m.pc + 1 }

/-- The bodies of `BRgotoifnilelsepop` (`ifnil = true`) and
`BRgotoifnonnilelsepop`: `op = *stack.pc++` comes first. -/
def insn_BRgotoifelsepop {H : Type} (h : Host H) (f : Frame) (ifnil : Bool)
    (m : Machine H) : Step H :=
  FETCH f m fun op m =>
    TOP m fun v =>
      if NILP v == ifnil then
        BYTE_CODE_QUIT h m fun m => Step.next { m with pc := m.pc + ((op : Int) - 128) }
      else DISCARD 1 m fun m => Step.next m

/-- The body at label `pushhandler`, up to `sys_setjmp` returning zero:
`push_handler (POP, type)` links a new handler, which then receives the
destination and the operand-stack pointer; the host's `push_handler` has saved
the frame list in it and `sys_setjmp` the registers. -/
def pushhandler {H : Type} (f : Frame) (type : handlertype) (m : Machine H) : Step H :=
  POP m fun tag m =>
    FETCH2 f m fun dest m =>
      let c : handler :=
        { type := type, tag_or_ch := tag, val := Qnil,
          bytecode_dest := dest, bytecode_top := m.top.length,
          byte_stack := m.world.byte_stack_list, jmp_quitcounter := m.quitcounter }
      Step.next { m with world := { m.world with handlerlist := c :: m.world.handlerlist } }

/-- The block entered when `sys_setjmp (c->jmp)` returns non-zero: the handler
on top of `handlerlist` restores the operand-stack pointer, is unlinked, and its
`val` is pushed before the loop continues at `bytecode_dest`. -/
def handler_resume {H : Type} (c : Config) (f : Frame) (m : Machine H) : Step H :=
  match m.world.handlerlist with
  | [] => Step.undefined
  | hd :: next =>
    if m.top.length < hd.bytecode_top then Step.undefined
    else
      let m := { m with top := m.top.drop (m.top.length - hd.bytecode_top) }
      let dest := hd.bytecode_dest
      let m := { m with world := { m.world with handlerlist := next } }
      let m := PUSH hd.val m
      CHECK_RANGE c f dest (Step.next { m with pc := dest })

/-- A body that hands the top `n` operands, deepest first, to the primitive of
label `l` and leaves its value in their place: `TOP = F (TOP)`,
`v1 = POP; TOP = F (TOP, v1)`, `DISCARD (n - 1); TOP = F (n, &TOP)`, and for
`n = 0` `PUSH (F ())`. -/
def call_primitive {H : Type} (h : Host H) (l : Insn) (n : Nat) (m : Machine H) : Step H :=
  if m.top.length < n then Step.undefined
  else
    after_host (h.primitive l (m.top.take n).reverse m.world)
      { m with top := m.top.drop (n - 1) }
      fun v m' => Step.next { m' with top := v :: m.top.drop n }

/-- A body that only records an unwind action. -/
def call_effect {H : Type} (h : Host H) (l : Insn) (m : Machine H) : Step H :=
  after_host (h.effect l [] m.world) m fun _ m => Step.next m

/-- The body under `CASE_ABORT`: `call3 (Qerror, ...)` with the format string,
the opcode and the offset of the opcode byte; the Lisp function `error` does
not return. -/
def insn_abort {H : Type} (op : Nat) (m : Machine H) : Step H :=
  Step.nonlocal
    (NonLocalExit.signal Qerror
      (Flist [LispObject.string "Invalid byte opcode: op=%s, ptr=%d",
              make_number op, make_number (m.pc - 1)]))
    m

/-- The body of `Bstack_set` and `Bstack_set2` once the operand `n` is
fetched: `ptr = top - n; *ptr = POP`. -/
def stack_set {H : Type} (n : Nat) (m : Machine H) : Step H :=
  TOP m fun v =>
    if n < m.top.length then Step.next { m with top := (m.top.set n v).drop 1 }
    else Step.undefined

/-- The body of `BdiscardN`. -/
def insn_BdiscardN {H : Type} (f : Frame) (m : Machine H) : Step H :=
  FETCH f m fun op m =>
    if op &&& 0x80 != 0 then
      let op := op &&& 0x7F
      TOP m fun v =>
        if op < m.top.length then
          DISCARD op { m with top := m.top.set op v } fun m => Step.next m
        else Step.undefined
    else DISCARD op m fun m => Step.next m

/-- The body under `CASE_DEFAULT` and `CASE (Bconstant)`. -/
def insn_Bconstant {H : Type} (c : Config) (f : Frame) (op : Nat) (m : Machine H) : Step H :=
  if c.build.BYTE_CODE_SAFE
      && !(decide (c.B Insn.Bconstant ≤ op)
            && decide (op < c.B Insn.Bconstant + f.vectorp.length)) then
    Step.abort
  else
    vectorp_at f ((op : Int) - (c.B Insn.Bconstant : Int)) fun v => Step.next (PUSH v m)

/-! ## The dispatch body and the loop -/

/-- The body selected for label `l`, entered with the opcode byte in `op` and
the program counter behind that byte. -/
def exec_insn {H : Type} (c : Config) (h : Host H) (f : Frame) (l : Insn) (op : Nat)
    (m : Machine H) : Step H :=
  match l with
  | Insn.Bvarref7 => FETCH2 f m fun op m => varref h f op m
  | Insn.Bvarref | Insn.Bvarref1 | Insn.Bvarref2 | Insn.Bvarref3 | Insn.Bvarref4
  | Insn.Bvarref5 => varref h f ((op : Int) - (c.B Insn.Bvarref : Int)) m
  | Insn.Bvarref6 => FETCH f m fun op m => varref h f op m
  | Insn.Bgotoifnil => insn_Bgotoif c h f true m
  | Insn.Bvarset | Insn.Bvarset1 | Insn.Bvarset2 | Insn.Bvarset3 | Insn.Bvarset4
  | Insn.Bvarset5 => varset h f ((op : Int) - (c.B Insn.Bvarset : Int)) m
  | Insn.Bvarset7 => FETCH2 f m fun op m => varset h f op m
  | Insn.Bvarset6 => FETCH f m fun op m => varset h f op m
  | Insn.Bdup => TOP m fun v1 => Step.next (PUSH v1 m)
  | Insn.Bvarbind6 => FETCH f m fun op m => varbind h f op m
  | Insn.Bvarbind7 => FETCH2 f m fun op m => varbind h f op m
  | Insn.Bvarbind | Insn.Bvarbind1 | Insn.Bvarbind2 | Insn.Bvarbind3 | Insn.Bvarbind4
  | Insn.Bvarbind5 => varbind h f ((op : Int) - (c.B Insn.Bvarbind : Int)) m
  | Insn.Bcall6 => FETCH f m fun op m => docall h op m
  | Insn.Bcall7 => FETCH2 f m fun op m => docall h op m
  | Insn.Bcall | Insn.Bcall1 | Insn.Bcall2 | Insn.Bcall3 | Insn.Bcall4
  | Insn.Bcall5 => docall h (op - c.B Insn.Bcall) m
  | Insn.Bunbind6 => FETCH f m fun op m => dounbind h op m
  | Insn.Bunbind7 => FETCH2 f m fun op m => dounbind h op m
  | Insn.Bunbind | Insn.Bunbind1 | Insn.Bunbind2 | Insn.Bunbind3 | Insn.Bunbind4
  | Insn.Bunbind5 => dounbind h ((op : Int) - (c.B Insn.Bunbind : Int)) m
  | Insn.Bunbind_all =>
    after_host (h.unbind_to f.count Qnil m.world) m fun _ m => Step.next m
  | Insn.Bgoto => insn_Bgoto c h f m
  | Insn.Bgotoifnonnil => insn_Bgotoif c h f false m
  | Insn.Bgotoifnilelsepop => insn_Bgotoifelsepop c h f true m
  | Insn.Bgotoifnonnilelsepop => insn_Bgotoifelsepop c h f false m
  | Insn.BRgoto => insn_BRgoto h f m
  | Insn.BRgotoifnil => insn_BRgotoif h f true m
  | Insn.BRgotoifnonnil => insn_BRgotoif h f false m
  | Insn.BRgotoifnilelsepop => insn_BRgotoifelsepop h f true m
  | Insn.BRgotoifnonnilelsepop => insn_BRgotoifelsepop h f false m
  | Insn.Breturn => Step.exit m
  | Insn.Bdiscard => DISCARD 1 m fun m => Step.next m
  | Insn.Bconstant2 => FETCH2 f m fun i m => vectorp_at f i fun v => Step.next (PUSH v m)
  | Insn.Bsave_excursion | Insn.Bsave_current_buffer | Insn.Bsave_current_buffer_1
  | Insn.Bsave_restriction => call_effect h l m
  | Insn.Bpushcatch => pushhandler f handlertype.CATCHER m
  | Insn.Bpushconditioncase => pushhandler f handlertype.CONDITION_CASE m
  | Insn.Bpophandler =>
    match m.world.handlerlist with
    | [] => Step.undefined
    | _ :: next => Step.next { m with world := { m.world with handlerlist := next } }
  | Insn.Bunwind_protect =>
    POP m fun handler m =>
      after_host (h.effect l [handler] m.world) m fun _ m => Step.next m
  -- PUSH (F ())
  | Insn.Bpoint | Insn.Bpoint_max | Insn.Bpoint_min | Insn.Bfollowing_char
  | Insn.Bpreceding_char | Insn.Bcurrent_column | Insn.Beolp | Insn.Beobp | Insn.Bbolp
  | Insn.Bbobp | Insn.Bcurrent_buffer | Insn.Binteractive_p
  | Insn.Bwiden => call_primitive h l 0 m
  -- TOP = F (TOP)
  | Insn.Bcar | Insn.Bcdr | Insn.Bsymbolp | Insn.Bconsp | Insn.Bstringp | Insn.Blistp
  | Insn.Bnot | Insn.Blist1 | Insn.Blength | Insn.Bsymbol_value | Insn.Bsymbol_function
  | Insn.Bsub1 | Insn.Badd1 | Insn.Bnegate | Insn.Bgoto_char | Insn.Binsert
  | Insn.Bchar_after | Insn.Bindent_to | Insn.Bset_buffer | Insn.Bforward_char
  | Insn.Bforward_word | Insn.Bforward_line | Insn.Bchar_syntax | Insn.Bend_of_line
  | Insn.Bmatch_beginning | Insn.Bmatch_end | Insn.Bupcase | Insn.Bdowncase
  | Insn.Bnreverse | Insn.Bcar_safe | Insn.Bcdr_safe | Insn.Bnumberp | Insn.Bintegerp
  | Insn.Bsave_window_excursion
  | Insn.Btemp_output_buffer_setup => call_primitive h l 1 m
  -- v1 = POP; TOP = F (TOP, v1)   and   DISCARD (1); TOP = F (2, &TOP)
  | Insn.Beq | Insn.Bmemq | Insn.Bcons | Insn.Blist2 | Insn.Baref | Insn.Bset | Insn.Bfset
  | Insn.Bget | Insn.Bconcat2 | Insn.Beqlsign | Insn.Bgtr | Insn.Blss | Insn.Bleq
  | Insn.Bgeq | Insn.Bdiff | Insn.Bplus | Insn.Bmax | Insn.Bmin | Insn.Bmult | Insn.Bquo
  | Insn.Brem | Insn.Bskip_chars_forward | Insn.Bskip_chars_backward
  | Insn.Bbuffer_substring | Insn.Bdelete_region | Insn.Bnarrow_to_region
  | Insn.Bstringeqlsign | Insn.Bstringlss | Insn.Bequal | Insn.Bnthcdr | Insn.Belt
  | Insn.Bmember | Insn.Bassq | Insn.Bsetcar | Insn.Bsetcdr | Insn.Bnconc | Insn.Bcatch
  | Insn.Bnth
  | Insn.Btemp_output_buffer_show => call_primitive h l 2 m
  -- v2 = POP, v1 = POP; TOP = F (TOP, v1, v2)   and   DISCARD (2); TOP = F (3, &TOP)
  | Insn.Blist3 | Insn.Baset | Insn.Bsubstring | Insn.Bconcat3 | Insn.Bset_marker
  | Insn.Bcondition_case => call_primitive h l 3 m
  -- DISCARD (3); TOP = F (4, &TOP)
  | Insn.Blist4 | Insn.Bconcat4 => call_primitive h l 4 m
  -- op = FETCH; DISCARD (op - 1); TOP = F (op, &TOP)
  | Insn.BlistN | Insn.BconcatN
  | Insn.BinsertN => FETCH f m fun op m => call_primitive h l op m
  | Insn.Bset_mark => Step.nonlocal (error_exit "set-mark is an obsolete bytecode") m
  | Insn.Bscan_buffer => Step.nonlocal (error_exit "scan-buffer is an obsolete bytecode") m
  | Insn.Bstack_ref => insn_abort op m
  | Insn.Bstack_ref1 | Insn.Bstack_ref2 | Insn.Bstack_ref3 | Insn.Bstack_ref4
  | Insn.Bstack_ref5 =>
    top_at ((op : Int) - (c.B Insn.Bstack_ref : Int)) m fun v1 => Step.next (PUSH v1 m)
  | Insn.Bstack_ref6 => FETCH f m fun n m => top_at n m fun v1 => Step.next (PUSH v1 m)
  | Insn.Bstack_ref7 => FETCH2 f m fun n m => top_at n m fun v1 => Step.next (PUSH v1 m)
  | Insn.Bstack_set => FETCH f m fun n m => stack_set n m
  | Insn.Bstack_set2 => FETCH2 f m fun n m => stack_set n m
  | Insn.BdiscardN => insn_BdiscardN f m
  | Insn.Bconstant => insn_Bconstant c f op m

/-- One pass through the `while (true)` loop: the `BYTE_CODE_SAFE` check of the
operand-stack pointer against `stack_base` and `stack_lim`, `op = FETCH`, and
the selected body. -/
def step {H : Type} (c : Config) (h : Host H) (f : Frame) (m : Machine H) : Step H :=
  if c.build.BYTE_CODE_SAFE && !(decide (m.top.length < f.maxdepth + 1)) then Step.abort
  else FETCH f m fun op m => exec_insn c h f (dispatch c op) op m

/-- The code at label `exit`. -/
def exit_sequence {H : Type} (h : Host H) (f : Frame) (m : Machine H) : Result H :=
  -- byte_stack_list = byte_stack_list->next;
  match m.world.byte_stack_list with
  | [] => Result.undefined
  | _ :: next =>
    let w : World H := { m.world with byte_stack_list := next }
    if h.SPECPDL_INDEX w.host != f.count then
      if h.SPECPDL_INDEX w.host > f.count then
        match h.unbind_to f.count Qnil w with
        | HostResult.ok _ w =>
          Result.nonlocal (error_exit "binding stack not balanced (serious byte compiler bug)") w
        | HostResult.exit e w => Result.nonlocal e w
      else
        Result.nonlocal (error_exit "binding stack not balanced (serious byte compiler bug)") w
    else
      -- Lisp_Object result = TOP;
      match m.top with
      | [] => Result.undefined
      | result :: _ => Result.value result w

/-- How one turn of the loop `while (true)` ends, the code at `exit` and the
block behind `sys_setjmp` included: the loop goes on with the next
instruction, or the invocation is over. -/
inductive Turn (H : Type) where
  | next (m : Machine H)
  | done (r : Result H)

/-- Where the non-local exit `e`, raised with machine `m`, takes this
invocation.  The host searches for a handler and unwinds to it
(`unwind_to_catch`); `sys_longjmp (catch->jmp, 1)` then returns to the
`sys_setjmp` of the invocation that pushed the handler.  That is this
invocation when the handler saved this invocation's frame as the head of the
frame list (`catch->byte_stack == &stack`): the block behind `sys_setjmp` runs,
with `quitcounter` as the jump leaves it, and the loop goes on.  Otherwise the
exit leaves the invocation.  (A handler of an enclosing invocation or of the
host's callers saved a shorter list, one of a nested invocation a longer one;
a handler that the host pushes during a call out of this invocation catches
inside that call, whose outcome is then that of the host function.) -/
def landing {H : Type} (c : Config) (h : Host H) (f : Frame) (e : NonLocalExit)
    (m : Machine H) : Turn H :=
  match h.unwind_to_catch e m.world with
  | none => Turn.done (Result.nonlocal e m.world)
  | some w =>
    match w.handlerlist with
    | [] => Turn.done (Result.nonlocal e m.world)
    | hd :: _ =>
      if hd.byte_stack = f.linked then
        match handler_resume c f
            { m with quitcounter := c.longjmp_quitcounter hd.jmp_quitcounter m.quitcounter % 256,
                     world := w } with
        | Step.next m => Turn.next m
        | Step.abort => Turn.done Result.abort
        | _ => Turn.done Result.undefined
      else Turn.done (Result.nonlocal e m.world)

/-- One turn of the loop: one pass through the dispatch body, then the code at
`exit` if the pass went there, and the landing of a non-local exit raised by
either. -/
def turn {H : Type} (c : Config) (h : Host H) (f : Frame) (m : Machine H) : Turn H :=
  match step c h f m with
  | Step.next m => Turn.next m
  | Step.exit m =>
    match exit_sequence h f m with
    | Result.nonlocal e w => landing c h f e { m with world := w }
    | r => Turn.done r
  | Step.nonlocal e m => landing c h f e m
  | Step.abort => Turn.done Result.abort
  | Step.undefined => Turn.done Result.undefined

/-- The `while (true)` loop followed by the code at `exit`, for at most `fuel`
turns. -/
def run {H : Type} (c : Config) (h : Host H) (f : Frame) : Nat → Machine H → Result H
  | 0, _ => Result.out_of_fuel
  | fuel + 1, m =>
    match turn c h f m with
    | Turn.next m => run c h f fuel m
    | Turn.done r => r

/-- The function `exec_byte_code__` on a unibyte string `bytestr`, a vector
`vector` and a natural number `maxdepth` (the arguments that pass
`CHECK_STRING`, `CHECK_VECTOR` and `CHECK_NATNUM`).  `args_template` is `none`
for `Qnil` and `some tmpl` for a non-negative integer; `args` are the `nargs`
actuals.  The frame is linked, `count` is recorded, the arguments are unpacked
and the loop is entered.  No handler of this invocation exists while the
arguments are unpacked, so the unpacker's signal leaves the invocation. -/
def exec_byte_code__ {H : Type} (c : Config) (h : Host H) (bytestr : List Nat)
    (vector : List LispObject) (maxdepth : Nat) (args_template : Option Nat)
    (args : List LispObject) (w : World H) (fuel : Nat) : Result H :=
  -- stack.next = byte_stack_list; byte_stack_list = &stack;
  let next := w.byte_stack_list
  let w : World H := { w with byte_stack_list := bytestr :: w.byte_stack_list }
  let f : Frame :=
    { bytestr := bytestr, vectorp := vector, maxdepth := maxdepth,
      count := h.SPECPDL_INDEX w.host, next := next }
  match args_template with
  | none => run c h f fuel { pc := 0, top := [], quitcounter := 0, world := w }
  | some tmpl =>
    match unpack_args c.PTRDIFF_MAX tmpl args [] with
    | Except.error e => Result.nonlocal e w
    | Except.ok top => run c h f fuel { pc := 0, top := top, quitcounter := 0, world := w }

/-- The machine after `n` further instructions, provided each of them ends at
`NEXT`. -/
def after_steps {H : Type} (c : Config) (h : Host H) (f : Frame) :
    Nat → Machine H → Option (Machine H)
  | 0, m => some m
  | n + 1, m =>
    match step c h f m with
    | Step.next m => after_steps c h f n m
    | _ => none

/-- The machine after `n` further turns of the loop, provided the loop goes on
after each of them: each is an instruction that ends at `NEXT`, or one whose
non-local exit lands in a handler of this invocation. -/
def after_turns {H : Type} (c : Config) (h : Host H) (f : Frame) :
    Nat → Machine H → Option (Machine H)
  | 0, m => some m
  | n + 1, m =>
    match turn c h f m with
    | Turn.next m => after_turns c h f n m
    | Turn.done _ => none

/-- The primitive `byte-code`:
`exec_byte_code__ (bytestr, vector, maxdepth, Qnil, 0, NULL)`. -/
def Fbyte_code {H : Type} (c : Config) (h : Host H) (bytestr : List Nat)
    (vector : List LispObject) (maxdepth : Nat) (w : World H) (fuel : Nat) : Result H :=
  exec_byte_code__ c h bytestr vector maxdepth none [] w fuel

/-! ## Relocation -/

/-- Modelled from the spec: `struct byte_stack` of `bytecode.h`, the frame header,
with the fields `relocate_byte_stack` uses besides the link `next`: the program
counter and the start of the byte string as addresses (`0` is the null
pointer), and the Lisp string they belong to. -/
structure byte_stack where
  pc : Int
  byte_string_start : Int
  byte_string : Nat
  deriving DecidableEq, Repr

/-- The function `relocate_byte_stack` on the list of frames linked through
`next`; `SDATA` gives the address at which each string's bytes now lie. -/
def relocate_byte_stack (HAVE_LIBJIT : Bool) (SDATA : Nat → Int) :
    List byte_stack → List byte_stack
  | [] => []
  | stack :: next =>
    (if HAVE_LIBJIT && stack.byte_string_start == 0 then stack
     else if stack.byte_string_start != SDATA stack.byte_string then
       let offset := stack.pc - stack.byte_string_start
       let stack := { stack with byte_string_start := SDATA stack.byte_string }
       { stack with pc := stack.byte_string_start + offset }
     else stack) :: relocate_byte_stack HAVE_LIBJIT SDATA next

/-- The byte a frame fetches next, `*stack.pc`, when the bytes of string `s`
are `contents s` and lie at address `SDATA s`. -/
def fetch_at (contents : Nat → List Nat) (SDATA : Nat → Int) (stack : byte_stack) :
    Option Nat :=
  let i := stack.pc - SDATA stack.byte_string
  if i < 0 then none else (contents stack.byte_string)[i.toNat]?

/-! ## A sample host -/

/-- A small host for instantiating the theorems: it has no binding stack and
no symbol values, its gate never fires, and the only primitive with a value of
its own is the addition of two integers. -/
def arithHost : Host Unit where
  SPECPDL_INDEX := fun _ => 0
  unbind_to := fun _ v w => HostResult.ok v w
  specbind := fun _ _ w => HostResult.ok () w
  SYMBOLP := fun x =>
    match x with
    | LispObject.symbol _ => true
    | LispObject.nil => true
    | LispObject.t => true
    | _ => false
  SYMBOL_PLAINVAL := 4
  redirect := fun _ _ => 4
  SYMBOL_VAL := fun _ _ => Qunbound
  SYMBOL_TRAPPED_WRITE_P := fun _ _ => false
  SET_SYMBOL_VAL := fun _ _ u => u
  Fsymbol_value := fun _ w => HostResult.ok Qnil w
  set_internal := fun _ _ w => HostResult.ok () w
  Ffuncall := fun _ w => HostResult.ok Qnil w
  maybe_gc := fun w => w
  process_pending_signals := fun w => HostResult.ok () w
  primitive := fun l args w =>
    match l, args with
    | Insn.Bplus, [LispObject.integer a, LispObject.integer b] =>
      HostResult.ok (LispObject.integer (a + b)) w
    | _, _ => HostResult.ok Qnil w
  effect := fun _ _ w => HostResult.ok () w
  unwind_to_catch := fun _ _ => none

/-- A quiet world: no frame linked, no handler, no quit requested. -/
def quietWorld : World Unit :=
  { byte_stack_list := [], handlerlist := [], Vquit_flag := Qnil, Vinhibit_quit := Qnil,
    Vthrow_on_input := Qnil, pending_signals := false, host := () }

/-! ## Classifying the outcome of an instruction -/

/-- A condition on where a pass through the dispatch body ends: `X` is asked of
the machine at `goto exit` and `Q` of a non-local exit; `NEXT`,
`emacs_abort ()` and the outcomes outside the model are left free. -/
def Step.Satisfies {H : Type} (X : Machine H → Prop) (Q : NonLocalExit → Prop) :
    Step H → Prop
  | Step.exit m => X m
  | Step.nonlocal e _ => Q e
  | _ => True

/-- A host whose state is the depth of its binding stack: `specbind` adds one
binding and `unbind_to` pops down to the depth it is given.  Everything else is
as in `arithHost`. -/
def depthHost : Host Int where
  SPECPDL_INDEX := fun d => d
  unbind_to := fun n v w => HostResult.ok v { w with host := n }
  specbind := fun _ _ w => HostResult.ok () { w with host := w.host + 1 }
  SYMBOLP := arithHost.SYMBOLP
  SYMBOL_PLAINVAL := 4
  redirect := fun _ _ => 4
  SYMBOL_VAL := fun _ _ => Qunbound
  SYMBOL_TRAPPED_WRITE_P := fun _ _ => false
  SET_SYMBOL_VAL := fun _ _ d => d
  Fsymbol_value := fun _ w => HostResult.ok Qnil w
  set_internal := fun _ _ w => HostResult.ok () w
  Ffuncall := fun _ w => HostResult.ok Qnil w
  maybe_gc := fun w => w
  process_pending_signals := fun w => HostResult.ok () w
  primitive := fun _ _ w => HostResult.ok Qnil w
  effect := fun _ _ w => HostResult.ok () w
  unwind_to_catch := fun _ _ => none

/-- A quiet world of `depthHost` with `d` bindings on the binding stack. -/
def depthWorld (d : Int) : World Int :=
  { byte_stack_list := [], handlerlist := [], Vquit_flag := Qnil, Vinhibit_quit := Qnil,
    Vthrow_on_input := Qnil, pending_signals := false, host := d }

/-! ## Hosts that keep the frame list -/

/-- The functions of the host leave `byte_stack_list` as they found it
whenever they return: a nested invocation has unlinked its frame by then. -/
structure Host.KeepsFrames {H : Type} (h : Host H) : Prop where
  unbind_to : ∀ n v w r w', h.unbind_to n v w = HostResult.ok r w' →
    w'.byte_stack_list = w.byte_stack_list
  specbind : ∀ s v w r w', h.specbind s v w = HostResult.ok r w' →
    w'.byte_stack_list = w.byte_stack_list
  Fsymbol_value : ∀ s w r w', h.Fsymbol_value s w = HostResult.ok r w' →
    w'.byte_stack_list = w.byte_stack_list
  set_internal : ∀ s v w r w', h.set_internal s v w = HostResult.ok r w' →
    w'.byte_stack_list = w.byte_stack_list
  Ffuncall : ∀ args w r w', h.Ffuncall args w = HostResult.ok r w' →
    w'.byte_stack_list = w.byte_stack_list
  maybe_gc : ∀ w, (h.maybe_gc w).byte_stack_list = w.byte_stack_list
  process_pending_signals : ∀ w r w', h.process_pending_signals w = HostResult.ok r w' →
    w'.byte_stack_list = w.byte_stack_list
  primitive : ∀ l args w r w', h.primitive l args w = HostResult.ok r w' →
    w'.byte_stack_list = w.byte_stack_list
  effect : ∀ l args w r w', h.effect l args w = HostResult.ok r w' →
    w'.byte_stack_list = w.byte_stack_list

/-- The frame list is `L` where a pass through the dispatch body ends at
`NEXT` or at `goto exit`. -/
def Step.Keeps {H : Type} (L : List (List Nat)) : Step H → Prop
  | Step.next m => m.world.byte_stack_list = L
  | Step.exit m => m.world.byte_stack_list = L
  | _ => True


/-- The five groups of labels that share one of the bodies `varref`, `varset`,
`varbind`, `docall` and `dounbind`. -/
inductive Family where
  | varref
  | varset
  | varbind
  | call
  | unbind
  deriving DecidableEq, Repr

/-- The label of the `k`-th form of a family: the base label for `k = 0`, the
labels with the suffixes 1 to 5, then the form with a one-byte operand
(suffix 6) and the form with a two-byte operand (suffix 7). -/
def Family.label : Family → Nat → Insn
  | Family.varref, 0 => Insn.Bvarref
  | Family.varref, 1 => Insn.Bvarref1
  | Family.varref, 2 => Insn.Bvarref2
  | Family.varref, 3 => Insn.Bvarref3
  | Family.varref, 4 => Insn.Bvarref4
  | Family.varref, 5 => Insn.Bvarref5
  | Family.varref, 6 => Insn.Bvarref6
  | Family.varref, _ => Insn.Bvarref7
  | Family.varset, 0 => Insn.Bvarset
  | Family.varset, 1 => Insn.Bvarset1
  | Family.varset, 2 => Insn.Bvarset2
  | Family.varset, 3 => Insn.Bvarset3
  | Family.varset, 4 => Insn.Bvarset4
  | Family.varset, 5 => Insn.Bvarset5
  | Family.varset, 6 => Insn.Bvarset6
  | Family.varset, _ => Insn.Bvarset7
  | Family.varbind, 0 => Insn.Bvarbind
  | Family.varbind, 1 => Insn.Bvarbind1
  | Family.varbind, 2 => Insn.Bvarbind2
  | Family.varbind, 3 => Insn.Bvarbind3
  | Family.varbind, 4 => Insn.Bvarbind4
  | Family.varbind, 5 => Insn.Bvarbind5
  | Family.varbind, 6 => Insn.Bvarbind6
  | Family.varbind, _ => Insn.Bvarbind7
  | Family.call, 0 => Insn.Bcall
  | Family.call, 1 => Insn.Bcall1
  | Family.call, 2 => Insn.Bcall2
  | Family.call, 3 => Insn.Bcall3
  | Family.call, 4 => Insn.Bcall4
  | Family.call, 5 => Insn.Bcall5
  | Family.call, 6 => Insn.Bcall6
  | Family.call, _ => Insn.Bcall7
  | Family.unbind, 0 => Insn.Bunbind
  | Family.unbind, 1 => Insn.Bunbind1
  | Family.unbind, 2 => Insn.Bunbind2
  | Family.unbind, 3 => Insn.Bunbind3
  | Family.unbind, 4 => Insn.Bunbind4
  | Family.unbind, 5 => Insn.Bunbind5
  | Family.unbind, 6 => Insn.Bunbind6
  | Family.unbind, _ => Insn.Bunbind7

/-- The body that the forms of a family jump to, entered with the operand in
`op`: the code at the labels `varref`, `varset`, `varbind`, `docall` and
`dounbind`. -/
def Family.body {H : Type} (h : Host H) (f : Frame) : Family → Nat → Machine H → Step H
  | Family.varref, op, m => Bytecode.varref h f (op : Int) m
  | Family.varset, op, m => Bytecode.varset h f (op : Int) m
  | Family.varbind, op, m => Bytecode.varbind h f (op : Int) m
  | Family.call, op, m => docall h op m
  | Family.unbind, op, m => dounbind h (op : Int) m

/-! ## The conditional jumps -/

/-- The label of a conditional jump by its form: `long` for the two-byte
absolute destination (`Bgoto...`) against the one-byte relative one
(`BRgoto...`), `ifnil` for the test, `elsepop` for the forms that keep the
tested value when they jump. -/
def cond_jump_label (long ifnil elsepop : Bool) : Insn :=
  match long, ifnil, elsepop with
  | true, true, false => Insn.Bgotoifnil
  | true, false, false => Insn.Bgotoifnonnil
  | true, true, true => Insn.Bgotoifnilelsepop
  | true, false, true => Insn.Bgotoifnonnilelsepop
  | false, true, false => Insn.BRgotoifnil
  | false, false, false => Insn.BRgotoifnonnil
  | false, true, true => Insn.BRgotoifnilelsepop
  | false, false, true => Insn.BRgotoifnonnilelsepop

/-! ## Branches and the quit gate -/

/-- The labels whose bodies contain `BYTE_CODE_QUIT`: the jumps. -/
def jumpLabels : List Insn :=
  [Insn.Bgoto, Insn.Bgotoifnil, Insn.Bgotoifnonnil, Insn.Bgotoifnilelsepop,
   Insn.Bgotoifnonnilelsepop, Insn.BRgoto, Insn.BRgotoifnil, Insn.BRgotoifnonnil,
   Insn.BRgotoifnilelsepop, Insn.BRgotoifnonnilelsepop]

/-- Whether the body of label `l`, entered with the operand stack `top`, takes
its branch: `Bgoto` and `BRgoto` always, the `ifnil` forms on a nil top of
stack, the `ifnonnil` forms on a non-nil one; no other label branches. -/
def branch_taken_label (l : Insn) (top : List LispObject) : Bool :=
  match l with
  | Insn.Bgoto | Insn.BRgoto => true
  | Insn.Bgotoifnil | Insn.Bgotoifnilelsepop | Insn.BRgotoifnil | Insn.BRgotoifnilelsepop =>
    match top with
    | v :: _ => NILP v
    | [] => false
  | Insn.Bgotoifnonnil | Insn.Bgotoifnonnilelsepop | Insn.BRgotoifnonnil
  | Insn.BRgotoifnonnilelsepop =>
    match top with
    | v :: _ => !NILP v
    | [] => false
  | _ => false

/-- Where the program counter stands, for a jump at offset `o`, when its body
reaches `BYTE_CODE_QUIT`: `Bgoto`, `BRgoto`, `BRgotoifnil` and `BRgotoifnonnil`
have not read their operand yet, the other jumps have. -/
def gate_pc (l : Insn) (o : Nat) : Int :=
  match l with
  | Insn.Bgotoifnil | Insn.Bgotoifnonnil | Insn.Bgotoifnilelsepop
  | Insn.Bgotoifnonnilelsepop => (o : Int) + 3
  | Insn.BRgotoifnilelsepop | Insn.BRgotoifnonnilelsepop => (o : Int) + 2
  | _ => (o : Int) + 1


/-- The bodies of the ten jumps with the gate as a parameter: the code of
`insn_Bgoto`, `insn_Bgotoif`, `insn_Bgotoifelsepop`, `insn_BRgoto`,
`insn_BRgotoif` and `insn_BRgotoifelsepop` (with `jump_to` written out), where
`G` stands in the place of the macro `BYTE_CODE_QUIT` and receives the machine
at that place and the rest of the body; the test `l == ...` is the `ifnil` of
the body.  With `BYTE_CODE_QUIT` for `G` these
are the bodies that `exec_insn` selects; with another `G` they show what the
macro is entered with. -/
def jump_body {H : Type} (G : Machine H → (Machine H → Step H) → Step H) (c : Config)
    (f : Frame) (l : Insn) (m : Machine H) : Step H :=
  match l with
  | Insn.Bgoto =>
    G m fun m => FETCH2 f m fun op m => CHECK_RANGE c f op (Step.next { m with pc := op })
  | Insn.Bgotoifnil | Insn.Bgotoifnonnil =>
    FETCH2 f m fun op m =>
      POP m fun v1 m =>
        if NILP v1 == (l == Insn.Bgotoifnil) then
          G m fun m => CHECK_RANGE c f op (Step.next { m with pc := op })
        else Step.next m
  | Insn.Bgotoifnilelsepop | Insn.Bgotoifnonnilelsepop =>
    FETCH2 f m fun op m =>
      TOP m fun v =>
        if NILP v == (l == Insn.Bgotoifnilelsepop) then
          G m fun m => CHECK_RANGE c f op (Step.next { m with pc := op })
        else DISCARD 1 m fun m => Step.next m
  | Insn.BRgoto =>
    G m fun m => deref_pc f m fun b => Step.next { m with pc := m.pc + ((b : Int) - 127) }
  | Insn.BRgotoifnil | Insn.BRgotoifnonnil =>
    POP m fun v m =>
      if NILP v == (l == Insn.BRgotoifnil) then
        G m fun m =>
          deref_pc f m fun b =>
            let m := { m with pc := m.pc + ((b : Int) - 128) }
            Step.next { m with pc := m.pc + 1 }
      else
        Step.next { m with pc := m.pc + 1 }
  | Insn.BRgotoifnilelsepop | Insn.BRgotoifnonnilelsepop =>
    FETCH f m fun op m =>
      TOP m fun v =>
        if NILP v == (l == Insn.BRgotoifnilelsepop) then
          G m fun m => Step.next { m with pc := m.pc + ((op : Int) - 128) }
        else DISCARD 1 m fun m => Step.next m
  | _ => Step.undefined

/-! ## A sample host that throws and catches -/

theorem arity_mandatory_eq (A : Nat) : A &&& 127 = A % 128 :=
  Nat.and_pow_two_sub_one_eq_mod A 7

theorem arity_nonrest_eq (A : Nat) : A >>> 8 = A / 256 :=
  Nat.shiftRight_eq_div_pow A 8

theorem arity_rest_eq (A : Nat) : ((A &&& 128) != 0) = A.testBit 7 := by
  have h : A &&& 128 = if A.testBit 7 then 128 else 0 := by
    apply Nat.eq_of_testBit_eq
    intro i
    rw [Nat.testBit_and]
    by_cases hi : i = 7
    · subst hi
      cases hb : A.testBit 7 <;> simp [hb]
    · have h128 : Nat.testBit 128 i = false := by
        have := @Nat.testBit_two_pow_of_ne 7 i (fun h => hi h.symm)
        simpa using this
      cases hb : A.testBit 7 <;> simp [h128]
  rw [h]
  cases A.testBit 7 <;> simp

/-! ### The argument unpacker and the arity -/

theorem foldl_push_eq (xs top : List LispObject) :
    xs.foldl (fun top a => a :: top) top = xs.reverse ++ top := by
  induction xs generalizing top with
  | nil => rfl
  | cons x xs ih => simp [List.foldl_cons, ih]

theorem unpack_args_reject (P A : Nat) (args top : List LispObject)
    (h : ¬ (arity_mandatory A ≤ args.length ∧
        args.length ≤ (if arity_rest A then P else arity_nonrest A))) :
    unpack_args P A args top =
      Except.error (NonLocalExit.signal Qwrong_number_of_arguments
        (list2 (Fcons (make_number (arity_mandatory A)) (make_number (arity_nonrest A)))
          (make_number args.length))) := by
  unfold unpack_args
  simp only [arity_mandatory, arity_rest, arity_nonrest] at h ⊢
  have h2 : (decide (A &&& 127 ≤ args.length)
      && decide (args.length ≤ if (A &&& 128 != 0) = true then P else A >>> 8)) = false := by
    cases hd : (decide (A &&& 127 ≤ args.length)
      && decide (args.length ≤ if (A &&& 128 != 0) = true then P else A >>> 8))
    · rfl
    · exact absurd (by simpa using hd) h
  rw [if_pos (by rw [h2]; rfl)]

theorem unpack_args_accept (P A : Nat) (args top : List LispObject)
    (h : arity_mandatory A ≤ args.length ∧
        args.length ≤ (if arity_rest A then P else arity_nonrest A)) :
    unpack_args P A args top =
      if arity_nonrest A < args.length then
        Except.ok (Flist (args.drop (arity_nonrest A)) :: ((args.take (arity_nonrest A)).reverse ++ top))
      else
        Except.ok (List.replicate
          (arity_nonrest A + (if arity_rest A then 1 else 0) - args.length) Qnil
            ++ (args.reverse ++ top)) := by
  unfold unpack_args
  simp only [arity_mandatory, arity_rest, arity_nonrest] at h ⊢
  have h2 : (decide (A &&& 127 ≤ args.length)
      && decide (args.length ≤ if (A &&& 128 != 0) = true then P else A >>> 8)) = true := by
    simpa using h
  rw [if_neg (by rw [h2]; decide)]
  simp only [foldl_push_eq]
  by_cases hlt : A >>> 8 < args.length
  · have hmin : min (A >>> 8) args.length = A >>> 8 := Nat.min_eq_left (Nat.le_of_lt hlt)
    have htake : List.take (args.length - A >>> 8) (List.drop (A >>> 8) args)
        = List.drop (A >>> 8) args := by
      apply List.take_of_length_le
      simp
    rw [if_pos hlt, if_pos hlt, hmin, htake]
  · have hle : args.length ≤ A >>> 8 := Nat.le_of_not_lt hlt
    have hmin : min (A >>> 8) args.length = args.length := Nat.min_eq_right hle
    have hcount : (((A >>> 8 : Nat) : Int)
          - ((args.length : Int) - (if (A &&& 128 != 0) = true then 1 else 0))).toNat
        = A >>> 8 + (if (A &&& 128 != 0) = true then 1 else 0) - args.length := by
      split <;> omega
    rw [if_neg hlt, if_neg hlt, hmin, hcount, List.take_length]


/-- An accepted call enters the loop with the unpacked arguments as the operand
stack. -/
theorem exec_byte_code___unpacked {H : Type} (c : Config) (h : Host H) (bytestr : List Nat)
    (vector : List LispObject) (maxdepth : Nat) (A : Nat) (args top : List LispObject)
    (w : World H) (fuel : Nat) (hu : unpack_args c.PTRDIFF_MAX A args [] = Except.ok top) :
    exec_byte_code__ c h bytestr vector maxdepth (some A) args w fuel =
      run c h
        { bytestr := bytestr, vectorp := vector, maxdepth := maxdepth,
          count := h.SPECPDL_INDEX w.host, next := w.byte_stack_list } fuel
        { pc := 0, top := top, quitcounter := 0,
          world := { w with byte_stack_list := bytestr :: w.byte_stack_list } } := by
  simp only [exec_byte_code__, hu]
/-- C1: for a non-negative descriptor `A` and `nargs` actuals (a `ptrdiff_t`
count, so at most `PTRDIFF_MAX`), the unpacker accepts exactly when
`mandatory ≤ nargs` and (`rest` or `nargs ≤ nonrest`), where
`mandatory = A & 127 = A mod 128`, `rest` is bit 7 of `A` and
`nonrest = A >> 8 = A div 256`; in every other case `exec_byte_code__` ends in
`wrong-number-of-arguments`, carrying `((mandatory . nonrest) nargs)`, whatever
the byte string and however many instructions it may run (so before the first
one). -/
theorem unpack_args_accepts_iff (c : Config) (A : Nat) (args : List LispObject)
    (hn : args.length ≤ c.PTRDIFF_MAX) :
    (arity_mandatory A = A % 128 ∧ arity_rest A = A.testBit 7 ∧ arity_nonrest A = A / 256) ∧
    ((∃ top, unpack_args c.PTRDIFF_MAX A args [] = Except.ok top) ↔
      (arity_mandatory A ≤ args.length ∧
        (arity_rest A = true ∨ args.length ≤ arity_nonrest A))) ∧
    (¬ (arity_mandatory A ≤ args.length ∧
        (arity_rest A = true ∨ args.length ≤ arity_nonrest A)) →
      ∀ (H : Type) (h : Host H) (bytestr : List Nat) (vector : List LispObject)
        (maxdepth : Nat) (w : World H) (fuel : Nat),
        exec_byte_code__ c h bytestr vector maxdepth (some A) args w fuel =
          Result.nonlocal
            (NonLocalExit.signal Qwrong_number_of_arguments
              (list2 (Fcons (make_number (arity_mandatory A)) (make_number (arity_nonrest A)))
                (make_number args.length)))
            { w with byte_stack_list := bytestr :: w.byte_stack_list }) := by
  have hcond : (arity_mandatory A ≤ args.length ∧
        args.length ≤ (if arity_rest A then c.PTRDIFF_MAX else arity_nonrest A)) ↔
      (arity_mandatory A ≤ args.length ∧
        (arity_rest A = true ∨ args.length ≤ arity_nonrest A)) := by
    cases hr : arity_rest A <;> simp [hn]
  refine ⟨⟨arity_mandatory_eq A, arity_rest_eq A, arity_nonrest_eq A⟩, ?_, ?_⟩
  · constructor
    · rintro ⟨top, htop⟩
      by_contra hno
      rw [unpack_args_reject _ _ _ _ (fun hc => hno (hcond.mp hc))] at htop
      cases htop
    · intro hyes
      rw [unpack_args_accept _ _ _ _ (hcond.mpr hyes)]
      split <;> exact ⟨_, rfl⟩
  · intro hno H h bytestr vector maxdepth w fuel
    unfold exec_byte_code__
    simp only [unpack_args_reject _ _ _ _ (fun hc => hno (hcond.mp hc))]

/-- Witness of C1: the descriptor of S4 with two actuals, which is accepted,
and with none, which is rejected. -/
theorem unpack_args_accepts_iff_witness :
    ((∃ top, unpack_args (stdConfig Build.threaded).PTRDIFF_MAX 641 [Qt, Qt] [] = Except.ok top) ↔
      (arity_mandatory 641 ≤ [Qt, Qt].length ∧
        (arity_rest 641 = true ∨ [Qt, Qt].length ≤ arity_nonrest 641))) ∧
    exec_byte_code__ (stdConfig Build.threaded) arithHost [stdB Insn.Breturn] [] 1 (some 641) []
        quietWorld 5 =
      Result.nonlocal
        (NonLocalExit.signal Qwrong_number_of_arguments
          (list2 (Fcons (make_number (arity_mandatory 641)) (make_number (arity_nonrest 641)))
            (make_number ([] : List LispObject).length)))
        { quietWorld with byte_stack_list := [stdB Insn.Breturn] :: quietWorld.byte_stack_list } :=
  ⟨(unpack_args_accepts_iff (stdConfig Build.threaded) 641 [Qt, Qt] (by decide)).2.1,
    (unpack_args_accepts_iff (stdConfig Build.threaded) 641 [] (by decide)).2.2 (by decide)
      Unit arithHost [stdB Insn.Breturn] [] 1 quietWorld 5⟩

/-- C2: `get_byte_code_arity (A)` is the pair of `A & 127` (that is
`A mod 128`) and either the marker `many`, when bit 7 of `A` is set, or the
integer `A >> 8` (that is `A div 256`). -/
theorem get_byte_code_arity_eq (A : Nat) :
    get_byte_code_arity A =
      LispObject.cons (LispObject.integer ((A &&& 127 : Nat) : Int))
        (if A.testBit 7 then LispObject.symbol "many"
         else LispObject.integer ((A >>> 8 : Nat) : Int))
    ∧ A &&& 127 = A % 128 ∧ A >>> 8 = A / 256 := by
  refine ⟨?_, arity_mandatory_eq A, arity_nonrest_eq A⟩
  unfold get_byte_code_arity
  simp only [arity_rest_eq]
  rfl

/-- C3: an accepted call whose descriptor has the rest flag, with more than
`nonrest` actuals, into a frame whose `maxdepth` leaves room for the
`nonrest + 1` values, enters the loop with this operand stack: bottom to top,
the first `nonrest` actuals in order and then one list of the remaining
`nargs - nonrest` actuals in order.  The stack lies within the slots of the
frame. -/
theorem unpack_args_rest_list {H : Type} (c : Config) (h : Host H) (bytestr : List Nat)
    (vector : List LispObject) (maxdepth : Nat) (A : Nat) (args : List LispObject)
    (w : World H) (fuel : Nat)
    (hrest : arity_rest A = true) (hmand : arity_mandatory A ≤ args.length)
    (hmax : args.length ≤ c.PTRDIFF_MAX) (hmore : arity_nonrest A < args.length)
    (hcap : arity_nonrest A + 1 ≤ maxdepth) :
    ∃ stack, unpack_args c.PTRDIFF_MAX A args [] = Except.ok stack ∧
      stack.reverse = args.take (arity_nonrest A) ++ [Flist (args.drop (arity_nonrest A))] ∧
      (args.take (arity_nonrest A)).length = arity_nonrest A ∧
      (args.drop (arity_nonrest A)).length = args.length - arity_nonrest A ∧
      Frame.fits
        { bytestr := bytestr, vectorp := vector, maxdepth := maxdepth,
          count := h.SPECPDL_INDEX w.host, next := w.byte_stack_list } stack ∧
      exec_byte_code__ c h bytestr vector maxdepth (some A) args w fuel =
        run c h
          { bytestr := bytestr, vectorp := vector, maxdepth := maxdepth,
            count := h.SPECPDL_INDEX w.host, next := w.byte_stack_list } fuel
          { pc := 0, top := stack, quitcounter := 0,
            world := { w with byte_stack_list := bytestr :: w.byte_stack_list } } := by
  have hu : unpack_args c.PTRDIFF_MAX A args [] = Except.ok
      (Flist (args.drop (arity_nonrest A)) :: ((args.take (arity_nonrest A)).reverse ++ [])) := by
    rw [unpack_args_accept c.PTRDIFF_MAX A args [] ⟨hmand, by simpa [hrest] using hmax⟩,
      if_pos hmore]
  refine ⟨_, hu, ?_, ?_, ?_, ?_, exec_byte_code___unpacked c h bytestr vector maxdepth A args _
    w fuel hu⟩
  · simp
  · simp [Nat.le_of_lt hmore]
  · simp
  · simp only [Frame.fits, List.length_cons, List.length_append, List.length_reverse,
      List.length_take, List.length_nil]
    omega

/-- Witness of C3: scenario S4, `A = (2<<8)|(1<<7)|1` and four actuals, gives
`[a0, a1, (a2 a3)]`, in a frame with `maxdepth = 3`. -/
theorem unpack_args_rest_list_witness :
    ∃ stack, unpack_args (2 ^ 63 - 1) ((2 <<< 8) ||| (1 <<< 7) ||| 1)
        [LispObject.integer 10, LispObject.integer 11, LispObject.integer 12,
          LispObject.integer 13] [] = Except.ok stack ∧
      stack.reverse = [LispObject.integer 10, LispObject.integer 11,
        Flist [LispObject.integer 12, LispObject.integer 13]] ∧
      stack.length ≤ 3 :=
  let ⟨stack, h1, h2, _, _, h5, _⟩ :=
    unpack_args_rest_list (stdConfig (Build.switch true)) arithHost [stdB Insn.Breturn] [] 3
      ((2 <<< 8) ||| (1 <<< 7) ||| 1)
      [LispObject.integer 10, LispObject.integer 11, LispObject.integer 12,
        LispObject.integer 13] quietWorld 1 (by decide) (by decide) (by decide) (by decide)
      (by decide)
  ⟨stack, h1, h2, h5⟩

/-- C4 as stated fails: with the rest flag set (`A = (2<<8)|(1<<7)`) and one
actual, `nargs = 1 < nonrest = 2`, yet the stack holds three values, the actual
and two nils, not `nonrest = 2` values with `nonrest - nargs = 1` nil. -/
theorem unpack_args_optional_fill_counterexample :
    unpack_args (2 ^ 63 - 1) 640 [LispObject.integer 7] []
        = Except.ok [Qnil, Qnil, LispObject.integer 7] ∧
      [LispObject.integer 7].length < arity_nonrest 640 ∧
      [Qnil, Qnil, LispObject.integer 7].length ≠ arity_nonrest 640 ∧
      [Qnil, Qnil, LispObject.integer 7].reverse ≠
        [LispObject.integer 7] ++
          List.replicate (arity_nonrest 640 - [LispObject.integer 7].length) Qnil :=
  ⟨rfl, by decide, by decide, by decide⟩

/-- C4, amended: an accepted call with `nargs < nonrest`, into a frame whose
`maxdepth` leaves room for the values pushed, enters the loop with this
operand stack: the `nargs` actuals in order followed by nils, `nonrest - nargs`
of them when the rest flag is clear (`nonrest` values in all), and one more,
`nonrest - nargs + 1`, when it is set (`nonrest + 1` values, the last nil being
the empty rest list).  The stack lies within the slots of the frame. -/
theorem unpack_args_optional_fill {H : Type} (c : Config) (h : Host H) (bytestr : List Nat)
    (vector : List LispObject) (maxdepth : Nat) (A : Nat) (args : List LispObject)
    (w : World H) (fuel : Nat)
    (hmand : arity_mandatory A ≤ args.length)
    (hmax : arity_rest A = true → args.length ≤ c.PTRDIFF_MAX)
    (hless : args.length < arity_nonrest A)
    (hcap : arity_nonrest A + (if arity_rest A then 1 else 0) ≤ maxdepth) :
    ∃ stack, unpack_args c.PTRDIFF_MAX A args [] = Except.ok stack ∧
      stack.reverse = args ++
        List.replicate (arity_nonrest A - args.length + (if arity_rest A then 1 else 0)) Qnil ∧
      stack.length = arity_nonrest A + (if arity_rest A then 1 else 0) ∧
      Frame.fits
        { bytestr := bytestr, vectorp := vector, maxdepth := maxdepth,
          count := h.SPECPDL_INDEX w.host, next := w.byte_stack_list } stack ∧
      exec_byte_code__ c h bytestr vector maxdepth (some A) args w fuel =
        run c h
          { bytestr := bytestr, vectorp := vector, maxdepth := maxdepth,
            count := h.SPECPDL_INDEX w.host, next := w.byte_stack_list } fuel
          { pc := 0, top := stack, quitcounter := 0,
            world := { w with byte_stack_list := bytestr :: w.byte_stack_list } } := by
  have hacc : arity_mandatory A ≤ args.length ∧
      args.length ≤ (if arity_rest A then c.PTRDIFF_MAX else arity_nonrest A) := by
    refine ⟨hmand, ?_⟩
    cases hr : arity_rest A
    · simpa using Nat.le_of_lt hless
    · simpa using hmax hr
  have hcount : arity_nonrest A + (if arity_rest A = true then 1 else 0) - args.length
      = arity_nonrest A - args.length + (if arity_rest A = true then 1 else 0) := by
    omega
  have hu : unpack_args c.PTRDIFF_MAX A args [] = Except.ok
      (List.replicate (arity_nonrest A + (if arity_rest A then 1 else 0) - args.length) Qnil
        ++ (args.reverse ++ [])) := by
    rw [unpack_args_accept c.PTRDIFF_MAX A args [] hacc, if_neg (Nat.lt_asymm hless)]
  have hlen : (List.replicate
      (arity_nonrest A + (if arity_rest A then 1 else 0) - args.length) Qnil
        ++ (args.reverse ++ [])).length = arity_nonrest A + (if arity_rest A then 1 else 0) := by
    simp only [List.length_append, List.length_replicate, List.length_reverse,
      List.length_nil]
    omega
  refine ⟨_, hu, ?_, hlen, ?_, exec_byte_code___unpacked c h bytestr vector maxdepth A args _
    w fuel hu⟩
  · simp [hcount]
  · unfold Frame.fits
    rw [hlen]
    exact hcap

/-- Witness of C4 amended, with and without the rest flag, in a frame with
`maxdepth = 3`. -/
theorem unpack_args_optional_fill_witness :
    (∃ stack, unpack_args (2 ^ 63 - 1) 640 [LispObject.integer 7] [] = Except.ok stack ∧
      stack.reverse = [LispObject.integer 7] ++ List.replicate
        (arity_nonrest 640 - [LispObject.integer 7].length + (if arity_rest 640 then 1 else 0))
        Qnil ∧
      stack.length = arity_nonrest 640 + (if arity_rest 640 then 1 else 0)) ∧
    (∃ stack, unpack_args (2 ^ 63 - 1) 512 [LispObject.integer 7] [] = Except.ok stack ∧
      stack.reverse = [LispObject.integer 7] ++ List.replicate
        (arity_nonrest 512 - [LispObject.integer 7].length + (if arity_rest 512 then 1 else 0))
        Qnil ∧
      stack.length = arity_nonrest 512 + (if arity_rest 512 then 1 else 0)) :=
  ⟨(unpack_args_optional_fill (stdConfig (Build.switch true)) arithHost [stdB Insn.Breturn]
      [] 3 640 [LispObject.integer 7] quietWorld 1 (by decide) (by decide) (by decide)
      (by decide)).imp fun _ hs => ⟨hs.1, hs.2.1, hs.2.2.1⟩,
   (unpack_args_optional_fill (stdConfig (Build.switch true)) arithHost [stdB Insn.Breturn]
      [] 3 512 [LispObject.integer 7] quietWorld 1 (by decide) (by decide) (by decide)
      (by decide)).imp fun _ hs => ⟨hs.1, hs.2.1, hs.2.2.1⟩⟩
/-! ### Relocation -/

theorem relocate_byte_stack_length (libjit : Bool) (SDATA : Nat → Int) (frames : List byte_stack) :
    (relocate_byte_stack libjit SDATA frames).length = frames.length := by
  induction frames with
  | nil => rfl
  | cons s next ih => simp [relocate_byte_stack, ih]

theorem relocate_byte_stack_getElem? (libjit : Bool) (SDATA : Nat → Int)
    (frames : List byte_stack) (i : Nat) :
    (relocate_byte_stack libjit SDATA frames)[i]? =
      (frames[i]?).map (fun s =>
        match relocate_byte_stack libjit SDATA [s] with
        | s' :: _ => s'
        | [] => s) := by
  induction frames generalizing i with
  | nil => simp [relocate_byte_stack]
  | cons s next ih =>
    cases i with
    | zero => simp [relocate_byte_stack]
    | succ i => simpa [relocate_byte_stack] using ih i

/-- C7: after `relocate_byte_stack`, run over any list of frames under any new
placement `SDATA` of the byte strings, the frame at each position still belongs
to the same string, and when its start was not null its `byte_string_start` is
the string's current address and its `pc` is that address plus the old
`pc - byte_string_start`; so `pc - byte_string_start` is unchanged, and the
next fetch reads the string's byte at that same offset, the byte the frame
would have fetched under any earlier placement its old start agreed with. -/
theorem relocate_byte_stack_offset (libjit : Bool) (SDATA : Nat → Int)
    (frames : List byte_stack) (i : Nat) (s : byte_stack)
    (hs : frames[i]? = some s) (hstart : s.byte_string_start ≠ 0) :
    (relocate_byte_stack libjit SDATA frames).length = frames.length ∧
    ∃ s', (relocate_byte_stack libjit SDATA frames)[i]? = some s' ∧
      s'.byte_string = s.byte_string ∧
      s'.byte_string_start = SDATA s.byte_string ∧
      s'.pc = SDATA s.byte_string + (s.pc - s.byte_string_start) ∧
      s'.pc - s'.byte_string_start = s.pc - s.byte_string_start ∧
      (∀ contents : Nat → List Nat,
        fetch_at contents SDATA s' =
          (if s.pc - s.byte_string_start < 0 then none
           else (contents s.byte_string)[(s.pc - s.byte_string_start).toNat]?) ∧
        ∀ SDATA₀ : Nat → Int, s.byte_string_start = SDATA₀ s.byte_string →
          fetch_at contents SDATA s' = fetch_at contents SDATA₀ s) := by
  refine ⟨relocate_byte_stack_length libjit SDATA frames, ?_⟩
  rw [relocate_byte_stack_getElem?, hs]
  have hne : (s.byte_string_start == 0) = false := by simpa using hstart
  by_cases hmoved : s.byte_string_start = SDATA s.byte_string
  · refine ⟨s, ?_, rfl, hmoved, by omega, rfl, ?_⟩
    · simp [relocate_byte_stack, hne, hmoved]
    · intro contents
      refine ⟨?_, ?_⟩
      · simp [fetch_at, ← hmoved]
      · intro SDATA₀ h0
        simp [fetch_at, ← hmoved, ← h0]
  · refine ⟨{ pc := SDATA s.byte_string + (s.pc - s.byte_string_start),
              byte_string_start := SDATA s.byte_string, byte_string := s.byte_string },
      ?_, rfl, rfl, rfl, by simp, ?_⟩
    · simp only [relocate_byte_stack, hne, Bool.and_false, Bool.false_eq_true, if_false,
        Option.map_some']
      simp [hmoved]
    · intro contents
      refine ⟨?_, ?_⟩
      · simp [fetch_at]
      · intro SDATA₀ h0
        simp [fetch_at, ← h0]

/-- Witness of C7: two frames, the outer one in a string that has moved from
address 1000 to 5000 while its program counter was 7 bytes in. -/
theorem relocate_byte_stack_offset_witness :
    (relocate_byte_stack true (fun s => if s = 1 then 5000 else 2000)
        [{ pc := 2003, byte_string_start := 2000, byte_string := 0 },
         { pc := 1007, byte_string_start := 1000, byte_string := 1 }]).length = 2 ∧
    ∃ s', (relocate_byte_stack true (fun s => if s = 1 then 5000 else 2000)
        [{ pc := 2003, byte_string_start := 2000, byte_string := 0 },
         { pc := 1007, byte_string_start := 1000, byte_string := 1 }])[1]? = some s' ∧
      s'.byte_string_start = 5000 ∧ s'.pc = 5007 :=
  let ⟨hlen, s', h1, _, h3, h4, _⟩ :=
    relocate_byte_stack_offset true (fun s => if s = 1 then 5000 else 2000)
      [{ pc := 2003, byte_string_start := 2000, byte_string := 0 },
       { pc := 1007, byte_string_start := 1000, byte_string := 1 }] 1
      { pc := 1007, byte_string_start := 1000, byte_string := 1 } rfl (by decide)
  ⟨hlen, s', h1, h3, h4⟩

/-! ### Dispatch -/

theorem find?_label {B : Insn → Nat} (hB : Function.Injective B) (l : Insn) (ls : List Insn)
    (hl : l ∈ ls) : ls.find? (fun x => B x == B l) = some l := by
  induction ls with
  | nil => cases hl
  | cons x xs ih =>
    by_cases hx : x = l
    · subst hx
      simp [List.find?_cons]
    · have hne : (B x == B l) = false := by
        simpa using fun hxl => hx (hB hxl)
      rw [List.find?_cons, hne]
      exact ih (by
        rcases List.mem_cons.mp hl with h | h
        · exact absurd h.symm hx
        · exact h)

theorem find?_above {B : Insn → Nat} (ls : List Insn) (op : Nat)
    (hop : ∀ l, B l < op) : ls.find? (fun x => B x == op) = none := by
  rw [List.find?_eq_none]
  intro x _
  have := hop x
  simp only [beq_iff_eq, Bool.not_eq_true]
  omega

theorem mem_switchLabels (safe : Bool) (l : Insn) (hl : l ∈ caseLabels) :
    l ∈ switchLabels safe :=
  List.mem_append_left _ hl

theorem mem_threadedLabels (l : Insn) (hl : l ∈ caseLabels) : l ∈ threadedLabels :=
  List.mem_cons_of_mem _ hl

/-- A byte that is the value of a `CASE` label selects that label's body, in
every build. -/
theorem dispatch_label (c : Config) (hc : c.WellFormed) (l : Insn) (hl : l ∈ caseLabels) :
    dispatch c (c.B l) = l := by
  unfold dispatch
  cases hb : c.build with
  | switch safe =>
    simp only [find?_label hc.injective l _ (mem_switchLabels safe l hl)]
  | threaded =>
    simp only [find?_label hc.injective l _ (mem_threadedLabels l hl)]

/-- A byte from `Bconstant` upwards selects the `Bconstant` body, in every
build. -/
theorem dispatch_constant (c : Config) (hc : c.WellFormed) (k : Nat) :
    dispatch c (c.B Insn.Bconstant + k) = Insn.Bconstant := by
  cases k with
  | zero => exact dispatch_label c hc Insn.Bconstant (by decide)
  | succ k =>
    have habove : ∀ l, c.B l < c.B Insn.Bconstant + (k + 1) := fun l =>
      Nat.lt_of_le_of_lt (hc.le_Bconstant l) (by omega)
    unfold dispatch
    cases hb : c.build with
    | switch safe =>
      simp only [find?_above _ _ habove]
      have : (c.B Insn.Bconstant + (k + 1) == 0) = false := by simp
      simp [this]
    | threaded =>
      simp only [find?_above _ _ habove]
      simp

theorem stdB_decode (l : Insn) :
    (threadedLabels ++ [Insn.Bset_mark, Insn.Bscan_buffer]).find? (fun x => stdB x == stdB l)
      = some l := by
  cases l <;> rfl

theorem stdConfig_wellFormed (build : Build) : (stdConfig build).WellFormed where
  injective := by
    intro a b hab
    have ha := stdB_decode a
    have hb := stdB_decode b
    simp only [stdConfig] at hab
    rw [hab, hb] at ha
    exact (Option.some.inj ha).symm
  le_Bconstant := by
    intro l
    show stdB l ≤ stdB Insn.Bconstant
    cases l <;> decide

/-! ### The gate -/

theorem BYTE_CODE_QUIT_pass {H : Type} (h : Host H) (m : Machine H) (k : Machine H → Step H)
    (w' : World H) (hg : gate_world h m.quitcounter m.world = some w') :
    BYTE_CODE_QUIT h m k =
      k { m with quitcounter := (m.quitcounter + 1) % 256, world := w' } := by
  by_cases hq : m.quitcounter = 0
  · by_cases hquit : (!NILP (h.maybe_gc m.world).Vquit_flag
        && NILP (h.maybe_gc m.world).Vinhibit_quit) = true
    · by_cases hthrow : ((h.maybe_gc m.world).Vthrow_on_input
          == (h.maybe_gc m.world).Vquit_flag) = true
      · simp [gate_world, quit_gate, BYTE_CODE_QUIT, hq, hquit, hthrow] at hg
      · simp [gate_world, quit_gate, BYTE_CODE_QUIT, hq, hquit, hthrow] at hg
    · by_cases hpend : (h.maybe_gc m.world).pending_signals = true
      · cases hps : h.process_pending_signals (h.maybe_gc m.world) with
        | ok a w =>
          simp [gate_world, quit_gate, BYTE_CODE_QUIT, hq, hquit, hpend, after_host, hps] at hg
          subst hg
          simp [BYTE_CODE_QUIT, hq, hquit, hpend, after_host, hps]
        | exit e w =>
          simp [gate_world, quit_gate, BYTE_CODE_QUIT, hq, hquit, hpend, after_host, hps] at hg
      · simp [gate_world, quit_gate, BYTE_CODE_QUIT, hq, hquit, hpend] at hg
        subst hg
        simp [BYTE_CODE_QUIT, hq, hquit, hpend]
  · simp [gate_world, quit_gate, BYTE_CODE_QUIT, hq] at hg
    subst hg
    simp [BYTE_CODE_QUIT, hq]

theorem BYTE_CODE_QUIT_block {H : Type} (h : Host H) (m : Machine H) (k : Machine H → Step H)
    (hg : gate_world h m.quitcounter m.world = none) :
    ∃ e m₂, BYTE_CODE_QUIT h m k = Step.nonlocal e m₂ := by
  by_cases hq : m.quitcounter = 0
  · by_cases hquit : (!NILP (h.maybe_gc m.world).Vquit_flag
        && NILP (h.maybe_gc m.world).Vinhibit_quit) = true
    · by_cases hthrow : ((h.maybe_gc m.world).Vthrow_on_input
          == (h.maybe_gc m.world).Vquit_flag) = true
      · exact ⟨_, _, by simp only [BYTE_CODE_QUIT, hq, hquit, hthrow]; rfl⟩
      · exact ⟨_, _, by simp only [BYTE_CODE_QUIT, hq, hquit, hthrow]; rfl⟩
    · by_cases hpend : (h.maybe_gc m.world).pending_signals = true
      · cases hps : h.process_pending_signals (h.maybe_gc m.world) with
        | ok a w =>
          simp [gate_world, quit_gate, BYTE_CODE_QUIT, hq, hquit, hpend, after_host, hps] at hg
        | exit e w =>
          exact ⟨e, _, by simp only [BYTE_CODE_QUIT, hq, hquit, hpend, after_host, hps]; rfl⟩
      · simp [gate_world, quit_gate, BYTE_CODE_QUIT, hq, hquit, hpend] at hg
  · simp [gate_world, quit_gate, BYTE_CODE_QUIT, hq] at hg

/-- If an instruction that passes the gate ends at `NEXT`, the gate fell
through and its continuation ended at `NEXT`. -/
theorem BYTE_CODE_QUIT_next {H : Type} (h : Host H) (m : Machine H) (k : Machine H → Step H)
    (m' : Machine H) (hn : BYTE_CODE_QUIT h m k = Step.next m') :
    ∃ w', gate_world h m.quitcounter m.world = some w' ∧
      k { m with quitcounter := (m.quitcounter + 1) % 256, world := w' } = Step.next m' := by
  cases hg : gate_world h m.quitcounter m.world with
  | none =>
    obtain ⟨e, m₂, hb⟩ := BYTE_CODE_QUIT_block h m k hg
    rw [hb] at hn
    cases hn
  | some w' =>
    rw [BYTE_CODE_QUIT_pass h m k w' hg] at hn
    exact ⟨w', rfl, hn⟩

/-! ### Fetching -/

theorem deref_pc_eq {H : Type} (f : Frame) (m : Machine H) (k : Nat → Step H) (o b : Nat)
    (hpc : m.pc = (o : Int)) (hb : f.bytestr[o]? = some b) : deref_pc f m k = k b := by
  unfold deref_pc
  have h0 : ¬ ((o : Int) < 0) := by omega
  simp [hpc, h0, hb]

theorem FETCH_eq {H : Type} (f : Frame) (m : Machine H) (k : Nat → Machine H → Step H)
    (o b : Nat) (hpc : m.pc = (o : Int)) (hb : f.bytestr[o]? = some b) :
    FETCH f m k = k b { m with pc := ((o + 1 : Nat) : Int) } := by
  unfold FETCH
  rw [deref_pc_eq f m _ o b hpc hb, hpc]
  rfl

theorem FETCH2_eq {H : Type} (f : Frame) (m : Machine H) (k : Nat → Machine H → Step H)
    (o b0 b1 : Nat) (hpc : m.pc = (o : Int)) (hb0 : f.bytestr[o]? = some b0)
    (hb1 : f.bytestr[o + 1]? = some b1) :
    FETCH2 f m k = k (b0 + 256 * b1) { m with pc := ((o + 2 : Nat) : Int) } := by
  unfold FETCH2
  rw [FETCH_eq f m _ o b0 hpc hb0, FETCH_eq f _ _ (o + 1) b1 rfl hb1]
  have : b1 <<< 8 = 256 * b1 := by rw [Nat.shiftLeft_eq]; omega
  rw [this]

/-- A pass through the loop whose stack pointer is within bounds (or is not
checked) fetches the opcode and enters the selected body. -/
theorem step_eq {H : Type} (c : Config) (h : Host H) (f : Frame) (m : Machine H) (o op : Nat)
    (hsafe : c.build.BYTE_CODE_SAFE = true → m.top.length ≤ f.maxdepth)
    (hpc : m.pc = (o : Int)) (hop : f.bytestr[o]? = some op) :
    step c h f m =
      exec_insn c h f (dispatch c op) op { m with pc := ((o + 1 : Nat) : Int) } := by
  unfold step
  have hcheck : (c.build.BYTE_CODE_SAFE && !(decide (m.top.length < f.maxdepth + 1))) = false := by
    cases hs : c.build.BYTE_CODE_SAFE
    · rfl
    · have := hsafe hs
      simp
      omega
  rw [hcheck, FETCH_eq f m _ o op hpc hop]
  rfl

/-- A pass through the loop that ends at `NEXT` went through the selected
body. -/
theorem step_next {H : Type} (c : Config) (h : Host H) (f : Frame) (m m' : Machine H)
    (o op : Nat) (hpc : m.pc = (o : Int)) (hop : f.bytestr[o]? = some op)
    (hn : step c h f m = Step.next m') :
    exec_insn c h f (dispatch c op) op { m with pc := ((o + 1 : Nat) : Int) } = Step.next m' := by
  by_cases hsafe : c.build.BYTE_CODE_SAFE = true → m.top.length ≤ f.maxdepth
  · rw [← step_eq c h f m o op hsafe hpc hop]
    exact hn
  · exfalso
    have hs : c.build.BYTE_CODE_SAFE = true := by
      by_contra hns
      exact hsafe (fun h1 => absurd h1 hns)
    have hlen : ¬ m.top.length ≤ f.maxdepth := fun hle => hsafe (fun _ => hle)
    unfold step at hn
    have hcheck : (c.build.BYTE_CODE_SAFE && !(decide (m.top.length < f.maxdepth + 1))) = true := by
      simp [hs]
      omega
    rw [hcheck] at hn
    simp at hn

/-! ### Jumps -/

/-- The two ways out of a gate whose continuation sets the program counter to
`T` and ends at `NEXT`. -/
theorem gate_then_next {H : Type} (h : Host H) (m : Machine H) (k : Machine H → Step H)
    (T : Int)
    (hk : ∀ w', k { m with quitcounter := (m.quitcounter + 1) % 256, world := w' } =
      Step.next { pc := T, top := m.top, quitcounter := (m.quitcounter + 1) % 256,
                  world := w' }) :
    (∀ m', BYTE_CODE_QUIT h m k = Step.next m' → m'.pc = T ∧ m'.top = m.top) ∧
    (∀ w', gate_world h m.quitcounter m.world = some w' →
      BYTE_CODE_QUIT h m k =
        Step.next { pc := T, top := m.top, quitcounter := (m.quitcounter + 1) % 256,
                    world := w' }) := by
  constructor
  · intro m' hn
    obtain ⟨w', _, hkn⟩ := BYTE_CODE_QUIT_next h m k m' hn
    rw [hk w'] at hkn
    cases hkn
    exact ⟨rfl, rfl⟩
  · intro w' hg
    rw [BYTE_CODE_QUIT_pass h m k w' hg, hk w']

theorem insn_BRgoto_spec {H : Type} (h : Host H) (f : Frame) (m : Machine H) (o b : Nat)
    (hpc : m.pc = ((o + 1 : Nat) : Int)) (hb : f.bytestr[o + 1]? = some b) :
    (∀ m', insn_BRgoto h f m = Step.next m' →
      m'.pc = ((o : Int) + 2) + ((b : Int) - 128) ∧ m'.top = m.top) ∧
    (∀ w', gate_world h m.quitcounter m.world = some w' →
      insn_BRgoto h f m =
        Step.next { pc := ((o : Int) + 2) + ((b : Int) - 128), top := m.top,
                    quitcounter := (m.quitcounter + 1) % 256, world := w' }) := by
  unfold insn_BRgoto
  apply gate_then_next
  intro w'
  refine (deref_pc_eq f _ _ (o + 1) b hpc hb).trans ?_
  simp only [hpc]
  congr 2
  push_cast
  ring

theorem insn_BRgotoif_spec {H : Type} (h : Host H) (f : Frame) (ifnil : Bool) (m : Machine H)
    (o b : Nat) (v : LispObject) (rest : List LispObject)
    (hpc : m.pc = ((o + 1 : Nat) : Int)) (hb : f.bytestr[o + 1]? = some b)
    (htop : m.top = v :: rest) (hv : NILP v = ifnil) :
    (∀ m', insn_BRgotoif h f ifnil m = Step.next m' →
      m'.pc = ((o : Int) + 2) + ((b : Int) - 128) ∧ m'.top = rest) ∧
    (∀ w', gate_world h m.quitcounter m.world = some w' →
      insn_BRgotoif h f ifnil m =
        Step.next { pc := ((o : Int) + 2) + ((b : Int) - 128), top := rest,
                    quitcounter := (m.quitcounter + 1) % 256, world := w' }) := by
  unfold insn_BRgotoif POP
  simp only [htop, hv, beq_self_eq_true, if_true]
  apply gate_then_next h { m with top := rest }
  intro w'
  refine (deref_pc_eq f _ _ (o + 1) b hpc hb).trans ?_
  simp only [hpc]
  congr 2
  push_cast
  ring

theorem insn_BRgotoifelsepop_spec {H : Type} (h : Host H) (f : Frame) (ifnil : Bool)
    (m : Machine H) (o b : Nat) (v : LispObject) (rest : List LispObject)
    (hpc : m.pc = ((o + 1 : Nat) : Int)) (hb : f.bytestr[o + 1]? = some b)
    (htop : m.top = v :: rest) (hv : NILP v = ifnil) :
    (∀ m', insn_BRgotoifelsepop h f ifnil m = Step.next m' →
      m'.pc = ((o : Int) + 2) + ((b : Int) - 128) ∧ m'.top = v :: rest) ∧
    (∀ w', gate_world h m.quitcounter m.world = some w' →
      insn_BRgotoifelsepop h f ifnil m =
        Step.next { pc := ((o : Int) + 2) + ((b : Int) - 128), top := v :: rest,
                    quitcounter := (m.quitcounter + 1) % 256, world := w' }) := by
  unfold insn_BRgotoifelsepop
  rw [FETCH_eq f m _ (o + 1) b hpc hb]
  unfold TOP
  simp only [htop, hv, beq_self_eq_true, if_true]
  have := gate_then_next h { m with pc := ((o + 1 + 1 : Nat) : Int) }
    (fun m => Step.next { m with pc := m.pc + ((b : Int) - 128) })
    (((o : Int) + 2) + ((b : Int) - 128))
    (by
      intro w'
      simp only
      congr 2)
  simpa only [htop] using this

/-- C8: a short relative jump at offset `o` with operand byte `b` whose branch
is taken (`BRgoto` always; `BRgotoifnil` and `BRgotoifnilelsepop` on a nil top
of stack; `BRgotoifnonnil` and `BRgotoifnonnilelsepop` on a non-nil one) leaves
the program counter at `(o + 2) + (b - 128)` whenever the instruction ends at
`NEXT`; and it does end at `NEXT`, with that program counter, whenever the
stack pointer passes the safe-build check and the gate falls through.  So
`b = 128` lands on the fall-through instruction, `b = 0` jumps by -128 and
`b = 255` by +127. -/
theorem short_jump_target {H : Type} (c : Config) (hc : c.WellFormed) (h : Host H) (f : Frame)
    (m : Machine H) (o b : Nat) (l : Insn)
    (hpc : m.pc = (o : Int)) (hop : f.bytestr[o]? = some (c.B l))
    (hb : f.bytestr[o + 1]? = some b)
    (htaken : l = Insn.BRgoto ∨
      ∃ v rest, m.top = v :: rest ∧
        ((NILP v = true ∧ (l = Insn.BRgotoifnil ∨ l = Insn.BRgotoifnilelsepop)) ∨
         (NILP v = false ∧ (l = Insn.BRgotoifnonnil ∨ l = Insn.BRgotoifnonnilelsepop)))) :
    (∀ m', step c h f m = Step.next m' → m'.pc = ((o : Int) + 2) + ((b : Int) - 128)) ∧
    (∀ w', (c.build.BYTE_CODE_SAFE = true → m.top.length ≤ f.maxdepth) →
      gate_world h m.quitcounter m.world = some w' →
      ∃ m', step c h f m = Step.next m' ∧ m'.pc = ((o : Int) + 2) + ((b : Int) - 128) ∧
        m'.quitcounter = (m.quitcounter + 1) % 256 ∧ m'.world = w') := by
  have key : ∀ body : Machine H → Step H,
      exec_insn c h f l (c.B l) { m with pc := ((o + 1 : Nat) : Int) }
        = body { m with pc := ((o + 1 : Nat) : Int) } →
      dispatch c (c.B l) = l →
      (∀ top', ((∀ m', body { m with pc := ((o + 1 : Nat) : Int) } = Step.next m' →
          m'.pc = ((o : Int) + 2) + ((b : Int) - 128) ∧ m'.top = top') ∧
        (∀ w', gate_world h m.quitcounter m.world = some w' →
          body { m with pc := ((o + 1 : Nat) : Int) } =
            Step.next { pc := ((o : Int) + 2) + ((b : Int) - 128), top := top',
                        quitcounter := (m.quitcounter + 1) % 256, world := w' })) →
      (∀ m', step c h f m = Step.next m' → m'.pc = ((o : Int) + 2) + ((b : Int) - 128)) ∧
      (∀ w', (c.build.BYTE_CODE_SAFE = true → m.top.length ≤ f.maxdepth) →
        gate_world h m.quitcounter m.world = some w' →
        ∃ m', step c h f m = Step.next m' ∧ m'.pc = ((o : Int) + 2) + ((b : Int) - 128) ∧
          m'.quitcounter = (m.quitcounter + 1) % 256 ∧ m'.world = w')) := by
    intro body hbody hdisp top' hspec
    constructor
    · intro m' hn
      have hex := step_next c h f m m' o (c.B l) hpc hop hn
      rw [hdisp, hbody] at hex
      exact (hspec.1 m' hex).1
    · intro w' hsafe hg
      refine ⟨{ pc := ((o : Int) + 2) + ((b : Int) - 128), top := top',
                quitcounter := (m.quitcounter + 1) % 256, world := w' }, ?_, rfl, rfl, rfl⟩
      rw [step_eq c h f m o (c.B l) hsafe hpc hop, hdisp, hbody]
      exact hspec.2 w' hg
  rcases htaken with hl | ⟨v, rest, htop, hcase⟩
  · subst hl
    exact key (insn_BRgoto h f) rfl (dispatch_label c hc _ (by decide)) m.top
      (insn_BRgoto_spec h f _ o b rfl hb)
  · rcases hcase with ⟨hv, hl | hl⟩ | ⟨hv, hl | hl⟩ <;> subst hl
    · exact key (insn_BRgotoif h f true) rfl (dispatch_label c hc _ (by decide)) rest
        (insn_BRgotoif_spec h f true _ o b v rest rfl hb htop hv)
    · exact key (insn_BRgotoifelsepop h f true) rfl (dispatch_label c hc _ (by decide))
        (v :: rest) (insn_BRgotoifelsepop_spec h f true _ o b v rest rfl hb htop hv)
    · exact key (insn_BRgotoif h f false) rfl (dispatch_label c hc _ (by decide)) rest
        (insn_BRgotoif_spec h f false _ o b v rest rfl hb htop hv)
    · exact key (insn_BRgotoifelsepop h f false) rfl (dispatch_label c hc _ (by decide))
        (v :: rest) (insn_BRgotoifelsepop_spec h f false _ o b v rest rfl hb htop hv)

/-- Witness of C8: `BRgoto` with `b = 128` falls through to offset 2,
`BRgotoifnonnilelsepop` with `b = 255` on a non-nil top jumps 127 beyond it, and
`BRgotoifnil` with `b = 0` on a nil top jumps 128 before it. -/
theorem short_jump_target_witness :
    (∃ m', step (stdConfig (Build.switch true)) arithHost
        { bytestr := [stdB Insn.BRgoto, 128], vectorp := [], maxdepth := 1, count := 0 }
        { pc := 0, top := [], quitcounter := 0, world := quietWorld } = Step.next m' ∧
      m'.pc = 2) ∧
    (∃ m', step (stdConfig Build.threaded) arithHost
        { bytestr := [stdB Insn.BRgotoifnonnilelsepop, 255], vectorp := [], maxdepth := 1,
          count := 0 }
        { pc := 0, top := [Qt], quitcounter := 7, world := quietWorld } = Step.next m' ∧
      m'.pc = 129) ∧
    (∃ m', step (stdConfig (Build.switch false)) arithHost
        { bytestr := [stdB Insn.BRgotoifnil, 0], vectorp := [], maxdepth := 1, count := 0 }
        { pc := 0, top := [Qnil], quitcounter := 255, world := quietWorld } = Step.next m' ∧
      m'.pc = -126) :=
  ⟨Exists.imp (fun _ hm => ⟨hm.1, hm.2.1⟩)
      ((short_jump_target (stdConfig (Build.switch true)) (stdConfig_wellFormed _) arithHost
        { bytestr := [stdB Insn.BRgoto, 128], vectorp := [], maxdepth := 1, count := 0 }
        { pc := 0, top := [], quitcounter := 0, world := quietWorld } 0 128 Insn.BRgoto
        rfl rfl rfl (Or.inl rfl)).2 quietWorld (by decide) rfl),
   Exists.imp (fun _ hm => ⟨hm.1, hm.2.1⟩)
      ((short_jump_target (stdConfig Build.threaded) (stdConfig_wellFormed _) arithHost
        { bytestr := [stdB Insn.BRgotoifnonnilelsepop, 255], vectorp := [], maxdepth := 1,
          count := 0 }
        { pc := 0, top := [Qt], quitcounter := 7, world := quietWorld } 0 255
        Insn.BRgotoifnonnilelsepop rfl rfl rfl
        (Or.inr ⟨Qt, [], rfl, Or.inr ⟨rfl, Or.inr rfl⟩⟩)).2 quietWorld (by decide) rfl),
   Exists.imp (fun _ hm => ⟨hm.1, hm.2.1⟩)
      ((short_jump_target (stdConfig (Build.switch false)) (stdConfig_wellFormed _) arithHost
        { bytestr := [stdB Insn.BRgotoifnil, 0], vectorp := [], maxdepth := 1, count := 0 }
        { pc := 0, top := [Qnil], quitcounter := 255, world := quietWorld } 0 0
        Insn.BRgotoifnil rfl rfl rfl
        (Or.inr ⟨Qnil, [], rfl, Or.inl ⟨rfl, Or.inl rfl⟩⟩)).2 quietWorld (by decide) rfl)⟩

theorem CHECK_RANGE_ok {H : Type} (c : Config) (f : Frame) (arg : Nat) (k : Step H)
    (hr : c.build.BYTE_CODE_SAFE = true → arg < f.bytestr.length) :
    CHECK_RANGE c f arg k = k := by
  unfold CHECK_RANGE
  cases hs : c.build.BYTE_CODE_SAFE
  · simp
  · have := hr hs
    have hd : decide (f.bytestr.length ≤ arg) = false := by
      simp only [decide_eq_false_iff_not]
      omega
    simp [hd]

theorem CHECK_RANGE_cases {H : Type} (c : Config) (f : Frame) (arg : Nat) (k : Step H) :
    CHECK_RANGE c f arg k = k ∨ CHECK_RANGE c f arg k = Step.abort := by
  unfold CHECK_RANGE
  split
  · exact Or.inr rfl
  · exact Or.inl rfl

/-- The two ways out of a gate whose continuation checks the destination `dest`,
sets the program counter to it and ends at `NEXT`. -/
theorem gate_then_check {H : Type} (c : Config) (h : Host H) (f : Frame) (m : Machine H)
    (k : Machine H → Step H) (dest : Nat) (top' : List LispObject)
    (hk : ∀ w', k { m with quitcounter := (m.quitcounter + 1) % 256, world := w' } =
      CHECK_RANGE c f dest
        (Step.next { pc := (dest : Int), top := top',
                     quitcounter := (m.quitcounter + 1) % 256, world := w' })) :
    (∀ m', BYTE_CODE_QUIT h m k = Step.next m' → m'.pc = (dest : Int) ∧ m'.top = top') ∧
    (∀ w', gate_world h m.quitcounter m.world = some w' →
      (c.build.BYTE_CODE_SAFE = true → dest < f.bytestr.length) →
      BYTE_CODE_QUIT h m k =
        Step.next { pc := (dest : Int), top := top',
                    quitcounter := (m.quitcounter + 1) % 256, world := w' }) := by
  constructor
  · intro m' hn
    obtain ⟨w', _, hkn⟩ := BYTE_CODE_QUIT_next h m k m' hn
    rw [hk w'] at hkn
    rcases CHECK_RANGE_cases c f dest
      (Step.next { pc := (dest : Int), top := top',
                   quitcounter := (m.quitcounter + 1) % 256, world := w' }) with hc | hc
    · rw [hc] at hkn
      cases hkn
      exact ⟨rfl, rfl⟩
    · rw [hc] at hkn
      cases hkn
  · intro w' hg hr
    rw [BYTE_CODE_QUIT_pass h m k w' hg, hk w', CHECK_RANGE_ok c f dest _ hr]

theorem insn_Bgoto_spec {H : Type} (c : Config) (h : Host H) (f : Frame) (m : Machine H)
    (o b0 b1 : Nat) (hpc : m.pc = ((o + 1 : Nat) : Int)) (hb0 : f.bytestr[o + 1]? = some b0)
    (hb1 : f.bytestr[o + 1 + 1]? = some b1) :
    (∀ m', insn_Bgoto c h f m = Step.next m' →
      m'.pc = ((b0 + 256 * b1 : Nat) : Int) ∧ m'.top = m.top) ∧
    (∀ w', gate_world h m.quitcounter m.world = some w' →
      (c.build.BYTE_CODE_SAFE = true → b0 + 256 * b1 < f.bytestr.length) →
      insn_Bgoto c h f m =
        Step.next { pc := ((b0 + 256 * b1 : Nat) : Int), top := m.top,
                    quitcounter := (m.quitcounter + 1) % 256, world := w' }) := by
  unfold insn_Bgoto
  apply gate_then_check
  intro w'
  exact FETCH2_eq f _ _ (o + 1) b0 b1 hpc hb0 hb1

theorem jump_to_spec {H : Type} (c : Config) (h : Host H) (f : Frame) (m : Machine H)
    (dest : Nat) :
    (∀ m', jump_to c h f dest m = Step.next m' → m'.pc = (dest : Int) ∧ m'.top = m.top) ∧
    (∀ w', gate_world h m.quitcounter m.world = some w' →
      (c.build.BYTE_CODE_SAFE = true → dest < f.bytestr.length) →
      jump_to c h f dest m =
        Step.next { pc := (dest : Int), top := m.top,
                    quitcounter := (m.quitcounter + 1) % 256, world := w' }) := by
  unfold jump_to
  apply gate_then_check
  intro w'
  rfl

theorem insn_Bgotoif_eq {H : Type} (c : Config) (h : Host H) (f : Frame) (ifnil : Bool)
    (m : Machine H) (o b0 b1 : Nat) (v : LispObject) (rest : List LispObject)
    (hpc : m.pc = ((o + 1 : Nat) : Int)) (hb0 : f.bytestr[o + 1]? = some b0)
    (hb1 : f.bytestr[o + 1 + 1]? = some b1) (htop : m.top = v :: rest) :
    insn_Bgotoif c h f ifnil m =
      if NILP v == ifnil then
        jump_to c h f (b0 + 256 * b1) { m with pc := ((o + 1 + 2 : Nat) : Int), top := rest }
      else Step.next { m with pc := ((o + 1 + 2 : Nat) : Int), top := rest } := by
  unfold insn_Bgotoif
  rw [FETCH2_eq f m _ (o + 1) b0 b1 hpc hb0 hb1]
  unfold POP
  simp only [htop]

theorem insn_Bgotoifelsepop_eq {H : Type} (c : Config) (h : Host H) (f : Frame) (ifnil : Bool)
    (m : Machine H) (o b0 b1 : Nat) (v : LispObject) (rest : List LispObject)
    (hpc : m.pc = ((o + 1 : Nat) : Int)) (hb0 : f.bytestr[o + 1]? = some b0)
    (hb1 : f.bytestr[o + 1 + 1]? = some b1) (htop : m.top = v :: rest) :
    insn_Bgotoifelsepop c h f ifnil m =
      if NILP v == ifnil then
        jump_to c h f (b0 + 256 * b1) { m with pc := ((o + 1 + 2 : Nat) : Int) }
      else Step.next { m with pc := ((o + 1 + 2 : Nat) : Int), top := rest } := by
  unfold insn_Bgotoifelsepop
  rw [FETCH2_eq f m _ (o + 1) b0 b1 hpc hb0 hb1]
  unfold TOP DISCARD
  simp [htop]

/-- What a conditional long jump does once its operand is read and its
condition `taken` is known. -/
theorem cond_jump_spec {H : Type} (c : Config) (h : Host H) (f : Frame) (m : Machine H)
    (body : Step H) (taken : Bool) (dest : Nat) (fall : Int) (top₁ top₂ : List LispObject)
    (hbody : body =
      if taken then jump_to c h f dest { m with pc := fall, top := top₁ }
      else Step.next { m with pc := fall, top := top₂ }) :
    (∀ m', body = Step.next m' → m'.pc = if taken then (dest : Int) else fall) ∧
    (∀ w', (taken = true → gate_world h m.quitcounter m.world = some w' ∧
          (c.build.BYTE_CODE_SAFE = true → dest < f.bytestr.length)) →
      ∃ m', body = Step.next m' ∧ m'.pc = if taken then (dest : Int) else fall) := by
  subst hbody
  cases taken with
  | false =>
    simp only [Bool.false_eq_true, if_false]
    exact ⟨fun m' hn => by cases hn; rfl, fun _ _ => ⟨_, rfl, rfl⟩⟩
  | true =>
    simp only [if_true]
    have hj := jump_to_spec c h f { m with pc := fall, top := top₁ } dest
    exact ⟨fun m' hn => (hj.1 m' hn).1,
      fun w' hw => ⟨_, hj.2 w' (hw trivial).1 (hw trivial).2, rfl⟩⟩

/-- C10: a long jump at offset `o` followed by the operand bytes `b0`, `b1`
continues, when its branch is taken (`Bgoto` always; the `ifnil` forms on a nil
top of stack, the `ifnonnil` forms on a non-nil one), at the absolute offset
`b0 + 256 * b1`, whatever `o` is, and otherwise at `o + 3`.  The instruction
ends at `NEXT` there whenever the stack pointer passes the safe-build check
and, for a taken branch, the gate falls through and the destination passes
`CHECK_RANGE`. -/
theorem long_jump_target {H : Type} (c : Config) (hc : c.WellFormed) (h : Host H) (f : Frame)
    (m : Machine H) (o b0 b1 : Nat) (l : Insn) (taken : Bool)
    (hpc : m.pc = (o : Int)) (hop : f.bytestr[o]? = some (c.B l))
    (hb0 : f.bytestr[o + 1]? = some b0) (hb1 : f.bytestr[o + 2]? = some b1)
    (hcase : (l = Insn.Bgoto ∧ taken = true) ∨
      ∃ v rest, m.top = v :: rest ∧
        (((l = Insn.Bgotoifnil ∨ l = Insn.Bgotoifnilelsepop) ∧ taken = NILP v) ∨
         ((l = Insn.Bgotoifnonnil ∨ l = Insn.Bgotoifnonnilelsepop) ∧ taken = !NILP v))) :
    (∀ m', step c h f m = Step.next m' →
      m'.pc = if taken then ((b0 + 256 * b1 : Nat) : Int) else (o : Int) + 3) ∧
    (∀ w', (c.build.BYTE_CODE_SAFE = true → m.top.length ≤ f.maxdepth) →
      (taken = true → gate_world h m.quitcounter m.world = some w' ∧
        (c.build.BYTE_CODE_SAFE = true → b0 + 256 * b1 < f.bytestr.length)) →
      ∃ m', step c h f m = Step.next m' ∧
        m'.pc = if taken then ((b0 + 256 * b1 : Nat) : Int) else (o : Int) + 3) := by
  have hfall : (((o + 1 + 2 : Nat) : Int)) = (o : Int) + 3 := by push_cast; ring
  have key : ∀ body : Step H,
      exec_insn c h f l (c.B l) { m with pc := ((o + 1 : Nat) : Int) } = body →
      dispatch c (c.B l) = l →
      ((∀ m', body = Step.next m' →
          m'.pc = if taken then ((b0 + 256 * b1 : Nat) : Int) else (o : Int) + 3) ∧
        (∀ w', (taken = true → gate_world h m.quitcounter m.world = some w' ∧
            (c.build.BYTE_CODE_SAFE = true → b0 + 256 * b1 < f.bytestr.length)) →
          ∃ m', body = Step.next m' ∧
            m'.pc = if taken then ((b0 + 256 * b1 : Nat) : Int) else (o : Int) + 3)) →
      (∀ m', step c h f m = Step.next m' →
        m'.pc = if taken then ((b0 + 256 * b1 : Nat) : Int) else (o : Int) + 3) ∧
      (∀ w', (c.build.BYTE_CODE_SAFE = true → m.top.length ≤ f.maxdepth) →
        (taken = true → gate_world h m.quitcounter m.world = some w' ∧
          (c.build.BYTE_CODE_SAFE = true → b0 + 256 * b1 < f.bytestr.length)) →
        ∃ m', step c h f m = Step.next m' ∧
          m'.pc = if taken then ((b0 + 256 * b1 : Nat) : Int) else (o : Int) + 3) := by
    intro body hbody hdisp hspec
    constructor
    · intro m' hn
      have hex := step_next c h f m m' o (c.B l) hpc hop hn
      rw [hdisp, hbody] at hex
      exact hspec.1 m' hex
    · intro w' hsafe hw
      rw [step_eq c h f m o (c.B l) hsafe hpc hop, hdisp, hbody]
      exact hspec.2 w' hw
  rcases hcase with ⟨hl, ht⟩ | ⟨v, rest, htop, hcase⟩
  · subst hl ht
    have hs := insn_Bgoto_spec c h f { m with pc := ((o + 1 : Nat) : Int) } o b0 b1 rfl hb0 hb1
    refine key _ rfl (dispatch_label c hc _ (by decide)) ⟨?_, ?_⟩
    · intro m' hn
      exact (hs.1 m' hn).1
    · intro w' hw
      exact ⟨_, hs.2 w' (hw rfl).1 (hw rfl).2, rfl⟩
  · have hnil : ∀ b : Bool, (b == true) = b := by intro b; cases b <;> rfl
    have hnon : ∀ b : Bool, (b == false) = !b := by intro b; cases b <;> rfl
    rcases hcase with ⟨hl | hl, ht⟩ | ⟨hl | hl, ht⟩ <;> subst hl
    · refine key _ (insn_Bgotoif_eq c h f true { m with pc := ((o + 1 : Nat) : Int) } o b0 b1
        v rest rfl hb0 hb1 htop) (dispatch_label c hc _ (by decide)) ?_
      rw [hnil, ← ht, ← hfall]
      exact cond_jump_spec c h f { m with pc := ((o + 1 : Nat) : Int) } _ taken _ _ _ _ rfl
    · refine key _ (insn_Bgotoifelsepop_eq c h f true { m with pc := ((o + 1 : Nat) : Int) }
        o b0 b1 v rest rfl hb0 hb1 htop) (dispatch_label c hc _ (by decide)) ?_
      rw [hnil, ← ht, ← hfall]
      exact cond_jump_spec c h f { m with pc := ((o + 1 : Nat) : Int) } _ taken _ _ m.top _ rfl
    · refine key _ (insn_Bgotoif_eq c h f false { m with pc := ((o + 1 : Nat) : Int) } o b0 b1
        v rest rfl hb0 hb1 htop) (dispatch_label c hc _ (by decide)) ?_
      rw [hnon, ← ht, ← hfall]
      exact cond_jump_spec c h f { m with pc := ((o + 1 : Nat) : Int) } _ taken _ _ _ _ rfl
    · refine key _ (insn_Bgotoifelsepop_eq c h f false { m with pc := ((o + 1 : Nat) : Int) }
        o b0 b1 v rest rfl hb0 hb1 htop) (dispatch_label c hc _ (by decide)) ?_
      rw [hnon, ← ht, ← hfall]
      exact cond_jump_spec c h f { m with pc := ((o + 1 : Nat) : Int) } _ taken _ _ m.top _ rfl

/-- Witness of C10: `Bgotoifnil` at offset 0 with operand bytes 4, 1 goes to
offset 260 on a nil top of stack and to offset 3 on a non-nil one. -/
theorem long_jump_target_witness :
    (∃ m', step (stdConfig Build.threaded) arithHost
        { bytestr := [stdB Insn.Bgotoifnil, 4, 1], vectorp := [], maxdepth := 1, count := 0 }
        { pc := 0, top := [Qnil], quitcounter := 0, world := quietWorld } = Step.next m' ∧
      m'.pc = 260) ∧
    (∃ m', step (stdConfig Build.threaded) arithHost
        { bytestr := [stdB Insn.Bgotoifnil, 4, 1], vectorp := [], maxdepth := 1, count := 0 }
        { pc := 0, top := [Qt], quitcounter := 0, world := quietWorld } = Step.next m' ∧
      m'.pc = 3) :=
  ⟨(long_jump_target (stdConfig Build.threaded) (stdConfig_wellFormed _) arithHost
      { bytestr := [stdB Insn.Bgotoifnil, 4, 1], vectorp := [], maxdepth := 1, count := 0 }
      { pc := 0, top := [Qnil], quitcounter := 0, world := quietWorld } 0 4 1
      Insn.Bgotoifnil true rfl rfl rfl rfl
      (Or.inr ⟨Qnil, [], rfl, Or.inl ⟨Or.inl rfl, rfl⟩⟩)).2 quietWorld (by decide)
      (fun _ => ⟨rfl, by decide⟩),
   (long_jump_target (stdConfig Build.threaded) (stdConfig_wellFormed _) arithHost
      { bytestr := [stdB Insn.Bgotoifnil, 4, 1], vectorp := [], maxdepth := 1, count := 0 }
      { pc := 0, top := [Qt], quitcounter := 0, world := quietWorld } 0 4 1
      Insn.Bgotoifnil false rfl rfl rfl rfl
      (Or.inr ⟨Qt, [], rfl, Or.inl ⟨Or.inl rfl, rfl⟩⟩)).2 quietWorld (by decide)
      (fun hf => absurd hf (by decide))⟩

/-! ### Single instructions of the scenarios -/

theorem step_Bconstant {H : Type} (c : Config) (hc : c.WellFormed) (h : Host H) (f : Frame)
    (m : Machine H) (o k : Nat) (v : LispObject)
    (hsafe : c.build.BYTE_CODE_SAFE = true → m.top.length ≤ f.maxdepth)
    (hpc : m.pc = (o : Int)) (hop : f.bytestr[o]? = some (c.B Insn.Bconstant + k))
    (hv : f.vectorp[k]? = some v) :
    step c h f m = Step.next { m with pc := ((o + 1 : Nat) : Int), top := v :: m.top } := by
  rw [step_eq c h f m o _ hsafe hpc hop, dispatch_constant c hc k]
  show insn_Bconstant c f (c.B Insn.Bconstant + k) _ = _
  unfold insn_Bconstant
  have hk : k < f.vectorp.length := by
    by_contra hge
    rw [List.getElem?_eq_none (Nat.le_of_not_lt hge)] at hv
    cases hv
  have hcheck : (c.build.BYTE_CODE_SAFE
      && !(decide (c.B Insn.Bconstant ≤ c.B Insn.Bconstant + k)
            && decide (c.B Insn.Bconstant + k < c.B Insn.Bconstant + f.vectorp.length)))
      = false := by
    have h1 : decide (c.B Insn.Bconstant ≤ c.B Insn.Bconstant + k) = true := by simp
    have h2 : decide (c.B Insn.Bconstant + k < c.B Insn.Bconstant + f.vectorp.length) = true := by
      simpa using hk
    rw [h1, h2]
    simp
  rw [hcheck]
  unfold vectorp_at
  have hidx : ((c.B Insn.Bconstant + k : Nat) : Int) - (c.B Insn.Bconstant : Int) = (k : Int) := by
    push_cast
    ring
  rw [hidx]
  have h0 : ¬ ((k : Int) < 0) := by omega
  simp [h0, hv, PUSH]

theorem step_Bdup {H : Type} (c : Config) (hc : c.WellFormed) (h : Host H) (f : Frame)
    (m : Machine H) (o : Nat) (v : LispObject) (rest : List LispObject)
    (hsafe : c.build.BYTE_CODE_SAFE = true → m.top.length ≤ f.maxdepth)
    (hpc : m.pc = (o : Int)) (hop : f.bytestr[o]? = some (c.B Insn.Bdup))
    (htop : m.top = v :: rest) :
    step c h f m = Step.next { m with pc := ((o + 1 : Nat) : Int), top := v :: v :: rest } := by
  rw [step_eq c h f m o _ hsafe hpc hop, dispatch_label c hc _ (by decide)]
  show TOP _ _ = _
  unfold TOP
  simp [htop, PUSH]

theorem step_Breturn {H : Type} (c : Config) (hc : c.WellFormed) (h : Host H) (f : Frame)
    (m : Machine H) (o : Nat)
    (hsafe : c.build.BYTE_CODE_SAFE = true → m.top.length ≤ f.maxdepth)
    (hpc : m.pc = (o : Int)) (hop : f.bytestr[o]? = some (c.B Insn.Breturn)) :
    step c h f m = Step.exit { m with pc := ((o + 1 : Nat) : Int) } := by
  rw [step_eq c h f m o _ hsafe hpc hop, dispatch_label c hc _ (by decide)]
  rfl

theorem step_Bplus {H : Type} (c : Config) (hc : c.WellFormed) (h : Host H) (f : Frame)
    (m : Machine H) (o : Nat) (x y : LispObject) (rest : List LispObject)
    (hsafe : c.build.BYTE_CODE_SAFE = true → m.top.length ≤ f.maxdepth)
    (hpc : m.pc = (o : Int)) (hop : f.bytestr[o]? = some (c.B Insn.Bplus))
    (htop : m.top = y :: x :: rest) :
    step c h f m =
      after_host (h.primitive Insn.Bplus [x, y] m.world)
        { m with pc := ((o + 1 : Nat) : Int), top := x :: rest }
        fun v m' => Step.next { m' with top := v :: rest } := by
  rw [step_eq c h f m o _ hsafe hpc hop, dispatch_label c hc _ (by decide)]
  show call_primitive h Insn.Bplus 2 _ = _
  unfold call_primitive
  simp [htop]

/-! ### Turns of the loop -/

theorem turn_next {H : Type} (c : Config) (h : Host H) (f : Frame) (m m' : Machine H)
    (hs : step c h f m = Step.next m') : turn c h f m = Turn.next m' := by
  simp only [turn, hs]

theorem run_next {H : Type} (c : Config) (h : Host H) (f : Frame) (fuel : Nat)
    (m m' : Machine H) (hs : step c h f m = Step.next m') :
    run c h f (fuel + 1) m = run c h f fuel m' := by
  simp only [run, turn_next c h f m m' hs]

theorem turn_value {H : Type} (c : Config) (h : Host H) (f : Frame) (m mr : Machine H)
    (v : LispObject) (w' : World H) (hs : step c h f m = Step.exit mr)
    (hx : exit_sequence h f mr = Result.value v w') :
    turn c h f m = Turn.done (Result.value v w') := by
  simp only [turn, hs, hx]

theorem run_value {H : Type} (c : Config) (h : Host H) (f : Frame) (fuel : Nat)
    (m mr : Machine H) (v : LispObject) (w' : World H) (hs : step c h f m = Step.exit mr)
    (hx : exit_sequence h f mr = Result.value v w') :
    run c h f (fuel + 1) m = Result.value v w' := by
  simp only [run, turn_value c h f m mr v w' hs hx]

/-- An exit that no handler catches leaves the invocation. -/
theorem landing_uncaught {H : Type} (c : Config) (h : Host H) (f : Frame) (e : NonLocalExit)
    (m : Machine H) (hu : h.unwind_to_catch e m.world = none) :
    landing c h f e m = Turn.done (Result.nonlocal e m.world) := by
  simp only [landing, hu]

/-- The landing in a handler of this invocation. -/
theorem landing_eq {H : Type} (c : Config) (h : Host H) (f : Frame) (e : NonLocalExit)
    (m m' : Machine H) (w : World H) (hd : handler) (below : List handler)
    (hu : h.unwind_to_catch e m.world = some w) (hlist : w.handlerlist = hd :: below)
    (hown : hd.byte_stack = f.linked)
    (hres : handler_resume c f
      { m with quitcounter := c.longjmp_quitcounter hd.jmp_quitcounter m.quitcounter % 256,
               world := w } = Step.next m') :
    landing c h f e m = Turn.next m' := by
  simp only [landing, hu, hlist, hown, if_true, hres]

/-- Instructions that end at `NEXT` are turns after which the loop goes on. -/
theorem after_steps_turns {H : Type} (c : Config) (h : Host H) (f : Frame) :
    ∀ (n : Nat) (m m₁ : Machine H), after_steps c h f n m = some m₁ →
      after_turns c h f n m = some m₁ := by
  intro n
  induction n with
  | zero =>
    intro m m₁ hn
    exact hn
  | succ n ih =>
    intro m m₁ hn
    cases hs : step c h f m with
    | next m₂ =>
      have hn' : after_steps c h f n m₂ = some m₁ := by simpa only [after_steps, hs] using hn
      simp only [after_turns, turn_next c h f m m₂ hs]
      exact ih m₂ m₁ hn'
    | exit m₂ => exact Option.noConfusion (by simpa only [after_steps, hs] using hn)
    | nonlocal e m₂ => exact Option.noConfusion (by simpa only [after_steps, hs] using hn)
    | abort => exact Option.noConfusion (by simpa only [after_steps, hs] using hn)
    | undefined => exact Option.noConfusion (by simpa only [after_steps, hs] using hn)

/-- The loop goes on from the machine that `n` turns lead to. -/
theorem run_after_turns {H : Type} (c : Config) (h : Host H) (f : Frame) :
    ∀ (n fuel : Nat) (m m₁ : Machine H), after_turns c h f n m = some m₁ →
      run c h f (n + fuel) m = run c h f fuel m₁ := by
  intro n
  induction n with
  | zero =>
    intro fuel m m₁ hn
    simp only [after_turns, Option.some.injEq] at hn
    rw [Nat.zero_add, hn]
  | succ n ih =>
    intro fuel m m₁ hn
    rw [Nat.succ_add]
    cases ht : turn c h f m with
    | next m₂ =>
      have hn' : after_turns c h f n m₂ = some m₁ := by simpa only [after_turns, ht] using hn
      simp only [run, ht]
      exact ih fuel m₂ m₁ hn'
    | done r => exact Option.noConfusion (by simpa only [after_turns, ht] using hn)

/-- The dispatch body does not look at the link `stack.next`. -/
theorem exec_insn_frame_next {H : Type} (c : Config) (h : Host H) (f : Frame)
    (L : List (List Nat)) (l : Insn) (op : Nat) (m : Machine H) :
    exec_insn c h { f with next := L } l op m = exec_insn c h f l op m := by
  cases l <;> rfl

theorem step_frame_next {H : Type} (c : Config) (h : Host H) (f : Frame)
    (L : List (List Nat)) (m : Machine H) :
    step c h { f with next := L } m = step c h f m := by
  unfold step FETCH deref_pc
  simp only [exec_insn_frame_next]

theorem after_steps_frame_next {H : Type} (c : Config) (h : Host H) (f : Frame)
    (L : List (List Nat)) :
    ∀ (n : Nat) (m : Machine H),
      after_steps c h { f with next := L } n m = after_steps c h f n m := by
  intro n
  induction n with
  | zero => intro m; rfl
  | succ n ih =>
    intro m
    simp only [after_steps, step_frame_next, ih]

/-- A non-local exit out of an instruction. -/
theorem turn_nonlocal {H : Type} (c : Config) (h : Host H) (f : Frame) (m m' : Machine H)
    (e : NonLocalExit) (hs : step c h f m = Step.nonlocal e m') :
    turn c h f m = landing c h f e m' := by
  simp only [turn, hs]

/-- C5 as stated fails: the descriptor `A = 1` encodes `mandatory = 1` and
`nonrest = 1 >> 8 = 0`, so the call with the single actual 42 is rejected with
`wrong-number-of-arguments` instead of returning 42. -/
theorem identity_scenario_counterexample :
    exec_byte_code__ (stdConfig (Build.switch false)) arithHost
        [stdB Insn.Bdup, stdB Insn.Breturn] [] 2 (some 1) [LispObject.integer 42]
        quietWorld 10 =
      Result.nonlocal
        (NonLocalExit.signal Qwrong_number_of_arguments
          (list2 (Fcons (make_number 1) (make_number 0)) (make_number 1)))
        { quietWorld with byte_stack_list := [[stdB Insn.Bdup, stdB Insn.Breturn]] } ∧
    arity_mandatory 1 = 1 ∧ arity_nonrest 1 = 0 ∧
    ∀ w, exec_byte_code__ (stdConfig (Build.switch false)) arithHost
        [stdB Insn.Bdup, stdB Insn.Breturn] [] 2 (some 1) [LispObject.integer 42]
        quietWorld 10 ≠ Result.value (LispObject.integer 42) w :=
  ⟨rfl, rfl, rfl, fun _ hv => Result.noConfusion hv⟩

/-- C5, amended: scenario S1 with the descriptor `A = 257 = (1 << 8) | 1`, the
one that encodes `mandatory = 1`, `nonrest = 1`: the bytes `[DUP, RETURN]` run
on the single actual 42 with a `max_depth` of at least 2 return 42, in every
build and for every well-formed opcode numbering, as soon as two instructions
may run; with `A = 1`, which encodes `nonrest = 0`, the same call is rejected
with `wrong-number-of-arguments`. -/
theorem identity_scenario {H : Type} (c : Config) (hc : c.WellFormed) (h : Host H)
    (vector : List LispObject) (maxdepth : Nat) (w : World H) (fuel : Nat)
    (hdepth : 2 ≤ maxdepth) (hfuel : 2 ≤ fuel) :
    (arity_mandatory 257 = 1 ∧ arity_nonrest 257 = 1 ∧ arity_rest 257 = false) ∧
    exec_byte_code__ c h [c.B Insn.Bdup, c.B Insn.Breturn] vector maxdepth (some 257)
        [LispObject.integer 42] w fuel = Result.value (LispObject.integer 42) w ∧
    exec_byte_code__ c h [c.B Insn.Bdup, c.B Insn.Breturn] vector maxdepth (some 1)
        [LispObject.integer 42] w fuel =
      Result.nonlocal
        (NonLocalExit.signal Qwrong_number_of_arguments
          (list2 (Fcons (make_number 1) (make_number 0)) (make_number 1)))
        { w with byte_stack_list := [c.B Insn.Bdup, c.B Insn.Breturn] :: w.byte_stack_list } := by
  refine ⟨⟨rfl, rfl, rfl⟩, ?_, rfl⟩
  obtain ⟨n, rfl⟩ := Nat.exists_eq_add_of_le hfuel
  have hunpack : unpack_args c.PTRDIFF_MAX 257 [LispObject.integer 42] []
      = Except.ok [LispObject.integer 42] := rfl
  have h1 := step_Bdup c hc h
    { bytestr := [c.B Insn.Bdup, c.B Insn.Breturn], vectorp := vector, maxdepth := maxdepth,
      count := h.SPECPDL_INDEX w.host, next := w.byte_stack_list }
    { pc := 0, top := [LispObject.integer 42], quitcounter := 0,
      world := { w with byte_stack_list := [c.B Insn.Bdup, c.B Insn.Breturn] :: w.byte_stack_list } }
    0 (LispObject.integer 42) [] (fun _ => by simp; omega) rfl rfl rfl
  have h2 := step_Breturn c hc h
    { bytestr := [c.B Insn.Bdup, c.B Insn.Breturn], vectorp := vector, maxdepth := maxdepth,
      count := h.SPECPDL_INDEX w.host, next := w.byte_stack_list }
    { pc := ((0 + 1 : Nat) : Int), top := [LispObject.integer 42, LispObject.integer 42],
      quitcounter := 0,
      world := { w with byte_stack_list := [c.B Insn.Bdup, c.B Insn.Breturn] :: w.byte_stack_list } }
    1 (fun _ => by simpa using hdepth) rfl rfl
  unfold exec_byte_code__
  simp only [hunpack]
  rw [show 2 + n = (n + 1) + 1 by omega, run_next _ _ _ _ _ _ h1]
  exact run_value _ _ _ _ _ _ _ _ h2 (by simp [exit_sequence])

/-- Witness of C5 amended, in a safe switch build. -/
theorem identity_scenario_witness :
    exec_byte_code__ (stdConfig (Build.switch true)) arithHost
        [stdB Insn.Bdup, stdB Insn.Breturn] [] 2 (some 257) [LispObject.integer 42]
        quietWorld 2 = Result.value (LispObject.integer 42) quietWorld :=
  (identity_scenario (stdConfig (Build.switch true)) (stdConfig_wellFormed _) arithHost []
    2 quietWorld 2 (by decide) (by decide)).2.1

/-- C6: `byte-code` on the bytes `[CONSTANT+0, CONSTANT+1, PLUS, RETURN]` with
constants `[a, b]` and `max_depth` 2 hands `(a, b)`, in that order, to the
host's addition; when that returns `v`, with the frame list and the binding
depth as it found them, `byte-code` returns `v`, as soon as four instructions
may run; and between instructions the operand stack never holds more than two
values.  A host that adds 3 and 4 to 7 thus makes the result 7. -/
theorem add_scenario {H : Type} (c : Config) (hc : c.WellFormed) (h : Host H) (a b : Int)
    (w w₂ : World H) (v : LispObject) (fuel : Nat) (hfuel : 4 ≤ fuel)
    (hplus : h.primitive Insn.Bplus [LispObject.integer a, LispObject.integer b]
        { w with byte_stack_list :=
            [c.B Insn.Bconstant, c.B Insn.Bconstant + 1, c.B Insn.Bplus, c.B Insn.Breturn]
              :: w.byte_stack_list }
      = HostResult.ok v w₂)
    (hlist : w₂.byte_stack_list =
      [c.B Insn.Bconstant, c.B Insn.Bconstant + 1, c.B Insn.Bplus, c.B Insn.Breturn]
        :: w.byte_stack_list)
    (hcount : h.SPECPDL_INDEX w₂.host = h.SPECPDL_INDEX w.host) :
    Fbyte_code c h
        [c.B Insn.Bconstant, c.B Insn.Bconstant + 1, c.B Insn.Bplus, c.B Insn.Breturn]
        [LispObject.integer a, LispObject.integer b] 2 w fuel =
      Result.value v { w₂ with byte_stack_list := w.byte_stack_list } ∧
    ∀ n m', after_steps c h
        { bytestr :=
            [c.B Insn.Bconstant, c.B Insn.Bconstant + 1, c.B Insn.Bplus, c.B Insn.Breturn],
          vectorp := [LispObject.integer a, LispObject.integer b], maxdepth := 2,
          count := h.SPECPDL_INDEX w.host }
        n
        { pc := 0, top := [], quitcounter := 0,
          world := { w with byte_stack_list :=
            [c.B Insn.Bconstant, c.B Insn.Bconstant + 1, c.B Insn.Bplus, c.B Insn.Breturn]
              :: w.byte_stack_list } } = some m' →
      m'.top.length ≤ 2 := by
  have h1 := step_Bconstant c hc h
    { bytestr :=
        [c.B Insn.Bconstant, c.B Insn.Bconstant + 1, c.B Insn.Bplus, c.B Insn.Breturn],
      vectorp := [LispObject.integer a, LispObject.integer b], maxdepth := 2,
      count := h.SPECPDL_INDEX w.host, next := w.byte_stack_list }
    { pc := 0, top := [], quitcounter := 0,
      world := { w with byte_stack_list :=
        [c.B Insn.Bconstant, c.B Insn.Bconstant + 1, c.B Insn.Bplus, c.B Insn.Breturn]
          :: w.byte_stack_list } }
    0 0 (LispObject.integer a) (fun _ => by simp) rfl rfl rfl
  have h2 := step_Bconstant c hc h
    { bytestr :=
        [c.B Insn.Bconstant, c.B Insn.Bconstant + 1, c.B Insn.Bplus, c.B Insn.Breturn],
      vectorp := [LispObject.integer a, LispObject.integer b], maxdepth := 2,
      count := h.SPECPDL_INDEX w.host, next := w.byte_stack_list }
    { pc := ((0 + 1 : Nat) : Int), top := [LispObject.integer a], quitcounter := 0,
      world := { w with byte_stack_list :=
        [c.B Insn.Bconstant, c.B Insn.Bconstant + 1, c.B Insn.Bplus, c.B Insn.Breturn]
          :: w.byte_stack_list } }
    1 1 (LispObject.integer b) (fun _ => by simp) rfl rfl rfl
  have h3 := step_Bplus c hc h
    { bytestr :=
        [c.B Insn.Bconstant, c.B Insn.Bconstant + 1, c.B Insn.Bplus, c.B Insn.Breturn],
      vectorp := [LispObject.integer a, LispObject.integer b], maxdepth := 2,
      count := h.SPECPDL_INDEX w.host, next := w.byte_stack_list }
    { pc := ((1 + 1 : Nat) : Int), top := [LispObject.integer b, LispObject.integer a],
      quitcounter := 0,
      world := { w with byte_stack_list :=
        [c.B Insn.Bconstant, c.B Insn.Bconstant + 1, c.B Insn.Bplus, c.B Insn.Breturn]
          :: w.byte_stack_list } }
    2 (LispObject.integer a) (LispObject.integer b) [] (fun _ => by simp) rfl rfl rfl
  simp only [hplus, after_host] at h3
  have h4 := step_Breturn c hc h
    { bytestr :=
        [c.B Insn.Bconstant, c.B Insn.Bconstant + 1, c.B Insn.Bplus, c.B Insn.Breturn],
      vectorp := [LispObject.integer a, LispObject.integer b], maxdepth := 2,
      count := h.SPECPDL_INDEX w.host, next := w.byte_stack_list }
    { pc := ((2 + 1 : Nat) : Int), top := [v], quitcounter := 0, world := w₂ }
    3 (fun _ => by simp) rfl rfl
  constructor
  · obtain ⟨n, rfl⟩ := Nat.exists_eq_add_of_le hfuel
    unfold Fbyte_code exec_byte_code__
    simp only
    rw [show 4 + n = (((n + 1) + 1) + 1) + 1 by omega, run_next _ _ _ _ _ _ h1,
      run_next _ _ _ _ _ _ h2, run_next _ _ _ _ _ _ h3]
    exact run_value _ _ _ _ _ _ _ _ h4 (by simp [exit_sequence, hlist, hcount])
  · intro n m' hn
    replace hn : after_steps c h
        { bytestr :=
            [c.B Insn.Bconstant, c.B Insn.Bconstant + 1, c.B Insn.Bplus, c.B Insn.Breturn],
          vectorp := [LispObject.integer a, LispObject.integer b], maxdepth := 2,
          count := h.SPECPDL_INDEX w.host, next := w.byte_stack_list } n _ = some m' :=
      (after_steps_frame_next c h
        { bytestr :=
            [c.B Insn.Bconstant, c.B Insn.Bconstant + 1, c.B Insn.Bplus, c.B Insn.Breturn],
          vectorp := [LispObject.integer a, LispObject.integer b], maxdepth := 2,
          count := h.SPECPDL_INDEX w.host } w.byte_stack_list n _).trans hn
    match n with
    | 0 =>
      simp only [after_steps, Option.some.injEq] at hn
      subst hn
      simp
    | 1 =>
      simp only [after_steps, h1, Option.some.injEq] at hn
      subst hn
      simp
    | 2 =>
      simp only [after_steps, h1, h2, Option.some.injEq] at hn
      subst hn
      simp
    | 3 =>
      simp only [after_steps, h1, h2, h3, Option.some.injEq] at hn
      subst hn
      simp
    | k + 4 =>
      simp only [after_steps, h1, h2, h3, h4] at hn
      cases hn

/-- Witness of C6: with the sample host, which adds integers, the constants
`[3, 4]` give 7. -/
theorem add_scenario_witness :
    Fbyte_code (stdConfig (Build.switch true)) arithHost
        [stdB Insn.Bconstant, stdB Insn.Bconstant + 1, stdB Insn.Bplus, stdB Insn.Breturn]
        [LispObject.integer 3, LispObject.integer 4] 2 quietWorld 4 =
      Result.value (LispObject.integer 7) quietWorld :=
  (add_scenario (stdConfig (Build.switch true)) (stdConfig_wellFormed _) arithHost 3 4
    quietWorld
    { quietWorld with byte_stack_list :=
        [[stdB Insn.Bconstant, stdB Insn.Bconstant + 1, stdB Insn.Bplus, stdB Insn.Breturn]] }
    (LispObject.integer 7) 4 (by decide) rfl rfl rfl).1

/-- The first two instructions of scenario S3: the constant is pushed, the
branch is taken, and the program counter is 5. -/
theorem short_branch_steps {H : Type} (c : Config) (hc : c.WellFormed) (h : Host H)
    (maxdepth : Nat) (count : Int) (w w' : World H) (hdepth : 1 ≤ maxdepth)
    (hgate : gate_world h 0 w = some w') :
    after_steps c h
        { bytestr := [c.B Insn.Bconstant, c.B Insn.BRgotoifnonnil, 130,
                      c.B Insn.Bconstant + 1, c.B Insn.Breturn],
          vectorp := [Qt, LispObject.integer 99], maxdepth := maxdepth, count := count }
        2 { pc := 0, top := [], quitcounter := 0, world := w } =
      some { pc := 5, top := [], quitcounter := 1, world := w' } := by
  have h1 := step_Bconstant c hc h
    { bytestr := [c.B Insn.Bconstant, c.B Insn.BRgotoifnonnil, 130,
                  c.B Insn.Bconstant + 1, c.B Insn.Breturn],
      vectorp := [Qt, LispObject.integer 99], maxdepth := maxdepth, count := count }
    { pc := 0, top := [], quitcounter := 0, world := w }
    0 0 Qt (fun _ => by simp) rfl rfl rfl
  have h2 := step_eq c h
    { bytestr := [c.B Insn.Bconstant, c.B Insn.BRgotoifnonnil, 130,
                  c.B Insn.Bconstant + 1, c.B Insn.Breturn],
      vectorp := [Qt, LispObject.integer 99], maxdepth := maxdepth, count := count }
    { pc := ((0 + 1 : Nat) : Int), top := [Qt], quitcounter := 0, world := w }
    1 (c.B Insn.BRgotoifnonnil) (fun _ => by simpa using hdepth) rfl rfl
  rw [dispatch_label c hc _ (by decide)] at h2
  have h3 := (insn_BRgotoif_spec h
    { bytestr := [c.B Insn.Bconstant, c.B Insn.BRgotoifnonnil, 130,
                  c.B Insn.Bconstant + 1, c.B Insn.Breturn],
      vectorp := [Qt, LispObject.integer 99], maxdepth := maxdepth, count := count }
    false
    { pc := ((1 + 1 : Nat) : Int), top := [Qt], quitcounter := 0, world := w }
    1 130 Qt [] rfl rfl rfl rfl).2 w' hgate
  have h4 : exec_insn c h
      { bytestr := [c.B Insn.Bconstant, c.B Insn.BRgotoifnonnil, 130,
                    c.B Insn.Bconstant + 1, c.B Insn.Breturn],
        vectorp := [Qt, LispObject.integer 99], maxdepth := maxdepth, count := count }
      Insn.BRgotoifnonnil (c.B Insn.BRgotoifnonnil)
      { pc := ((1 + 1 : Nat) : Int), top := [Qt], quitcounter := 0, world := w }
      = Step.next { pc := 5, top := [], quitcounter := 1, world := w' } := h3
  rw [h4] at h2
  simp only [after_steps, h1, h2]

/-- C9 as stated fails: after the branch of scenario S3 is taken the program
counter is 5, which is not 5 bytes past the `RGOTOIFNONNIL` opcode byte at
offset 1. -/
theorem short_branch_scenario_counterexample :
    (after_steps (stdConfig (Build.switch false)) arithHost
        { bytestr := [stdB Insn.Bconstant, stdB Insn.BRgotoifnonnil, 130,
                      stdB Insn.Bconstant + 1, stdB Insn.Breturn],
          vectorp := [Qt, LispObject.integer 99], maxdepth := 1, count := 0 }
        2 { pc := 0, top := [], quitcounter := 0, world := quietWorld }).map
      (fun m => m.pc) = some 5 ∧
    (after_steps (stdConfig (Build.switch false)) arithHost
        { bytestr := [stdB Insn.Bconstant, stdB Insn.BRgotoifnonnil, 130,
                      stdB Insn.Bconstant + 1, stdB Insn.Breturn],
          vectorp := [Qt, LispObject.integer 99], maxdepth := 1, count := 0 }
        2 { pc := 0, top := [], quitcounter := 0, world := quietWorld }).map
      (fun m => m.pc) ≠ some (1 + 5) := by
  have hs := short_branch_steps (stdConfig (Build.switch false)) (stdConfig_wellFormed _)
    arithHost 1 0 quietWorld quietWorld (by decide) rfl
  have hs' : after_steps (stdConfig (Build.switch false)) arithHost
      { bytestr := [stdB Insn.Bconstant, stdB Insn.BRgotoifnonnil, 130,
                    stdB Insn.Bconstant + 1, stdB Insn.Breturn],
        vectorp := [Qt, LispObject.integer 99], maxdepth := 1, count := 0 }
      2 { pc := 0, top := [], quitcounter := 0, world := quietWorld }
      = some { pc := 5, top := [], quitcounter := 1, world := quietWorld } := hs
  rw [hs']
  exact ⟨rfl, by decide⟩

/-- C9, amended: in scenario S3 the `RGOTOIFNONNIL` branch is taken (when the
gate, which polls in full on this first branch, falls through) and the program
counter lands at offset 5 of the byte string: 4 bytes, not 5, past the
`RGOTOIFNONNIL` opcode byte at offset 1, that is 2 bytes past the fall-through
offset 3, and one past the last byte of the five-byte string. -/
theorem short_branch_scenario {H : Type} (c : Config) (hc : c.WellFormed) (h : Host H)
    (maxdepth : Nat) (count : Int) (w w' : World H) (hdepth : 1 ≤ maxdepth)
    (hgate : gate_world h 0 w = some w') :
    ∃ m', after_steps c h
        { bytestr := [c.B Insn.Bconstant, c.B Insn.BRgotoifnonnil, 130,
                      c.B Insn.Bconstant + 1, c.B Insn.Breturn],
          vectorp := [Qt, LispObject.integer 99], maxdepth := maxdepth, count := count }
        2 { pc := 0, top := [], quitcounter := 0, world := w } = some m' ∧
      m'.pc = 5 ∧ m'.pc = 1 + 4 ∧ m'.pc = 3 + (130 - 128) ∧ m'.top = [] ∧
      [c.B Insn.Bconstant, c.B Insn.BRgotoifnonnil, 130,
        c.B Insn.Bconstant + 1, c.B Insn.Breturn].length = 5 :=
  ⟨_, short_branch_steps c hc h maxdepth count w w' hdepth hgate, rfl, rfl, rfl, rfl, rfl⟩

/-- Witness of C9 amended, in a safe switch build. -/
theorem short_branch_scenario_witness :
    ∃ m', after_steps (stdConfig (Build.switch true)) arithHost
        { bytestr := [stdB Insn.Bconstant, stdB Insn.BRgotoifnonnil, 130,
                      stdB Insn.Bconstant + 1, stdB Insn.Breturn],
          vectorp := [Qt, LispObject.integer 99], maxdepth := 1, count := 0 }
        2 { pc := 0, top := [], quitcounter := 0, world := quietWorld } = some m' ∧
      m'.pc = 5 :=
  Exists.imp (fun _ hm => ⟨hm.1, hm.2.1⟩)
    (short_branch_scenario (stdConfig (Build.switch true)) (stdConfig_wellFormed _) arithHost
      1 0 quietWorld quietWorld (by decide) rfl)

/-! ### Constants, invalid opcodes and the two dispatchers -/

/-- C11: an opcode `op` from `Bconstant` upwards (so any of `Bconstant`..255),
run from an empty operand stack in a frame with room for one value
(`1 ≤ maxdepth`) and with a constant vector longer than `op - Bconstant`, ends
at `NEXT` with exactly the one value `constants[op - Bconstant]` on the stack,
within the slots of the frame, the program counter one byte further, and the
quit counter and the globals as they were. -/
theorem constant_fast_path {H : Type} (c : Config) (hc : c.WellFormed) (h : Host H)
    (f : Frame) (m : Machine H) (o op : Nat)
    (hlo : c.B Insn.Bconstant ≤ op) (hpc : m.pc = (o : Int))
    (hop : f.bytestr[o]? = some op) (hempty : m.top = [])
    (hlen : op - c.B Insn.Bconstant < f.vectorp.length) (hcap : 1 ≤ f.maxdepth) :
    ∃ v, f.vectorp[op - c.B Insn.Bconstant]? = some v ∧
      step c h f m =
        Step.next { pc := (o : Int) + 1, top := [v], quitcounter := m.quitcounter,
                    world := m.world } ∧
      f.fits [v] := by
  obtain ⟨k, rfl⟩ := Nat.exists_eq_add_of_le hlo
  have hk : c.B Insn.Bconstant + k - c.B Insn.Bconstant = k := by omega
  rw [hk] at hlen ⊢
  refine ⟨f.vectorp[k], List.getElem?_eq_getElem hlen, ?_, hcap⟩
  rw [step_Bconstant c hc h f m o k f.vectorp[k] (fun _ => by simp [hempty]) hpc hop
    (List.getElem?_eq_getElem hlen), hempty]
  congr 2

/-- Witness of C11: opcode `Bconstant + 1` pushes the second constant, in a
frame with `maxdepth = 1`. -/
theorem constant_fast_path_witness :
    ∃ v, [Qnil, LispObject.integer 99][stdB Insn.Bconstant + 1 - stdB Insn.Bconstant]? = some v ∧
      step (stdConfig (Build.switch true)) arithHost
        { bytestr := [stdB Insn.Bconstant + 1], vectorp := [Qnil, LispObject.integer 99],
          maxdepth := 1, count := 0 }
        { pc := 0, top := [], quitcounter := 3, world := quietWorld } =
        Step.next { pc := 0 + 1, top := [v], quitcounter := 3, world := quietWorld } ∧
      [v].length ≤ 1 :=
  constant_fast_path (stdConfig (Build.switch true)) (stdConfig_wellFormed _) arithHost
    { bytestr := [stdB Insn.Bconstant + 1], vectorp := [Qnil, LispObject.integer 99],
      maxdepth := 1, count := 0 }
    { pc := 0, top := [], quitcounter := 3, world := quietWorld } 0 (stdB Insn.Bconstant + 1)
    (by decide) rfl rfl rfl (by decide) (by decide)
theorem find?_unlabelled {B : Insn → Nat} (ls : List Insn) (op : Nat)
    (hop : ∀ l ∈ ls, B l ≠ op) : ls.find? (fun x => B x == op) = none := by
  rw [List.find?_eq_none]
  intro x hx
  simpa using hop x hx

/-- In a threaded build a byte below `Bconstant` that is the value of no `CASE`
label selects the body under `CASE_ABORT`, through its own table entry when it
is `Bstack_ref` and through `insn_default` otherwise. -/
theorem dispatch_threaded_unlabelled (c : Config) (op : Nat) (hb : c.build = Build.threaded)
    (hlt : op < c.B Insn.Bconstant) (hno : ∀ l ∈ caseLabels, c.B l ≠ op) :
    dispatch c op = Insn.Bstack_ref := by
  unfold dispatch
  rw [hb]
  simp only [threadedLabels, List.find?_cons]
  cases hs : (c.B Insn.Bstack_ref == op)
  · simp only [find?_unlabelled caseLabels op hno]
    simp [hlt]
  · rfl

/-- In a switch build the byte 0, when it is the value of no `case` label,
selects the body under `CASE_ABORT`. -/
theorem dispatch_switch_zero (c : Config) (safe : Bool) (hb : c.build = Build.switch safe)
    (hno : ∀ l ∈ switchLabels safe, c.B l ≠ 0) : dispatch c 0 = Insn.Bstack_ref := by
  unfold dispatch
  rw [hb]
  simp only [find?_unlabelled (switchLabels safe) 0 hno]
  rfl

/-- In a switch build any other byte that is the value of no `case` label falls
under `default:` into the `Bconstant` body. -/
theorem dispatch_switch_unlabelled (c : Config) (safe : Bool) (op : Nat)
    (hb : c.build = Build.switch safe) (h0 : op ≠ 0)
    (hno : ∀ l ∈ switchLabels safe, c.B l ≠ op) : dispatch c op = Insn.Bconstant := by
  unfold dispatch
  rw [hb]
  simp only [find?_unlabelled (switchLabels safe) op hno]
  have : (op == 0) = false := by simpa using h0
  simp [this]

theorem step_abort_body {H : Type} (c : Config) (h : Host H) (f : Frame) (m : Machine H)
    (o op : Nat) (hsafe : c.build.BYTE_CODE_SAFE = true → m.top.length ≤ f.maxdepth)
    (hpc : m.pc = (o : Int)) (hop : f.bytestr[o]? = some op)
    (hd : dispatch c op = Insn.Bstack_ref) :
    step c h f m =
      Step.nonlocal
        (NonLocalExit.signal Qerror
          (Flist [LispObject.string "Invalid byte opcode: op=%s, ptr=%d",
                  make_number op, make_number o]))
        { m with pc := (o : Int) + 1 } := by
  rw [step_eq c h f m o op hsafe hpc hop, hd]
  show insn_abort op _ = _
  unfold insn_abort
  simp

/-- The `Bconstant` body entered with a byte below `Bconstant`: `emacs_abort ()`
under `BYTE_CODE_SAFE`, and otherwise a read of `vectorp` at a negative
index. -/
theorem insn_Bconstant_below {H : Type} (c : Config) (f : Frame) (op : Nat) (m : Machine H)
    (hlt : op < c.B Insn.Bconstant) :
    insn_Bconstant c f op m =
      if c.build.BYTE_CODE_SAFE then Step.abort else Step.undefined := by
  unfold insn_Bconstant
  have h1 : decide (c.B Insn.Bconstant ≤ op) = false := by
    simp only [decide_eq_false_iff_not]
    omega
  cases hs : c.build.BYTE_CODE_SAFE
  · simp only [Bool.false_and, Bool.false_eq_true, if_false]
    unfold vectorp_at
    have hneg : ((op : Int) - (c.B Insn.Bconstant : Int)) < 0 := by omega
    simp [hneg]
  · simp [h1]

theorem step_default_below {H : Type} (c : Config) (h : Host H) (f : Frame) (m : Machine H)
    (o op : Nat) (hpc : m.pc = (o : Int)) (hop : f.bytestr[o]? = some op)
    (hlt : op < c.B Insn.Bconstant) (hd : dispatch c op = Insn.Bconstant) :
    step c h f m = if c.build.BYTE_CODE_SAFE then Step.abort else Step.undefined := by
  cases hs : c.build.BYTE_CODE_SAFE
  · rw [step_eq c h f m o op (fun h1 => by rw [hs] at h1; cases h1) hpc hop, hd]
    show insn_Bconstant c f op _ = _
    rw [insn_Bconstant_below c f op _ hlt, hs]
  · by_cases hlen : m.top.length ≤ f.maxdepth
    · rw [step_eq c h f m o op (fun _ => hlen) hpc hop, hd]
      show insn_Bconstant c f op _ = _
      rw [insn_Bconstant_below c f op _ hlt, hs]
    · unfold step
      have : (c.build.BYTE_CODE_SAFE && !(decide (m.top.length < f.maxdepth + 1))) = true := by
        simp [hs]
        omega
      simp [this]

theorem exec_insn_build {H : Type} (B : Insn → Nat) (P : Nat) (h : Host H) (f : Frame)
    (l : Insn) (op : Nat) (m : Machine H) :
    exec_insn { build := Build.switch false, B := B, PTRDIFF_MAX := P } h f l op m =
      exec_insn { build := Build.threaded, B := B, PTRDIFF_MAX := P } h f l op m := by
  cases l <;> rfl

theorem stdB_ne_169 (l : Insn) : stdB l ≠ 169 := by
  cases l <;> decide

theorem stdB_eq_zero (l : Insn) (h0 : stdB l = 0) : l = Insn.Bstack_ref := by
  cases l <;> first | rfl | (exact absurd h0 (by decide))

theorem Bstack_ref_not_mem_switchLabels (safe : Bool) : Insn.Bstack_ref ∉ switchLabels safe := by
  cases safe <;> decide

theorem stdB_switch_ne_zero (safe : Bool) : ∀ l ∈ switchLabels safe, stdB l ≠ 0 :=
  fun l hl h0 => Bstack_ref_not_mem_switchLabels safe (stdB_eq_zero l h0 ▸ hl)

/-- C12 as stated fails: in a switch build compiled with `BYTE_CODE_SAFE` the
byte 169 (0251), which is the value of no label, falls under `default:` into
the `Bconstant` body and ends in `emacs_abort ()`, not in the "Invalid byte
opcode" error; without `BYTE_CODE_SAFE` it selects the same body. -/
theorem invalid_opcode_counterexample :
    (∀ l ∈ switchLabels true, stdB l ≠ 169) ∧ stdB Insn.Bstack_ref ≠ 169 ∧
    step (stdConfig (Build.switch true)) arithHost
        { bytestr := [169], vectorp := [Qt], maxdepth := 1, count := 0 }
        { pc := 0, top := [], quitcounter := 0, world := quietWorld } = Step.abort ∧
    dispatch (stdConfig (Build.switch false)) 169 = Insn.Bconstant ∧
    ∀ e m', step (stdConfig (Build.switch true)) arithHost
        { bytestr := [169], vectorp := [Qt], maxdepth := 1, count := 0 }
        { pc := 0, top := [], quitcounter := 0, world := quietWorld } ≠ Step.nonlocal e m' :=
  ⟨fun l _ => stdB_ne_169 l, by decide, rfl, rfl, fun _ _ hn => Step.noConfusion hn⟩

/-- C12, amended: an opcode byte `op` without a label of its own at offset `o`
fails with the "Invalid byte opcode" error, carrying `op` and `o` and leaving
the operand stack as it was, in a threaded build (for every such byte below
`Bconstant`) and, in a switch build, for the byte 0.  In a switch build every
other such byte below `Bconstant` falls under `default:` into the `Bconstant`
body, which ends in `emacs_abort ()` under `BYTE_CODE_SAFE` and otherwise reads
the constant vector at the negative index `op - Bconstant`. -/
theorem invalid_opcode {H : Type} (c : Config) (h : Host H) (f : Frame) (m : Machine H)
    (o op : Nat) (hpc : m.pc = (o : Int)) (hop : f.bytestr[o]? = some op)
    (hlt : op < c.B Insn.Bconstant) :
    (c.build = Build.threaded → (∀ l ∈ caseLabels, c.B l ≠ op) →
      step c h f m =
        Step.nonlocal
          (NonLocalExit.signal Qerror
            (Flist [LispObject.string "Invalid byte opcode: op=%s, ptr=%d",
                    make_number op, make_number o]))
          { m with pc := (o : Int) + 1 }) ∧
    (∀ safe, c.build = Build.switch safe → (∀ l ∈ switchLabels safe, c.B l ≠ op) →
      (safe = true → m.top.length ≤ f.maxdepth) → op = 0 →
      step c h f m =
        Step.nonlocal
          (NonLocalExit.signal Qerror
            (Flist [LispObject.string "Invalid byte opcode: op=%s, ptr=%d",
                    make_number op, make_number o]))
          { m with pc := (o : Int) + 1 }) ∧
    (∀ safe, c.build = Build.switch safe → (∀ l ∈ switchLabels safe, c.B l ≠ op) →
      op ≠ 0 →
      dispatch c op = Insn.Bconstant ∧
      step c h f m = if safe then Step.abort else Step.undefined) := by
  refine ⟨?_, ?_, ?_⟩
  · intro hb hno
    exact step_abort_body c h f m o op (fun hs => by simp [Build.BYTE_CODE_SAFE, hb] at hs)
      hpc hop (dispatch_threaded_unlabelled c op hb hlt hno)
  · intro safe hb hno hdepth h0
    subst h0
    exact step_abort_body c h f m o 0
      (fun hs => hdepth (by simpa [Build.BYTE_CODE_SAFE, hb] using hs))
      hpc hop (dispatch_switch_zero c safe hb hno)
  · intro safe hb hno h0
    have hd := dispatch_switch_unlabelled c safe op hb h0 hno
    refine ⟨hd, ?_⟩
    rw [step_default_below c h f m o op hpc hop hlt hd]
    simp [Build.BYTE_CODE_SAFE, hb]

/-- Witness of C12 amended: the byte 169 in a threaded build, and the byte 0
in a switch build. -/
theorem invalid_opcode_witness :
    step (stdConfig Build.threaded) arithHost
        { bytestr := [stdB Insn.Bdup, 169], vectorp := [], maxdepth := 1, count := 0 }
        { pc := 1, top := [Qt], quitcounter := 0, world := quietWorld } =
      Step.nonlocal
        (NonLocalExit.signal Qerror
          (Flist [LispObject.string "Invalid byte opcode: op=%s, ptr=%d",
                  make_number (169 : Nat), make_number (1 : Nat)]))
        { pc := 1 + 1, top := [Qt], quitcounter := 0, world := quietWorld } ∧
    step (stdConfig (Build.switch false)) arithHost
        { bytestr := [0], vectorp := [], maxdepth := 1, count := 0 }
        { pc := 0, top := [Qt], quitcounter := 0, world := quietWorld } =
      Step.nonlocal
        (NonLocalExit.signal Qerror
          (Flist [LispObject.string "Invalid byte opcode: op=%s, ptr=%d",
                  make_number (0 : Nat), make_number (0 : Nat)]))
        { pc := 0 + 1, top := [Qt], quitcounter := 0, world := quietWorld } :=
  ⟨(invalid_opcode (stdConfig Build.threaded) arithHost
      { bytestr := [stdB Insn.Bdup, 169], vectorp := [], maxdepth := 1, count := 0 }
      { pc := 1, top := [Qt], quitcounter := 0, world := quietWorld } 1 169 rfl rfl
      (by decide)).1 rfl (fun l _ => stdB_ne_169 l),
   (invalid_opcode (stdConfig (Build.switch false)) arithHost
      { bytestr := [0], vectorp := [], maxdepth := 1, count := 0 }
      { pc := 0, top := [Qt], quitcounter := 0, world := quietWorld } 0 0 rfl rfl
      (by decide)).2.1 false rfl (stdB_switch_ne_zero false)
      (fun hs => absurd hs (by decide)) rfl⟩

/-- C13 as stated fails: for the byte 169 (0251), the value of no label, the
switch selects the `Bconstant` body (`default:`) and the dispatch table the body
under `CASE_ABORT` (`insn_default`); the first reads the constant vector at a
negative index, the second raises the "Invalid byte opcode" error.  A switch
built with `BYTE_CODE_SAFE` differs from the table in two more ways: the byte
115 of `Bset_mark` has a `case` of its own, and the checks of that build call
`emacs_abort ()` where the table goes on (a `Bgoto` to offset 9 in a string of
three bytes). -/
theorem dispatch_agreement_counterexample :
    dispatch (stdConfig (Build.switch false)) 169 = Insn.Bconstant ∧
    dispatch (stdConfig Build.threaded) 169 = Insn.Bstack_ref ∧
    step (stdConfig (Build.switch false)) arithHost
        { bytestr := [169], vectorp := [Qt], maxdepth := 1, count := 0 }
        { pc := 0, top := [], quitcounter := 0, world := quietWorld } = Step.undefined ∧
    step (stdConfig Build.threaded) arithHost
        { bytestr := [169], vectorp := [Qt], maxdepth := 1, count := 0 }
        { pc := 0, top := [], quitcounter := 0, world := quietWorld } =
      Step.nonlocal
        (NonLocalExit.signal Qerror
          (Flist [LispObject.string "Invalid byte opcode: op=%s, ptr=%d",
                  make_number (169 : Nat), make_number (0 : Nat)]))
        { pc := 1, top := [], quitcounter := 0, world := quietWorld } ∧
    dispatch (stdConfig (Build.switch false)) 169 ≠ dispatch (stdConfig Build.threaded) 169 ∧
    dispatch (stdConfig (Build.switch true)) 115 = Insn.Bset_mark ∧
    dispatch (stdConfig Build.threaded) 115 = Insn.Bstack_ref ∧
    step (stdConfig (Build.switch true)) arithHost
        { bytestr := [115], vectorp := [], maxdepth := 1, count := 0 }
        { pc := 0, top := [], quitcounter := 0, world := quietWorld } =
      Step.nonlocal (error_exit "set-mark is an obsolete bytecode")
        { pc := 1, top := [], quitcounter := 0, world := quietWorld } ∧
    step (stdConfig Build.threaded) arithHost
        { bytestr := [115], vectorp := [], maxdepth := 1, count := 0 }
        { pc := 0, top := [], quitcounter := 0, world := quietWorld } =
      Step.nonlocal
        (NonLocalExit.signal Qerror
          (Flist [LispObject.string "Invalid byte opcode: op=%s, ptr=%d",
                  make_number (115 : Nat), make_number (0 : Nat)]))
        { pc := 1, top := [], quitcounter := 0, world := quietWorld } ∧
    step (stdConfig (Build.switch true)) arithHost
        { bytestr := [stdB Insn.Bgoto, 9, 0], vectorp := [], maxdepth := 1, count := 0 }
        { pc := 0, top := [], quitcounter := 0, world := quietWorld } = Step.abort ∧
    step (stdConfig Build.threaded) arithHost
        { bytestr := [stdB Insn.Bgoto, 9, 0], vectorp := [], maxdepth := 1, count := 0 }
        { pc := 0, top := [], quitcounter := 0, world := quietWorld } =
      Step.next { pc := 9, top := [], quitcounter := 1, world := quietWorld } :=
  ⟨rfl, rfl, rfl, rfl, by decide, rfl, rfl, rfl, rfl, rfl, rfl⟩

/-! ### A switch built with `BYTE_CODE_SAFE` against the table -/

theorem deref_pc_rel {H : Type} (f : Frame) (m : Machine H) (k₁ k₂ : Nat → Step H)
    (hk : ∀ b, k₁ b = Step.abort ∨ k₁ b = k₂ b) :
    deref_pc f m k₁ = Step.abort ∨ deref_pc f m k₁ = deref_pc f m k₂ := by
  unfold deref_pc
  split
  · exact Or.inr rfl
  · split
    · exact hk _
    · exact Or.inr rfl

theorem FETCH_rel {H : Type} (f : Frame) (m : Machine H) (k₁ k₂ : Nat → Machine H → Step H)
    (hk : ∀ b m', k₁ b m' = Step.abort ∨ k₁ b m' = k₂ b m') :
    FETCH f m k₁ = Step.abort ∨ FETCH f m k₁ = FETCH f m k₂ :=
  deref_pc_rel f m _ _ (fun b => hk b _)

theorem FETCH2_rel {H : Type} (f : Frame) (m : Machine H) (k₁ k₂ : Nat → Machine H → Step H)
    (hk : ∀ b m', k₁ b m' = Step.abort ∨ k₁ b m' = k₂ b m') :
    FETCH2 f m k₁ = Step.abort ∨ FETCH2 f m k₁ = FETCH2 f m k₂ :=
  FETCH_rel f m _ _ (fun _ _ => FETCH_rel f _ _ _ (fun _ _ => hk _ _))

theorem POP_rel {H : Type} (m : Machine H) (k₁ k₂ : LispObject → Machine H → Step H)
    (hk : ∀ v m', k₁ v m' = Step.abort ∨ k₁ v m' = k₂ v m') :
    POP m k₁ = Step.abort ∨ POP m k₁ = POP m k₂ := by
  unfold POP
  split
  · exact Or.inr rfl
  · exact hk _ _

theorem TOP_rel {H : Type} (m : Machine H) (k₁ k₂ : LispObject → Step H)
    (hk : ∀ v, k₁ v = Step.abort ∨ k₁ v = k₂ v) :
    TOP m k₁ = Step.abort ∨ TOP m k₁ = TOP m k₂ := by
  unfold TOP
  split
  · exact Or.inr rfl
  · exact hk _

theorem BYTE_CODE_QUIT_rel {H : Type} (h : Host H) (m : Machine H) (k₁ k₂ : Machine H → Step H)
    (hk : ∀ m', k₁ m' = Step.abort ∨ k₁ m' = k₂ m') :
    BYTE_CODE_QUIT h m k₁ = Step.abort ∨ BYTE_CODE_QUIT h m k₁ = BYTE_CODE_QUIT h m k₂ := by
  unfold BYTE_CODE_QUIT
  simp only
  split
  · exact hk _
  · split
    · exact Or.inr rfl
    · split
      · unfold after_host
        split
        · exact hk _
        · exact Or.inr rfl
      · exact hk _

theorem CHECK_RANGE_rel {H : Type} (B : Insn → Nat) (P : Nat) (f : Frame) (arg : Nat)
    (k : Step H) :
    CHECK_RANGE { build := Build.switch true, B := B, PTRDIFF_MAX := P } f arg k = Step.abort ∨
    CHECK_RANGE { build := Build.switch true, B := B, PTRDIFF_MAX := P } f arg k =
      CHECK_RANGE { build := Build.threaded, B := B, PTRDIFF_MAX := P } f arg k := by
  unfold CHECK_RANGE
  by_cases hle : f.bytestr.length ≤ arg
  · exact Or.inl (by simp [Build.BYTE_CODE_SAFE, hle])
  · exact Or.inr (by simp [Build.BYTE_CODE_SAFE, hle])

theorem jump_to_rel {H : Type} (B : Insn → Nat) (P : Nat) (h : Host H) (f : Frame) (op : Nat)
    (m : Machine H) :
    jump_to { build := Build.switch true, B := B, PTRDIFF_MAX := P } h f op m = Step.abort ∨
    jump_to { build := Build.switch true, B := B, PTRDIFF_MAX := P } h f op m =
      jump_to { build := Build.threaded, B := B, PTRDIFF_MAX := P } h f op m := by
  unfold jump_to
  exact BYTE_CODE_QUIT_rel h m _ _ (fun _ => CHECK_RANGE_rel B P f op _)

theorem insn_Bgoto_rel {H : Type} (B : Insn → Nat) (P : Nat) (h : Host H) (f : Frame)
    (m : Machine H) :
    insn_Bgoto { build := Build.switch true, B := B, PTRDIFF_MAX := P } h f m = Step.abort ∨
    insn_Bgoto { build := Build.switch true, B := B, PTRDIFF_MAX := P } h f m =
      insn_Bgoto { build := Build.threaded, B := B, PTRDIFF_MAX := P } h f m := by
  unfold insn_Bgoto
  exact BYTE_CODE_QUIT_rel h m _ _ (fun _ => FETCH2_rel f _ _ _
    (fun _ _ => CHECK_RANGE_rel B P f _ _))

theorem insn_Bgotoif_rel {H : Type} (B : Insn → Nat) (P : Nat) (h : Host H) (f : Frame)
    (ifnil : Bool) (m : Machine H) :
    insn_Bgotoif { build := Build.switch true, B := B, PTRDIFF_MAX := P } h f ifnil m
      = Step.abort ∨
    insn_Bgotoif { build := Build.switch true, B := B, PTRDIFF_MAX := P } h f ifnil m =
      insn_Bgotoif { build := Build.threaded, B := B, PTRDIFF_MAX := P } h f ifnil m := by
  unfold insn_Bgotoif
  refine FETCH2_rel f m _ _ (fun op m' => POP_rel m' _ _ (fun v m'' => ?_))
  split
  · exact jump_to_rel B P h f op m''
  · exact Or.inr rfl

theorem insn_Bgotoifelsepop_rel {H : Type} (B : Insn → Nat) (P : Nat) (h : Host H) (f : Frame)
    (ifnil : Bool) (m : Machine H) :
    insn_Bgotoifelsepop { build := Build.switch true, B := B, PTRDIFF_MAX := P } h f ifnil m
      = Step.abort ∨
    insn_Bgotoifelsepop { build := Build.switch true, B := B, PTRDIFF_MAX := P } h f ifnil m =
      insn_Bgotoifelsepop { build := Build.threaded, B := B, PTRDIFF_MAX := P } h f ifnil m := by
  unfold insn_Bgotoifelsepop
  refine FETCH2_rel f m _ _ (fun op m' => TOP_rel m' _ _ (fun v => ?_))
  split
  · exact jump_to_rel B P h f op m'
  · exact Or.inr rfl

theorem insn_Bconstant_rel {H : Type} (B : Insn → Nat) (P : Nat) (f : Frame) (op : Nat)
    (m : Machine H) :
    insn_Bconstant { build := Build.switch true, B := B, PTRDIFF_MAX := P } f op m
      = Step.abort ∨
    insn_Bconstant { build := Build.switch true, B := B, PTRDIFF_MAX := P } f op m =
      insn_Bconstant { build := Build.threaded, B := B, PTRDIFF_MAX := P } f op m := by
  unfold insn_Bconstant
  by_cases hin : B Insn.Bconstant ≤ op ∧ op < B Insn.Bconstant + f.vectorp.length
  · exact Or.inr (by simp [Build.BYTE_CODE_SAFE, hin.1, hin.2])
  · refine Or.inl ?_
    have : (decide (B Insn.Bconstant ≤ op) &&
        decide (op < B Insn.Bconstant + f.vectorp.length)) = false := by
      simpa using hin
    simp [Build.BYTE_CODE_SAFE, this]

/-- A body of a switch built with `BYTE_CODE_SAFE` ends in `emacs_abort ()` or
as the same body does in the threaded build. -/
theorem exec_insn_safe {H : Type} (B : Insn → Nat) (P : Nat) (h : Host H) (f : Frame)
    (l : Insn) (op : Nat) (m : Machine H) :
    exec_insn { build := Build.switch true, B := B, PTRDIFF_MAX := P } h f l op m
      = Step.abort ∨
    exec_insn { build := Build.switch true, B := B, PTRDIFF_MAX := P } h f l op m =
      exec_insn { build := Build.threaded, B := B, PTRDIFF_MAX := P } h f l op m := by
  cases l <;> (delta exec_insn; dsimp only) <;>
    first
    | with_reducible exact insn_Bgoto_rel B P h f m
    | with_reducible exact insn_Bgotoif_rel B P h f _ m
    | with_reducible exact insn_Bgotoifelsepop_rel B P h f _ m
    | with_reducible exact insn_Bconstant_rel B P f op m
    | exact Or.inr rfl

/-- One pass of a switch built with `BYTE_CODE_SAFE`, on a byte for which it
selects the body the table selects, ends in `emacs_abort ()` or as the pass of
the threaded build does. -/
theorem step_safe {H : Type} (B : Insn → Nat) (P : Nat) (h : Host H) (f : Frame)
    (m : Machine H) (o op : Nat) (hpc : m.pc = (o : Int)) (hop : f.bytestr[o]? = some op)
    (hd : dispatch { build := Build.switch true, B := B, PTRDIFF_MAX := P } op =
      dispatch { build := Build.threaded, B := B, PTRDIFF_MAX := P } op) :
    step { build := Build.switch true, B := B, PTRDIFF_MAX := P } h f m = Step.abort ∨
    step { build := Build.switch true, B := B, PTRDIFF_MAX := P } h f m =
      step { build := Build.threaded, B := B, PTRDIFF_MAX := P } h f m := by
  by_cases hlen : m.top.length ≤ f.maxdepth
  · rw [step_eq _ h f m o op (fun _ => hlen) hpc hop,
      step_eq { build := Build.threaded, B := B, PTRDIFF_MAX := P } h f m o op
        (fun hs => by simp [Build.BYTE_CODE_SAFE] at hs) hpc hop, hd]
    exact exec_insn_safe B P h f _ op _
  · refine Or.inl ?_
    unfold step
    have : (Build.BYTE_CODE_SAFE (Build.switch true) &&
        !(decide (m.top.length < f.maxdepth + 1))) = true := by
      simp [Build.BYTE_CODE_SAFE]
      omega
    simp [this]

/-- The two `case` labels of a `BYTE_CODE_SAFE` switch select their own
bodies. -/
theorem dispatch_safe_label (c : Config) (hc : c.WellFormed)
    (hb : c.build = Build.switch true) (l : Insn)
    (hl : l = Insn.Bset_mark ∨ l = Insn.Bscan_buffer) : dispatch c (c.B l) = l := by
  unfold dispatch
  rw [hb]
  have hmem : l ∈ switchLabels true := by
    rcases hl with rfl | rfl <;> decide
  simp only [find?_label hc.injective l _ hmem]

/-- C13, amended: the switch and the dispatch table, over the same opcode
numbering, select the same body for every opcode byte that is the value of a
`CASE` label, for every byte from `Bconstant` upwards and for the byte 0; one
pass through the loop then has the same outcome in both when the switch is
built without `BYTE_CODE_SAFE`, and when it is built with it, the same outcome
unless it ends in `emacs_abort ()`.  For any other byte below `Bconstant` they
differ: the table selects the body under `CASE_ABORT`, the switch falls under
`default:` into the `Bconstant` body, or, built with `BYTE_CODE_SAFE` and for
the bytes of `Bset_mark` and `Bscan_buffer`, goes to the `case` of these.  (No
two `case` labels of a switch have the same value, so in a `BYTE_CODE_SAFE`
switch the two are not 0, the value of `CASE_ABORT`.) -/
theorem dispatch_agreement {H : Type} (B : Insn → Nat) (P : Nat) (safe : Bool)
    (hc : Config.WellFormed { build := Build.switch safe, B := B, PTRDIFF_MAX := P })
    (hzero : safe = true → B Insn.Bset_mark ≠ 0 ∧ B Insn.Bscan_buffer ≠ 0)
    (op : Nat) :
    (((∃ l ∈ caseLabels, B l = op) ∨ B Insn.Bconstant ≤ op ∨ op = 0) →
      dispatch { build := Build.switch safe, B := B, PTRDIFF_MAX := P } op =
        dispatch { build := Build.threaded, B := B, PTRDIFF_MAX := P } op ∧
      ∀ (h : Host H) (f : Frame) (m : Machine H) (o : Nat),
        m.pc = (o : Int) → f.bytestr[o]? = some op →
        (safe = false →
          step { build := Build.switch safe, B := B, PTRDIFF_MAX := P } h f m =
            step { build := Build.threaded, B := B, PTRDIFF_MAX := P } h f m) ∧
        (safe = true →
          step { build := Build.switch safe, B := B, PTRDIFF_MAX := P } h f m = Step.abort ∨
          step { build := Build.switch safe, B := B, PTRDIFF_MAX := P } h f m =
            step { build := Build.threaded, B := B, PTRDIFF_MAX := P } h f m)) ∧
    ((∀ l ∈ switchLabels safe, B l ≠ op) → 0 < op → op < B Insn.Bconstant →
      dispatch { build := Build.switch safe, B := B, PTRDIFF_MAX := P } op = Insn.Bconstant ∧
      dispatch { build := Build.threaded, B := B, PTRDIFF_MAX := P } op = Insn.Bstack_ref) ∧
    (safe = true → ∀ l, l = Insn.Bset_mark ∨ l = Insn.Bscan_buffer →
      dispatch { build := Build.switch safe, B := B, PTRDIFF_MAX := P } (B l) = l ∧
      dispatch { build := Build.threaded, B := B, PTRDIFF_MAX := P } (B l) = Insn.Bstack_ref) := by
  have hc' : Config.WellFormed { build := Build.threaded, B := B, PTRDIFF_MAX := P } :=
    ⟨hc.injective, hc.le_Bconstant⟩
  have hcase : ∀ l ∈ caseLabels, l ∈ switchLabels safe := fun l hl => mem_switchLabels safe l hl
  refine ⟨?_, ?_, ?_⟩
  · intro hcond
    have hd : dispatch { build := Build.switch safe, B := B, PTRDIFF_MAX := P } op =
        dispatch { build := Build.threaded, B := B, PTRDIFF_MAX := P } op := by
      by_cases hlab : ∃ l ∈ caseLabels, B l = op
      · obtain ⟨l, hl, rfl⟩ := hlab
        exact (dispatch_label _ hc l hl).trans (dispatch_label _ hc' l hl).symm
      · have hno : ∀ l ∈ caseLabels, B l ≠ op := fun l hl he => hlab ⟨l, hl, he⟩
        rcases hcond with hlab' | hge | h0
        · exact absurd hlab' hlab
        · obtain ⟨k, rfl⟩ := Nat.exists_eq_add_of_le hge
          exact (dispatch_constant _ hc k).trans (dispatch_constant _ hc' k).symm
        · subst h0
          have hpos : 0 < B Insn.Bconstant :=
            Nat.pos_of_ne_zero (hno Insn.Bconstant (by decide))
          have hno' : ∀ l ∈ switchLabels safe, B l ≠ 0 := by
            intro l hl
            unfold switchLabels at hl
            rcases List.mem_append.mp hl with hl | hl
            · exact hno l hl
            · cases safe with
              | false => simp at hl
              | true =>
                simp only [if_true, List.mem_cons, List.mem_singleton, List.not_mem_nil,
                  or_false] at hl
                rcases hl with rfl | rfl
                · exact (hzero rfl).1
                · exact (hzero rfl).2
          rw [dispatch_switch_zero _ safe rfl hno',
            dispatch_threaded_unlabelled _ 0 rfl hpos hno]
    refine ⟨hd, ?_⟩
    intro h f m o hpc hop
    constructor
    · intro hs
      subst hs
      rw [step_eq _ h f m o op (fun hs => by simp [Build.BYTE_CODE_SAFE] at hs) hpc hop,
        step_eq _ h f m o op (fun hs => by simp [Build.BYTE_CODE_SAFE] at hs) hpc hop, hd]
      exact exec_insn_build B P h f _ op _
    · intro hs
      subst hs
      exact step_safe B P h f m o op hpc hop hd
  · intro hno hpos hlt
    exact ⟨dispatch_switch_unlabelled _ safe op rfl (Nat.pos_iff_ne_zero.mp hpos) hno,
      dispatch_threaded_unlabelled _ op rfl hlt (fun l hl => hno l (hcase l hl))⟩
  · intro hs l hl
    subst hs
    refine ⟨dispatch_safe_label _ hc rfl l hl, ?_⟩
    have hnotin : l ∉ caseLabels := by
      rcases hl with rfl | rfl <;> decide
    have hne : l ≠ Insn.Bconstant := by
      rcases hl with rfl | rfl <;> decide
    have hlt : B l < B Insn.Bconstant :=
      Nat.lt_of_le_of_ne (hc.le_Bconstant l) (fun he => hne (hc.injective he))
    exact dispatch_threaded_unlabelled _ (B l) rfl hlt
      (fun x hx he => hnotin (by rw [← hc.injective he]; exact hx))

/-- Witness of C13 amended: in a switch built with `BYTE_CODE_SAFE` the byte of
`Bplus` is dispatched as in the table, the byte 115 goes to `Bset_mark`; in a
switch built without it the byte 169 falls under `default:`. -/
theorem dispatch_agreement_witness :
    dispatch { build := Build.switch true, B := stdB, PTRDIFF_MAX := 2 ^ 63 - 1 }
        (stdB Insn.Bplus) =
      dispatch { build := Build.threaded, B := stdB, PTRDIFF_MAX := 2 ^ 63 - 1 }
        (stdB Insn.Bplus) ∧
    (dispatch { build := Build.switch true, B := stdB, PTRDIFF_MAX := 2 ^ 63 - 1 }
        (stdB Insn.Bset_mark) = Insn.Bset_mark ∧
      dispatch { build := Build.threaded, B := stdB, PTRDIFF_MAX := 2 ^ 63 - 1 }
        (stdB Insn.Bset_mark) = Insn.Bstack_ref) ∧
    (dispatch { build := Build.switch false, B := stdB, PTRDIFF_MAX := 2 ^ 63 - 1 } 169
        = Insn.Bconstant ∧
      dispatch { build := Build.threaded, B := stdB, PTRDIFF_MAX := 2 ^ 63 - 1 } 169
        = Insn.Bstack_ref) :=
  ⟨((dispatch_agreement (H := Unit) stdB (2 ^ 63 - 1) true
      (stdConfig_wellFormed (Build.switch true)) (fun _ => ⟨by decide, by decide⟩)
      (stdB Insn.Bplus)).1 (Or.inl ⟨Insn.Bplus, by decide, rfl⟩)).1,
   (dispatch_agreement (H := Unit) stdB (2 ^ 63 - 1) true
      (stdConfig_wellFormed (Build.switch true)) (fun _ => ⟨by decide, by decide⟩)
      0).2.2 rfl Insn.Bset_mark (Or.inl rfl),
   (dispatch_agreement (H := Unit) stdB (2 ^ 63 - 1) false
      (stdConfig_wellFormed (Build.switch false)) (fun hs => Bool.noConfusion hs)
      169).2.1 (fun l _ => stdB_ne_169 l) (by decide) (by decide)⟩
/-! ### Where an instruction may end -/

theorem deref_pc_sat {H : Type} (X : Machine H → Prop) (Q : NonLocalExit → Prop) (f : Frame)
    (m : Machine H) (k : Nat → Step H) (hk : ∀ b, (k b).Satisfies X Q) :
    (deref_pc f m k).Satisfies X Q := by
  unfold deref_pc
  split
  · exact trivial
  · split
    · exact hk _
    · exact trivial

theorem FETCH_sat {H : Type} (X : Machine H → Prop) (Q : NonLocalExit → Prop) (f : Frame)
    (m : Machine H) (k : Nat → Machine H → Step H) (hk : ∀ b m', (k b m').Satisfies X Q) :
    (FETCH f m k).Satisfies X Q :=
  deref_pc_sat X Q f m _ (fun _ => hk _ _)

theorem FETCH2_sat {H : Type} (X : Machine H → Prop) (Q : NonLocalExit → Prop) (f : Frame)
    (m : Machine H) (k : Nat → Machine H → Step H) (hk : ∀ b m', (k b m').Satisfies X Q) :
    (FETCH2 f m k).Satisfies X Q :=
  FETCH_sat X Q f m _ (fun _ _ => FETCH_sat X Q f _ _ (fun _ _ => hk _ _))

theorem CHECK_RANGE_sat {H : Type} (X : Machine H → Prop) (Q : NonLocalExit → Prop)
    (c : Config) (f : Frame) (arg : Nat) (k : Step H)
    (hk : k.Satisfies X Q) : (CHECK_RANGE c f arg k).Satisfies X Q := by
  unfold CHECK_RANGE
  split
  · exact trivial
  · exact hk

theorem undefined_sat {H : Type} (X : Machine H → Prop) (Q : NonLocalExit → Prop) :
    (Step.undefined : Step H).Satisfies X Q :=
  trivial

/-- A loop that ends at `exit` after `n` turns, where the code yields a value. -/
theorem run_exit_value {H : Type} (c : Config) (h : Host H) (f : Frame) (n fuel : Nat)
    (m m₁ mr : Machine H) (v : LispObject) (w' : World H)
    (hn : after_turns c h f n m = some m₁)
    (hs : step c h f m₁ = Step.exit mr) (hx : exit_sequence h f mr = Result.value v w')
    (hfuel : n < fuel) :
    run c h f fuel m = Result.value v w' := by
  obtain ⟨k, rfl⟩ : ∃ k, fuel = n + (k + 1) := ⟨fuel - n - 1, by omega⟩
  rw [run_after_turns c h f n (k + 1) m m₁ hn]
  exact run_value c h f k m₁ mr v w' hs hx

theorem deref_pc_keeps {H : Type} (L : List (List Nat)) (f : Frame) (m : Machine H)
    (k : Nat → Step H) (hk : ∀ b, (k b).Keeps L) : (deref_pc f m k).Keeps L := by
  unfold deref_pc
  split
  · exact trivial
  · split
    · exact hk _
    · exact trivial

theorem FETCH_keeps {H : Type} (L : List (List Nat)) (f : Frame) (m : Machine H)
    (k : Nat → Machine H → Step H) (hm : m.world.byte_stack_list = L)
    (hk : ∀ b m', m'.world.byte_stack_list = L → (k b m').Keeps L) :
    (FETCH f m k).Keeps L :=
  deref_pc_keeps L f m _ (fun b => hk b _ hm)

theorem FETCH2_keeps {H : Type} (L : List (List Nat)) (f : Frame) (m : Machine H)
    (k : Nat → Machine H → Step H) (hm : m.world.byte_stack_list = L)
    (hk : ∀ b m', m'.world.byte_stack_list = L → (k b m').Keeps L) :
    (FETCH2 f m k).Keeps L :=
  FETCH_keeps L f m _ hm (fun _ _ hm' => FETCH_keeps L f _ _ hm' (fun _ _ hm'' => hk _ _ hm''))

theorem POP_keeps {H : Type} (L : List (List Nat)) (m : Machine H)
    (k : LispObject → Machine H → Step H) (hm : m.world.byte_stack_list = L)
    (hk : ∀ v m', m'.world.byte_stack_list = L → (k v m').Keeps L) : (POP m k).Keeps L := by
  unfold POP
  split
  · exact trivial
  · exact hk _ _ hm

theorem TOP_keeps {H : Type} (L : List (List Nat)) (m : Machine H) (k : LispObject → Step H)
    (hk : ∀ v, (k v).Keeps L) : (TOP m k).Keeps L := by
  unfold TOP
  split
  · exact trivial
  · exact hk _

theorem DISCARD_keeps {H : Type} (L : List (List Nat)) (n : Nat) (m : Machine H)
    (k : Machine H → Step H) (hm : m.world.byte_stack_list = L)
    (hk : ∀ m', m'.world.byte_stack_list = L → (k m').Keeps L) : (DISCARD n m k).Keeps L := by
  unfold DISCARD
  split
  · exact hk _ hm
  · exact trivial

theorem top_at_keeps {H : Type} (L : List (List Nat)) (n : Int) (m : Machine H)
    (k : LispObject → Step H) (hk : ∀ v, (k v).Keeps L) : (top_at n m k).Keeps L := by
  unfold top_at
  split
  · exact trivial
  · split
    · exact hk _
    · exact trivial

theorem vectorp_at_keeps {H : Type} (L : List (List Nat)) (f : Frame) (i : Int)
    (k : LispObject → Step H) (hk : ∀ v, (k v).Keeps L) : (vectorp_at f i k).Keeps L := by
  unfold vectorp_at
  split
  · exact trivial
  · split
    · exact hk _
    · exact trivial

theorem CHECK_RANGE_keeps {H : Type} (L : List (List Nat)) (c : Config) (f : Frame)
    (arg : Nat) (k : Step H) (hk : k.Keeps L) : (CHECK_RANGE c f arg k).Keeps L := by
  unfold CHECK_RANGE
  split
  · exact trivial
  · exact hk

theorem after_host_keeps {H α : Type} (L : List (List Nat)) (r : HostResult (World H) α)
    (m : Machine H) (k : α → Machine H → Step H)
    (hr : ∀ a w, r = HostResult.ok a w → w.byte_stack_list = L)
    (hk : ∀ a m', m'.world.byte_stack_list = L → (k a m').Keeps L) :
    (after_host r m k).Keeps L := by
  unfold after_host
  cases r with
  | ok a w => exact hk _ _ (hr a w rfl)
  | exit e w => exact trivial

theorem next_keeps {H : Type} (L : List (List Nat)) (m : Machine H)
    (hm : m.world.byte_stack_list = L) : (Step.next m).Keeps L :=
  hm

theorem BYTE_CODE_QUIT_keeps {H : Type} (L : List (List Nat)) (h : Host H)
    (hh : h.KeepsFrames) (m : Machine H) (k : Machine H → Step H)
    (hm : m.world.byte_stack_list = L)
    (hk : ∀ m', m'.world.byte_stack_list = L → (k m').Keeps L) :
    (BYTE_CODE_QUIT h m k).Keeps L := by
  unfold BYTE_CODE_QUIT
  simp only
  have hgc : (h.maybe_gc m.world).byte_stack_list = L := (hh.maybe_gc m.world).trans hm
  split
  · exact hk _ hm
  · split
    · split
      · exact trivial
      · exact trivial
    · split
      · exact after_host_keeps L _ _ _
          (fun r w he => (hh.process_pending_signals _ r w he).trans hgc)
          (fun _ _ hm' => hk _ hm')
      · exact hk _ hgc
theorem varref_keeps {H : Type} (L : List (List Nat)) (h : Host H) (hh : h.KeepsFrames)
    (f : Frame) (op : Int) (m : Machine H) (hm : m.world.byte_stack_list = L) :
    (varref h f op m).Keeps L := by
  unfold varref
  refine vectorp_at_keeps L f op _ (fun v1 => ?_)
  split
  · exact after_host_keeps L _ _ _ (fun r w he => (hh.Fsymbol_value _ _ r w he).trans hm)
      (fun _ _ hm' => hm')
  · exact hm

theorem varset_keeps {H : Type} (L : List (List Nat)) (h : Host H) (hh : h.KeepsFrames)
    (f : Frame) (op : Int) (m : Machine H) (hm : m.world.byte_stack_list = L) :
    (varset h f op m).Keeps L := by
  unfold varset
  refine vectorp_at_keeps L f op _ (fun sym => POP_keeps L m _ hm (fun val m' hm' => ?_))
  split
  · exact hm'
  · exact after_host_keeps L _ _ _ (fun r w he => (hh.set_internal _ _ _ r w he).trans hm')
      (fun _ _ hm'' => hm'')

theorem varbind_keeps {H : Type} (L : List (List Nat)) (h : Host H) (hh : h.KeepsFrames)
    (f : Frame) (op : Int) (m : Machine H) (hm : m.world.byte_stack_list = L) :
    (varbind h f op m).Keeps L := by
  unfold varbind
  exact vectorp_at_keeps L f op _ (fun sym => POP_keeps L m _ hm (fun val m' hm' =>
    after_host_keeps L _ _ _ (fun r w he => (hh.specbind _ _ _ r w he).trans hm')
      (fun _ _ hm'' => hm'')))

theorem docall_keeps {H : Type} (L : List (List Nat)) (h : Host H) (hh : h.KeepsFrames)
    (op : Nat) (m : Machine H) (hm : m.world.byte_stack_list = L) :
    (docall h op m).Keeps L := by
  unfold docall
  split
  · exact trivial
  · exact after_host_keeps L _ _ _ (fun r w he => (hh.Ffuncall _ _ r w he).trans hm)
      (fun _ _ hm' => hm')

theorem unbind_keeps {H : Type} (L : List (List Nat)) (h : Host H) (hh : h.KeepsFrames)
    (n : Int) (m : Machine H) (hm : m.world.byte_stack_list = L) :
    (after_host (h.unbind_to n Qnil m.world) m fun _ m => Step.next m).Keeps L :=
  after_host_keeps L _ _ _ (fun r w he => (hh.unbind_to _ _ _ r w he).trans hm)
    (fun _ _ hm' => hm')

theorem dounbind_keeps {H : Type} (L : List (List Nat)) (h : Host H) (hh : h.KeepsFrames)
    (op : Int) (m : Machine H) (hm : m.world.byte_stack_list = L) :
    (dounbind h op m).Keeps L :=
  unbind_keeps L h hh _ m hm

theorem jump_to_keeps {H : Type} (L : List (List Nat)) (c : Config) (h : Host H)
    (hh : h.KeepsFrames) (f : Frame) (op : Nat) (m : Machine H)
    (hm : m.world.byte_stack_list = L) : (jump_to c h f op m).Keeps L := by
  unfold jump_to
  exact BYTE_CODE_QUIT_keeps L h hh m _ hm (fun _ hm' => CHECK_RANGE_keeps L c f op _ hm')

theorem insn_Bgoto_keeps {H : Type} (L : List (List Nat)) (c : Config) (h : Host H)
    (hh : h.KeepsFrames) (f : Frame) (m : Machine H) (hm : m.world.byte_stack_list = L) :
    (insn_Bgoto c h f m).Keeps L := by
  unfold insn_Bgoto
  exact BYTE_CODE_QUIT_keeps L h hh m _ hm (fun _ hm' => FETCH2_keeps L f _ _ hm'
    (fun _ _ hm'' => CHECK_RANGE_keeps L c f _ _ hm''))

theorem insn_Bgotoif_keeps {H : Type} (L : List (List Nat)) (c : Config) (h : Host H)
    (hh : h.KeepsFrames) (f : Frame) (ifnil : Bool) (m : Machine H)
    (hm : m.world.byte_stack_list = L) : (insn_Bgotoif c h f ifnil m).Keeps L := by
  unfold insn_Bgotoif
  refine FETCH2_keeps L f m _ hm (fun op m' hm' => POP_keeps L m' _ hm' (fun v m'' hm'' => ?_))
  split
  · exact jump_to_keeps L c h hh f op m'' hm''
  · exact hm''

theorem insn_Bgotoifelsepop_keeps {H : Type} (L : List (List Nat)) (c : Config) (h : Host H)
    (hh : h.KeepsFrames) (f : Frame) (ifnil : Bool) (m : Machine H)
    (hm : m.world.byte_stack_list = L) : (insn_Bgotoifelsepop c h f ifnil m).Keeps L := by
  unfold insn_Bgotoifelsepop
  refine FETCH2_keeps L f m _ hm (fun op m' hm' => TOP_keeps L m' _ (fun v => ?_))
  split
  · exact jump_to_keeps L c h hh f op m' hm'
  · exact DISCARD_keeps L 1 m' _ hm' (fun _ hm'' => hm'')

theorem insn_BRgoto_keeps {H : Type} (L : List (List Nat)) (h : Host H)
    (hh : h.KeepsFrames) (f : Frame) (m : Machine H) (hm : m.world.byte_stack_list = L) :
    (insn_BRgoto h f m).Keeps L := by
  unfold insn_BRgoto
  exact BYTE_CODE_QUIT_keeps L h hh m _ hm
    (fun _ hm' => deref_pc_keeps L f _ _ (fun _ => hm'))

theorem insn_BRgotoif_keeps {H : Type} (L : List (List Nat)) (h : Host H)
    (hh : h.KeepsFrames) (f : Frame) (ifnil : Bool) (m : Machine H)
    (hm : m.world.byte_stack_list = L) : (insn_BRgotoif h f ifnil m).Keeps L := by
  unfold insn_BRgotoif
  refine POP_keeps L m _ hm (fun v m' hm' => ?_)
  split
  · exact BYTE_CODE_QUIT_keeps L h hh m' _ hm'
      (fun _ hm'' => deref_pc_keeps L f _ _ (fun _ => hm''))
  · exact hm'

theorem insn_BRgotoifelsepop_keeps {H : Type} (L : List (List Nat)) (h : Host H)
    (hh : h.KeepsFrames) (f : Frame) (ifnil : Bool) (m : Machine H)
    (hm : m.world.byte_stack_list = L) : (insn_BRgotoifelsepop h f ifnil m).Keeps L := by
  unfold insn_BRgotoifelsepop
  refine FETCH_keeps L f m _ hm (fun op m' hm' => TOP_keeps L m' _ (fun v => ?_))
  split
  · exact BYTE_CODE_QUIT_keeps L h hh m' _ hm' (fun _ hm'' => hm'')
  · exact DISCARD_keeps L 1 m' _ hm' (fun _ hm'' => hm'')

theorem pushhandler_keeps {H : Type} (L : List (List Nat)) (f : Frame) (type : handlertype)
    (m : Machine H) (hm : m.world.byte_stack_list = L) : (pushhandler f type m).Keeps L := by
  unfold pushhandler
  exact POP_keeps L m _ hm (fun _ m' hm' => FETCH2_keeps L f m' _ hm' (fun _ _ hm'' => hm''))

theorem call_primitive_keeps {H : Type} (L : List (List Nat)) (h : Host H)
    (hh : h.KeepsFrames) (l : Insn) (n : Nat) (m : Machine H)
    (hm : m.world.byte_stack_list = L) : (call_primitive h l n m).Keeps L := by
  unfold call_primitive
  split
  · exact trivial
  · exact after_host_keeps L _ _ _ (fun r w he => (hh.primitive _ _ _ r w he).trans hm)
      (fun _ _ hm' => hm')

theorem effect_keeps {H : Type} (L : List (List Nat)) (h : Host H) (hh : h.KeepsFrames)
    (l : Insn) (args : List LispObject) (m : Machine H) (hm : m.world.byte_stack_list = L) :
    (after_host (h.effect l args m.world) m fun _ m => Step.next m).Keeps L :=
  after_host_keeps L _ _ _ (fun r w he => (hh.effect _ _ _ r w he).trans hm)
    (fun _ _ hm' => hm')

theorem call_effect_keeps {H : Type} (L : List (List Nat)) (h : Host H) (hh : h.KeepsFrames)
    (l : Insn) (m : Machine H) (hm : m.world.byte_stack_list = L) :
    (call_effect h l m).Keeps L :=
  effect_keeps L h hh l [] m hm

theorem stack_set_keeps {H : Type} (L : List (List Nat)) (n : Nat) (m : Machine H)
    (hm : m.world.byte_stack_list = L) : (stack_set n m).Keeps L := by
  unfold stack_set
  refine TOP_keeps L m _ (fun v => ?_)
  split
  · exact hm
  · exact trivial

theorem insn_BdiscardN_keeps {H : Type} (L : List (List Nat)) (f : Frame) (m : Machine H)
    (hm : m.world.byte_stack_list = L) : (insn_BdiscardN f m).Keeps L := by
  unfold insn_BdiscardN
  refine FETCH_keeps L f m _ hm (fun op m' hm' => ?_)
  split
  · refine TOP_keeps L m' _ (fun v => ?_)
    split
    · exact DISCARD_keeps L _ _ _ hm' (fun _ hm'' => hm'')
    · exact trivial
  · exact DISCARD_keeps L _ _ _ hm' (fun _ hm'' => hm'')

theorem insn_Bconstant_keeps {H : Type} (L : List (List Nat)) (c : Config) (f : Frame)
    (op : Nat) (m : Machine H) (hm : m.world.byte_stack_list = L) :
    (insn_Bconstant c f op m).Keeps L := by
  unfold insn_Bconstant
  split
  · exact trivial
  · exact vectorp_at_keeps L f _ _ (fun _ => hm)

theorem pophandler_keeps {H : Type} (L : List (List Nat)) (m : Machine H)
    (hm : m.world.byte_stack_list = L) :
    (match m.world.handlerlist with
      | [] => Step.undefined
      | _ :: next =>
        Step.next { m with world := { m.world with handlerlist := next } }).Keeps L := by
  split
  · exact trivial
  · exact hm

theorem exit_keeps {H : Type} (L : List (List Nat)) (m : Machine H)
    (hm : m.world.byte_stack_list = L) : (Step.exit m).Keeps L :=
  hm

theorem nonlocal_keeps {H : Type} (L : List (List Nat)) (e : NonLocalExit) (m : Machine H) :
    (Step.nonlocal e m).Keeps L :=
  trivial

theorem insn_abort_keeps {H : Type} (L : List (List Nat)) (op : Nat) (m : Machine H) :
    (insn_abort op m).Keeps L :=
  trivial

theorem push_keeps {H : Type} (L : List (List Nat)) (v : LispObject) (m : Machine H)
    (hm : m.world.byte_stack_list = L) : (Step.next (PUSH v m)).Keeps L :=
  hm

/-- With a host that keeps the frame list, so does every instruction body. -/
theorem exec_insn_keeps {H : Type} (L : List (List Nat)) (c : Config) (h : Host H)
    (hh : h.KeepsFrames) (f : Frame) (l : Insn) (op : Nat) (m : Machine H)
    (hm : m.world.byte_stack_list = L) : (exec_insn c h f l op m).Keeps L := by
  cases l <;> (delta exec_insn; dsimp only) <;> with_reducible first
    | exact call_primitive_keeps L h hh _ _ m hm
    | exact FETCH_keeps L f m _ hm (fun _ _ hm' => call_primitive_keeps L h hh _ _ _ hm')
    | exact varref_keeps L h hh f _ m hm
    | exact FETCH_keeps L f m _ hm (fun _ _ hm' => varref_keeps L h hh f _ _ hm')
    | exact FETCH2_keeps L f m _ hm (fun _ _ hm' => varref_keeps L h hh f _ _ hm')
    | exact varset_keeps L h hh f _ m hm
    | exact FETCH_keeps L f m _ hm (fun _ _ hm' => varset_keeps L h hh f _ _ hm')
    | exact FETCH2_keeps L f m _ hm (fun _ _ hm' => varset_keeps L h hh f _ _ hm')
    | exact varbind_keeps L h hh f _ m hm
    | exact FETCH_keeps L f m _ hm (fun _ _ hm' => varbind_keeps L h hh f _ _ hm')
    | exact FETCH2_keeps L f m _ hm (fun _ _ hm' => varbind_keeps L h hh f _ _ hm')
    | exact docall_keeps L h hh _ m hm
    | exact FETCH_keeps L f m _ hm (fun _ _ hm' => docall_keeps L h hh _ _ hm')
    | exact FETCH2_keeps L f m _ hm (fun _ _ hm' => docall_keeps L h hh _ _ hm')
    | exact unbind_keeps L h hh _ m hm
    | exact dounbind_keeps L h hh _ m hm
    | exact call_effect_keeps L h hh _ m hm
    | exact FETCH_keeps L f m _ hm (fun _ _ hm' => dounbind_keeps L h hh _ _ hm')
    | exact FETCH2_keeps L f m _ hm (fun _ _ hm' => dounbind_keeps L h hh _ _ hm')
    | exact insn_Bgoto_keeps L c h hh f m hm
    | exact insn_Bgotoif_keeps L c h hh f _ m hm
    | exact insn_Bgotoifelsepop_keeps L c h hh f _ m hm
    | exact insn_BRgoto_keeps L h hh f m hm
    | exact insn_BRgotoif_keeps L h hh f _ m hm
    | exact insn_BRgotoifelsepop_keeps L h hh f _ m hm
    | exact exit_keeps L m hm
    | exact DISCARD_keeps L 1 m _ hm (fun _ hm' => next_keeps L _ hm')
    | exact TOP_keeps L m _ (fun _ => next_keeps L _ hm)
    | exact FETCH2_keeps L f m _ hm
          (fun _ _ hm' => vectorp_at_keeps L f _ _ (fun _ => next_keeps L _ hm'))
    | exact effect_keeps L h hh _ _ m hm
    | exact POP_keeps L m _ hm (fun _ _ hm' => effect_keeps L h hh _ _ _ hm')
    | exact pushhandler_keeps L f _ m hm
    | exact nonlocal_keeps L _ m
    | exact insn_abort_keeps L op m
    | exact TOP_keeps L m _ (fun _ => push_keeps L _ _ hm)
    | exact top_at_keeps L _ m _ (fun _ => push_keeps L _ _ hm)
    | exact FETCH_keeps L f m _ hm
          (fun _ _ hm' => top_at_keeps L _ _ _ (fun _ => push_keeps L _ _ hm'))
    | exact FETCH2_keeps L f m _ hm
          (fun _ _ hm' => top_at_keeps L _ _ _ (fun _ => push_keeps L _ _ hm'))
    | exact FETCH2_keeps L f m _ hm
          (fun _ _ hm' => vectorp_at_keeps L f _ _ (fun _ => push_keeps L _ _ hm'))
    | exact top_at_keeps L _ m _ (fun _ => next_keeps L _ hm)
    | exact FETCH_keeps L f m _ hm
          (fun _ _ hm' => top_at_keeps L _ _ _ (fun _ => next_keeps L _ hm'))
    | exact FETCH2_keeps L f m _ hm
          (fun _ _ hm' => top_at_keeps L _ _ _ (fun _ => next_keeps L _ hm'))
    | exact FETCH_keeps L f m _ hm (fun _ _ hm' => stack_set_keeps L _ _ hm')
    | exact FETCH2_keeps L f m _ hm (fun _ _ hm' => stack_set_keeps L _ _ hm')
    | exact insn_BdiscardN_keeps L f m hm
    | exact insn_Bconstant_keeps L c f op m hm
    | exact pophandler_keeps L m hm
/-! ### The frame list across an invocation -/

/-- With a host that keeps the frame list, one pass through the loop keeps
it. -/
theorem step_keeps {H : Type} (L : List (List Nat)) (c : Config) (h : Host H)
    (hh : h.KeepsFrames) (f : Frame) (m : Machine H) (hm : m.world.byte_stack_list = L) :
    (step c h f m).Keeps L := by
  unfold step
  split
  · exact trivial
  · exact FETCH_keeps L f m _ hm (fun op m' hm' => exec_insn_keeps L c h hh f _ op m' hm')

theorem after_steps_keeps {H : Type} (L : List (List Nat)) (c : Config) (h : Host H)
    (hh : h.KeepsFrames) (f : Frame) :
    ∀ (n : Nat) (m m₁ : Machine H), m.world.byte_stack_list = L →
      after_steps c h f n m = some m₁ → m₁.world.byte_stack_list = L := by
  intro n
  induction n with
  | zero =>
    intro m m₁ hm hn
    simp only [after_steps, Option.some.injEq] at hn
    rw [← hn]
    exact hm
  | succ n ih =>
    intro m m₁ hm hn
    simp only [after_steps] at hn
    have hk := step_keeps L c h hh f m hm
    split at hn
    · rename_i m₂ hm₂
      rw [hm₂] at hk
      exact ih m₂ m₁ hk hn
    · exact Option.noConfusion hn

theorem arithHost_keepsFrames : arithHost.KeepsFrames where
  unbind_to := by intro n v w r w' he; cases he; rfl
  specbind := by intro s v w r w' he; cases he; rfl
  Fsymbol_value := by intro s w r w' he; cases he; rfl
  set_internal := by intro s v w r w' he; cases he; rfl
  Ffuncall := by intro args w r w' he; cases he; rfl
  maybe_gc := by intro w; rfl
  process_pending_signals := by intro w r w' he; cases he; rfl
  primitive := by
    intro l args w r w' he
    simp only [arithHost] at he
    split at he <;> (cases he; rfl)
  effect := by intro l args w r w' he; cases he; rfl

theorem CHECK_RANGE_next_range {H : Type} (c : Config) (f : Frame) (dest : Nat) (k : Step H)
    (m' : Machine H) (hn : CHECK_RANGE c f dest k = Step.next m')
    (hsafe : c.build.BYTE_CODE_SAFE = true) : k = Step.next m' ∧ dest < f.bytestr.length := by
  unfold CHECK_RANGE at hn
  split at hn
  · exact Step.noConfusion hn
  · rename_i hcond
    refine ⟨hn, ?_⟩
    rw [hsafe] at hcond
    simpa using hcond

theorem jump_to_next_range {H : Type} (c : Config) (h : Host H) (f : Frame) (dest : Nat)
    (m m' : Machine H) (hn : jump_to c h f dest m = Step.next m')
    (hsafe : c.build.BYTE_CODE_SAFE = true) :
    m'.pc = (dest : Int) ∧ dest < f.bytestr.length := by
  have hpc := ((jump_to_spec c h f m dest).1 m' hn).1
  unfold jump_to at hn
  obtain ⟨w', _, hk⟩ := BYTE_CODE_QUIT_next h m _ m' hn
  exact ⟨hpc, (CHECK_RANGE_next_range c f dest _ m' hk hsafe).2⟩

theorem insn_Bgoto_next_range {H : Type} (c : Config) (h : Host H) (f : Frame)
    (m m' : Machine H) (o b0 b1 : Nat) (hpc : m.pc = ((o + 1 : Nat) : Int))
    (hb0 : f.bytestr[o + 1]? = some b0) (hb1 : f.bytestr[o + 1 + 1]? = some b1)
    (hn : insn_Bgoto c h f m = Step.next m') (hsafe : c.build.BYTE_CODE_SAFE = true) :
    m'.pc = ((b0 + 256 * b1 : Nat) : Int) ∧ b0 + 256 * b1 < f.bytestr.length := by
  have hpc' := ((insn_Bgoto_spec c h f m o b0 b1 hpc hb0 hb1).1 m' hn).1
  unfold insn_Bgoto at hn
  obtain ⟨w', _, hk⟩ := BYTE_CODE_QUIT_next h m _ m' hn
  have hk' := (FETCH2_eq f
    { pc := m.pc, top := m.top, quitcounter := (m.quitcounter + 1) % 256, world := w' }
    (fun op m => CHECK_RANGE c f op (Step.next { m with pc := op }))
    (o + 1) b0 b1 hpc hb0 hb1).symm.trans hk
  exact ⟨hpc', (CHECK_RANGE_next_range c f _ _ m' hk' hsafe).2⟩

theorem insn_Bgotoif_next_range {H : Type} (c : Config) (h : Host H) (f : Frame)
    (ifnil : Bool) (m m' : Machine H) (o b0 b1 : Nat) (hpc : m.pc = ((o + 1 : Nat) : Int))
    (hb0 : f.bytestr[o + 1]? = some b0) (hb1 : f.bytestr[o + 1 + 1]? = some b1)
    (hn : insn_Bgotoif c h f ifnil m = Step.next m') (hsafe : c.build.BYTE_CODE_SAFE = true) :
    m'.pc = ((o + 1 + 2 : Nat) : Int) ∨
      (m'.pc = ((b0 + 256 * b1 : Nat) : Int) ∧ b0 + 256 * b1 < f.bytestr.length) := by
  cases htop : m.top with
  | nil =>
    unfold insn_Bgotoif at hn
    rw [FETCH2_eq f m _ (o + 1) b0 b1 hpc hb0 hb1] at hn
    unfold POP at hn
    simp only [htop] at hn
    exact Step.noConfusion hn
  | cons v rest =>
    rw [insn_Bgotoif_eq c h f ifnil m o b0 b1 v rest hpc hb0 hb1 htop] at hn
    split at hn
    · exact Or.inr (jump_to_next_range c h f _ _ m' hn hsafe)
    · cases hn
      exact Or.inl rfl

theorem insn_Bgotoifelsepop_next_range {H : Type} (c : Config) (h : Host H) (f : Frame)
    (ifnil : Bool) (m m' : Machine H) (o b0 b1 : Nat) (hpc : m.pc = ((o + 1 : Nat) : Int))
    (hb0 : f.bytestr[o + 1]? = some b0) (hb1 : f.bytestr[o + 1 + 1]? = some b1)
    (hn : insn_Bgotoifelsepop c h f ifnil m = Step.next m')
    (hsafe : c.build.BYTE_CODE_SAFE = true) :
    m'.pc = ((o + 1 + 2 : Nat) : Int) ∨
      (m'.pc = ((b0 + 256 * b1 : Nat) : Int) ∧ b0 + 256 * b1 < f.bytestr.length) := by
  cases htop : m.top with
  | nil =>
    unfold insn_Bgotoifelsepop at hn
    rw [FETCH2_eq f m _ (o + 1) b0 b1 hpc hb0 hb1] at hn
    unfold TOP at hn
    simp only [htop] at hn
    exact Step.noConfusion hn
  | cons v rest =>
    rw [insn_Bgotoifelsepop_eq c h f ifnil m o b0 b1 v rest hpc hb0 hb1 htop] at hn
    split at hn
    · exact Or.inr (jump_to_next_range c h f _ _ m' hn hsafe)
    · cases hn
      exact Or.inl rfl

theorem handler_resume_next_range {H : Type} (c : Config) (f : Frame) (m m' : Machine H)
    (hn : handler_resume c f m = Step.next m') (hsafe : c.build.BYTE_CODE_SAFE = true) :
    0 ≤ m'.pc ∧ m'.pc < (f.bytestr.length : Int) := by
  unfold handler_resume at hn
  split at hn
  · exact Step.noConfusion hn
  · rename_i hd next hl
    split at hn
    · exact Step.noConfusion hn
    · simp only at hn
      obtain ⟨hk, hlt⟩ := CHECK_RANGE_next_range c f _ _ m' hn hsafe
      cases hk
      exact ⟨Int.natCast_nonneg _, Int.ofNat_lt.mpr hlt⟩

/-- A fetch with the program counter outside the byte string is outside the
model; in a `BYTE_CODE_SAFE` build the check of the stack pointer may come
first. -/
theorem step_outside {H : Type} (c : Config) (h : Host H) (f : Frame) (m : Machine H)
    (hout : m.pc < 0 ∨ (f.bytestr.length : Int) ≤ m.pc) :
    step c h f m = Step.undefined ∨ step c h f m = Step.abort := by
  unfold step
  split
  · exact Or.inr rfl
  · left
    unfold FETCH deref_pc
    split
    · rfl
    · rename_i hneg
      have hle : f.bytestr.length ≤ m.pc.toNat := by omega
      rw [List.getElem?_eq_none hle]

/-- C18, as the claim has it: in a `BYTE_CODE_SAFE` build, after the only
instruction of the one-byte string `[Bconstant]` the loop is at offset 1, the
length of the string, and after `BRgoto` with operand byte 0 at offset 0 it
is at offset -126; the next fetch is outside the byte string in both. -/
theorem pc_in_range_counterexample :
    after_steps (stdConfig (Build.switch true)) arithHost
        { bytestr := [stdB Insn.Bconstant], vectorp := [Qt], maxdepth := 1, count := 0 } 1
        { pc := 0, top := [], quitcounter := 0, world := quietWorld } =
      some { pc := 1, top := [Qt], quitcounter := 0, world := quietWorld } ∧
    ¬ ((1 : Int) < ([stdB Insn.Bconstant].length : Int)) ∧
    after_steps (stdConfig (Build.switch true)) arithHost
        { bytestr := [stdB Insn.BRgoto, 0], vectorp := [], maxdepth := 1, count := 0 } 1
        { pc := 0, top := [], quitcounter := 1, world := quietWorld } =
      some { pc := -126, top := [], quitcounter := 2, world := quietWorld } ∧
    ¬ ((0 : Int) ≤ -126) :=
  ⟨rfl, by decide, rfl, by decide⟩

/-- C18, amended.  In a `BYTE_CODE_SAFE` build the program counter is within
the byte string wherever `CHECK_RANGE` has acted: a long jump (`Bgoto`,
`Bgotoifnil`, `Bgotoifnonnil`, `Bgotoifnilelsepop`, `Bgotoifnonnilelsepop`) at
offset `o` that ends at `NEXT` either fell through to `o + 3` or went to its
destination `b0 + 256 * b1`, which is then at least 0 and below the length of
the byte string, and a handler resumption that ends at `NEXT` continues at
such an offset too.  Elsewhere the offset is not checked: a pass through the
loop with the program counter outside the byte string fetches outside it (or,
in a `BYTE_CODE_SAFE` build, may stop at the stack-pointer check first). -/
theorem pc_in_range_where_checked {H : Type} (c : Config) (hc : c.WellFormed) (h : Host H)
    (f : Frame) (m : Machine H) (o b0 b1 : Nat) (l : Insn)
    (hsafe : c.build.BYTE_CODE_SAFE = true)
    (hpc : m.pc = (o : Int)) (hop : f.bytestr[o]? = some (c.B l))
    (hb0 : f.bytestr[o + 1]? = some b0) (hb1 : f.bytestr[o + 2]? = some b1)
    (hl : l = Insn.Bgoto ∨ l = Insn.Bgotoifnil ∨ l = Insn.Bgotoifnonnil ∨
      l = Insn.Bgotoifnilelsepop ∨ l = Insn.Bgotoifnonnilelsepop) :
    (∀ m', step c h f m = Step.next m' →
      m'.pc = (o : Int) + 3 ∨
        (m'.pc = ((b0 + 256 * b1 : Nat) : Int) ∧ 0 ≤ m'.pc ∧
          m'.pc < (f.bytestr.length : Int))) ∧
    (∀ m₂ m' : Machine H, handler_resume c f m₂ = Step.next m' →
      0 ≤ m'.pc ∧ m'.pc < (f.bytestr.length : Int)) ∧
    (∀ m₂ : Machine H, m₂.pc < 0 ∨ (f.bytestr.length : Int) ≤ m₂.pc →
      step c h f m₂ = Step.undefined ∨ step c h f m₂ = Step.abort) := by
  refine ⟨?_, fun m₂ m' hn => handler_resume_next_range c f m₂ m' hn hsafe,
    fun m₂ hout => step_outside c h f m₂ hout⟩
  intro m' hn
  have hfall : (((o + 1 + 2 : Nat) : Int)) = (o : Int) + 3 := by push_cast; ring
  have hmem : l ∈ caseLabels := by
    rcases hl with rfl | rfl | rfl | rfl | rfl <;> decide
  have hex := step_next c h f m m' o (c.B l) hpc hop hn
  rw [dispatch_label c hc l hmem] at hex
  have hfin : ∀ d : Nat, m'.pc = ((o + 1 + 2 : Nat) : Int) ∨
      (m'.pc = (d : Int) ∧ d < f.bytestr.length) →
      m'.pc = (o : Int) + 3 ∨
        (m'.pc = (d : Int) ∧ 0 ≤ m'.pc ∧ m'.pc < (f.bytestr.length : Int)) := by
    intro d hd
    rcases hd with hd | ⟨hd, hlt⟩
    · exact Or.inl (hd.trans hfall)
    · refine Or.inr ⟨hd, ?_, ?_⟩
      · rw [hd]
        exact Int.natCast_nonneg _
      · rw [hd]
        exact Int.ofNat_lt.mpr hlt
  rcases hl with rfl | rfl | rfl | rfl | rfl
  · exact hfin _ (Or.inr (insn_Bgoto_next_range c h f _ m' o b0 b1 rfl hb0 hb1 hex hsafe))
  · exact hfin _ (insn_Bgotoif_next_range c h f true _ m' o b0 b1 rfl hb0 hb1 hex hsafe)
  · exact hfin _ (insn_Bgotoif_next_range c h f false _ m' o b0 b1 rfl hb0 hb1 hex hsafe)
  · exact hfin _ (insn_Bgotoifelsepop_next_range c h f true _ m' o b0 b1 rfl hb0 hb1 hex hsafe)
  · exact hfin _ (insn_Bgotoifelsepop_next_range c h f false _ m' o b0 b1 rfl hb0 hb1 hex hsafe)

theorem pc_in_range_where_checked_witness :
    (stdConfig (Build.switch true)).build.BYTE_CODE_SAFE = true ∧
    step (stdConfig (Build.switch true)) arithHost
        { bytestr := [stdB Insn.Bgoto, 2, 0], vectorp := [], maxdepth := 1, count := 0 }
        { pc := 0, top := [], quitcounter := 1, world := quietWorld } =
      Step.next { pc := 2, top := [], quitcounter := 2, world := quietWorld } ∧
    ((2 : Int) = ((0 : Nat) : Int) + 3 ∨
      ((2 : Int) = ((2 + 256 * 0 : Nat) : Int) ∧ (0 : Int) ≤ 2 ∧
        (2 : Int) < ([stdB Insn.Bgoto, 2, 0].length : Int))) :=
  ⟨rfl, rfl,
   (pc_in_range_where_checked (stdConfig (Build.switch true)) (stdConfig_wellFormed _)
      arithHost
      { bytestr := [stdB Insn.Bgoto, 2, 0], vectorp := [], maxdepth := 1, count := 0 }
      { pc := 0, top := [], quitcounter := 1, world := quietWorld } 0 2 0 Insn.Bgoto
      rfl rfl rfl rfl rfl (Or.inl rfl)).1
      { pc := 2, top := [], quitcounter := 2, world := quietWorld } rfl⟩
set_option maxRecDepth 100000 in
theorem Insn_toCtorIdx_ofNat : ∀ i : Fin 175, (Insn.ofNat i.val).toCtorIdx = i.val := by
  decide

theorem Insn_count_le (c : Config) (hc : c.WellFormed) : 174 ≤ c.B Insn.Bconstant := by
  have hinj : Function.Injective
      (fun i : Fin 175 => (⟨c.B (Insn.ofNat i.val), Nat.lt_succ_of_le (hc.le_Bconstant _)⟩ :
        Fin (c.B Insn.Bconstant + 1))) := by
    intro i j hij
    have hB : c.B (Insn.ofNat i.val) = c.B (Insn.ofNat j.val) := congrArg Fin.val hij
    have hl := hc.injective hB
    have := congrArg Insn.toCtorIdx hl
    rw [Insn_toCtorIdx_ofNat i, Insn_toCtorIdx_ofNat j] at this
    exact Fin.ext this
  have := Fintype.card_le_of_injective _ hinj
  simp only [Fintype.card_fin] at this
  omega

/-- The inline indices of the constant opcodes are the numbers below
`256 - Bconstant`. -/
theorem inline_indices_eq_range (b : Nat) :
    (Finset.Icc b 255).image (fun op => op - b) = Finset.range (256 - b) := by
  ext x
  simp only [Finset.mem_image, Finset.mem_Icc, Finset.mem_range]
  constructor
  · rintro ⟨op, ⟨h1, h2⟩, rfl⟩
    omega
  · intro hx
    exact ⟨x + b, ⟨by omega, by omega⟩, by omega⟩

/-- C19, as the claim has it: with `Bconstant` at 0300, its value in the byte
compiler's opcode table, the inline indices are the 64 numbers 0..63, not
192 numbers. -/
theorem inline_constants_count_counterexample :
    (stdConfig Build.threaded).B Insn.Bconstant = 192 ∧
    (Finset.Icc ((stdConfig Build.threaded).B Insn.Bconstant) 255).image
        (fun op => op - (stdConfig Build.threaded).B Insn.Bconstant) = Finset.range 64 ∧
    ((Finset.Icc ((stdConfig Build.threaded).B Insn.Bconstant) 255).image
        (fun op => op - (stdConfig Build.threaded).B Insn.Bconstant)).card = 64 ∧
    (64 : Nat) ≠ 192 := by
  have h := inline_indices_eq_range ((stdConfig Build.threaded).B Insn.Bconstant)
  refine ⟨rfl, h, ?_, by decide⟩
  rw [h]
  exact Finset.card_range _

/-- C19, amended.  For every well-formed opcode numbering, the bytes from
`Bconstant` to 255 select the `Bconstant` body, and their inline indices
`op - Bconstant` are exactly the `256 - Bconstant` numbers
`0 .. 255 - Bconstant`.  As the 175 labels have distinct values none of which
is above `Bconstant`, that is at most 82 indices and never 192; it is 64 when
`Bconstant` is 192. -/
theorem inline_constants_count (c : Config) (hc : c.WellFormed) :
    (∀ op, c.B Insn.Bconstant ≤ op → dispatch c op = Insn.Bconstant) ∧
    (Finset.Icc (c.B Insn.Bconstant) 255).image (fun op => op - c.B Insn.Bconstant) =
      Finset.range (256 - c.B Insn.Bconstant) ∧
    ((Finset.Icc (c.B Insn.Bconstant) 255).image (fun op => op - c.B Insn.Bconstant)).card =
      256 - c.B Insn.Bconstant ∧
    256 - c.B Insn.Bconstant ≤ 82 ∧
    ((Finset.Icc (c.B Insn.Bconstant) 255).image
      (fun op => op - c.B Insn.Bconstant)).card ≠ 192 ∧
    (c.B Insn.Bconstant = 192 →
      ((Finset.Icc (c.B Insn.Bconstant) 255).image
        (fun op => op - c.B Insn.Bconstant)).card = 64) := by
  have h := inline_indices_eq_range (c.B Insn.Bconstant)
  have hcard : ((Finset.Icc (c.B Insn.Bconstant) 255).image
      (fun op => op - c.B Insn.Bconstant)).card = 256 - c.B Insn.Bconstant := by
    rw [h]
    exact Finset.card_range _
  have hge := Insn_count_le c hc
  refine ⟨?_, h, hcard, by omega, by omega, ?_⟩
  · intro op hop
    obtain ⟨k, rfl⟩ : ∃ k, op = c.B Insn.Bconstant + k := ⟨op - c.B Insn.Bconstant, by omega⟩
    exact dispatch_constant c hc k
  · intro hb
    rw [hcard, hb]

theorem inline_constants_count_witness :
    (stdConfig Build.threaded).WellFormed ∧
    ((Finset.Icc ((stdConfig Build.threaded).B Insn.Bconstant) 255).image
      (fun op => op - (stdConfig Build.threaded).B Insn.Bconstant)).card = 64 :=
  ⟨stdConfig_wellFormed _,
   (inline_constants_count (stdConfig Build.threaded) (stdConfig_wellFormed _)).2.2.2.2.2 rfl⟩
/-! ### The seven-form families -/

/-- A byte that is the value of a `CASE` label enters the body of that label
with the program counter behind the opcode. -/
theorem step_label {H : Type} (c : Config) (hc : c.WellFormed) (h : Host H) (f : Frame)
    (m : Machine H) (o : Nat) (l : Insn) (hl : l ∈ caseLabels)
    (hsafe : c.build.BYTE_CODE_SAFE = true → m.top.length ≤ f.maxdepth)
    (hpc : m.pc = (o : Int)) (hop : f.bytestr[o]? = some (c.B l)) :
    step c h f m = exec_insn c h f l (c.B l) { m with pc := ((o + 1 : Nat) : Int) } := by
  rw [step_eq c h f m o _ hsafe hpc hop, dispatch_label c hc l hl]

theorem Family.label_mem (fam : Family) (k : Nat) : fam.label k ∈ caseLabels := by
  have h8 : ∀ k, fam.label k = fam.label (min k 7) := by
    intro k
    by_cases hk : k ≤ 7
    · rw [Nat.min_eq_left hk]
    · have h7 : min k 7 = 7 := Nat.min_eq_right (by omega)
      rw [h7]
      obtain ⟨j, rfl⟩ : ∃ j, k = j + 8 := ⟨k - 8, by omega⟩
      cases fam <;> rfl
  rw [h8 k]
  have hk : min k 7 ≤ 7 := Nat.min_le_right _ _
  generalize min k 7 = j at hk
  interval_cases j <;> cases fam <;> decide

/-- The forms 0 to 5 of a family enter the body with the operand
`op - B (base)`. -/
theorem exec_insn_inline {H : Type} (c : Config) (h : Host H) (f : Frame) (fam : Family)
    (k : Nat) (hk : k ≤ 5) (hB : c.B (fam.label k) = c.B (fam.label 0) + k) (m : Machine H) :
    exec_insn c h f (fam.label k) (c.B (fam.label k)) m = fam.body h f k m := by
  have hint : ((c.B (fam.label k) : Nat) : Int) - ((c.B (fam.label 0) : Nat) : Int) = (k : Int) := by
    rw [hB]
    push_cast
    ring
  have hnat : c.B (fam.label k) - c.B (fam.label 0) = k := by omega
  interval_cases k <;> cases fam <;>
    first
    | exact congrArg (fun n => varref h f n m) hint
    | exact congrArg (fun n => varset h f n m) hint
    | exact congrArg (fun n => varbind h f n m) hint
    | exact congrArg (fun n => docall h n m) hnat
    | exact congrArg (fun n => dounbind h n m) hint

theorem exec_insn_form6 {H : Type} (c : Config) (h : Host H) (f : Frame) (fam : Family)
    (op : Nat) (m : Machine H) :
    exec_insn c h f (fam.label 6) op m = FETCH f m fun b m => fam.body h f b m := by
  cases fam <;> rfl

theorem exec_insn_form7 {H : Type} (c : Config) (h : Host H) (f : Frame) (fam : Family)
    (op : Nat) (m : Machine H) :
    exec_insn c h f (fam.label 7) op m = FETCH2 f m fun b m => fam.body h f b m := by
  cases fam <;> rfl

/-- C20.  Let the eight labels of a family (variable-reference, variable-set,
variable-bind, call, unbind) have the consecutive values `B .. B + 7`, as in
the opcode table, and let the byte under the program counter, at offset `o`,
be `B + k`.  For `k` from 0 to 5 the family body is entered with the operand
`k` and the program counter at `o + 1`, no further byte consumed; for `k = 6`
with the operand `b`, the next byte, and the program counter at `o + 2`; for
`k = 7` with the operand `b0 + 256 * b1` of the next two bytes and the program
counter at `o + 3`.  It is the same body `fam.body` in all eight forms. -/
theorem seven_forms {H : Type} (c : Config) (hc : c.WellFormed) (h : Host H) (f : Frame)
    (m : Machine H) (o : Nat) (fam : Family) (k : Nat)
    (hfam : ∀ j, j ≤ 7 → c.B (fam.label j) = c.B (fam.label 0) + j)
    (hsafe : c.build.BYTE_CODE_SAFE = true → m.top.length ≤ f.maxdepth)
    (hpc : m.pc = (o : Int)) (hop : f.bytestr[o]? = some (c.B (fam.label 0) + k)) :
    (k ≤ 5 → step c h f m = fam.body h f k { m with pc := ((o + 1 : Nat) : Int) }) ∧
    (k = 6 → ∀ b, f.bytestr[o + 1]? = some b →
      step c h f m = fam.body h f b { m with pc := ((o + 2 : Nat) : Int) }) ∧
    (k = 7 → ∀ b0 b1, f.bytestr[o + 1]? = some b0 → f.bytestr[o + 2]? = some b1 →
      step c h f m = fam.body h f (b0 + 256 * b1) { m with pc := ((o + 3 : Nat) : Int) }) := by
  refine ⟨?_, ?_, ?_⟩
  · intro hk
    have hB := hfam k (by omega)
    rw [← hB] at hop
    rw [step_label c hc h f m o _ (fam.label_mem k) hsafe hpc hop]
    exact exec_insn_inline c h f fam k hk hB _
  · intro hk b hb
    subst hk
    rw [← hfam 6 (by omega)] at hop
    rw [step_label c hc h f m o _ (fam.label_mem 6) hsafe hpc hop, exec_insn_form6]
    exact FETCH_eq f _ _ (o + 1) b rfl hb
  · intro hk b0 b1 hb0 hb1
    subst hk
    rw [← hfam 7 (by omega)] at hop
    rw [step_label c hc h f m o _ (fam.label_mem 7) hsafe hpc hop, exec_insn_form7]
    exact FETCH2_eq f _ _ (o + 1) b0 b1 rfl hb0 hb1

theorem seven_forms_witness :
    (∀ j, j ≤ 7 → (stdConfig (Build.switch true)).B (Family.unbind.label j) =
      (stdConfig (Build.switch true)).B (Family.unbind.label 0) + j) ∧
    step (stdConfig (Build.switch true)) depthHost
        { bytestr := [stdB Insn.Bunbind + 6, 2], vectorp := [], maxdepth := 1, count := 3 }
        { pc := 0, top := [], quitcounter := 0, world := depthWorld 5 } =
      Family.unbind.body depthHost
        { bytestr := [stdB Insn.Bunbind + 6, 2], vectorp := [], maxdepth := 1, count := 3 } 2
        { pc := ((0 + 2 : Nat) : Int), top := [], quitcounter := 0, world := depthWorld 5 } ∧
    step (stdConfig (Build.switch true)) depthHost
        { bytestr := [stdB Insn.Bunbind + 6, 2], vectorp := [], maxdepth := 1, count := 3 }
        { pc := 0, top := [], quitcounter := 0, world := depthWorld 5 } =
      Step.next { pc := 2, top := [], quitcounter := 0, world := depthWorld 3 } :=
  ⟨by decide,
   (seven_forms (stdConfig (Build.switch true)) (stdConfig_wellFormed _) depthHost
      { bytestr := [stdB Insn.Bunbind + 6, 2], vectorp := [], maxdepth := 1, count := 3 }
      { pc := 0, top := [], quitcounter := 0, world := depthWorld 5 } 0 Family.unbind 6
      (by decide) (fun _ => by decide) rfl rfl).2.1 rfl 2 rfl,
   rfl⟩
/-! ### The operand stack across a conditional jump -/

theorem cond_jump_label_mem (long ifnil elsepop : Bool) :
    cond_jump_label long ifnil elsepop ∈ caseLabels := by
  cases long <;> cases ifnil <;> cases elsepop <;> decide

theorem insn_BRgotoif_fall {H : Type} (h : Host H) (f : Frame) (ifnil : Bool) (m : Machine H)
    (v : LispObject) (rest : List LispObject) (htop : m.top = v :: rest)
    (hv : ¬ NILP v = ifnil) :
    insn_BRgotoif h f ifnil m = Step.next { m with pc := m.pc + 1, top := rest } := by
  unfold insn_BRgotoif POP
  have hb : (NILP v == ifnil) = false := by simpa using hv
  simp only [htop, hb, Bool.false_eq_true, if_false]

theorem insn_BRgotoifelsepop_fall {H : Type} (h : Host H) (f : Frame) (ifnil : Bool)
    (m : Machine H) (o b : Nat) (v : LispObject) (rest : List LispObject)
    (hpc : m.pc = ((o + 1 : Nat) : Int)) (hb : f.bytestr[o + 1]? = some b)
    (htop : m.top = v :: rest) (hv : ¬ NILP v = ifnil) :
    insn_BRgotoifelsepop h f ifnil m =
      Step.next { m with pc := ((o + 1 + 1 : Nat) : Int), top := rest } := by
  unfold insn_BRgotoifelsepop
  rw [FETCH_eq f m _ (o + 1) b hpc hb]
  unfold TOP DISCARD
  have hb' : (NILP v == ifnil) = false := by simpa using hv
  simp [htop, hb']

/-- What a long conditional jump does to the operand stack, once its operand
is read. -/
theorem long_cond_stack {H : Type} (c : Config) (h : Host H) (f : Frame) (m : Machine H)
    (body : Step H) (ifnil : Bool) (v : LispObject) (dest : Nat) (fall : Int)
    (top₁ top₂ : List LispObject)
    (hbody : body =
      if NILP v == ifnil then jump_to c h f dest { m with pc := fall, top := top₁ }
      else Step.next { m with pc := fall, top := top₂ }) :
    (NILP v = ifnil →
      (∀ m', body = Step.next m' → m'.pc = (dest : Int) ∧ m'.top = top₁) ∧
      (∀ w', gate_world h m.quitcounter m.world = some w' →
        (c.build.BYTE_CODE_SAFE = true → dest < f.bytestr.length) →
        body = Step.next { pc := (dest : Int), top := top₁,
                           quitcounter := (m.quitcounter + 1) % 256, world := w' })) ∧
    (¬ NILP v = ifnil → body = Step.next { m with pc := fall, top := top₂ }) := by
  subst hbody
  constructor
  · intro hv
    have hb : (NILP v == ifnil) = true := by simpa using hv
    simp only [hb, if_true]
    exact jump_to_spec c h f { m with pc := fall, top := top₁ } dest
  · intro hv
    have hb : (NILP v == ifnil) = false := by simpa using hv
    simp only [hb, Bool.false_eq_true, if_false]

/-- C21.  A conditional jump at offset `o`, long (operand bytes `b0`, `b1`) or
short (operand byte `b0`), run on a stack with top `v` above `rest`.  If `v` is
nil for an `ifnil` form, or non-nil for an `ifnonnil` form, the branch is
taken: wherever the instruction ends at `NEXT` the program counter is the
destination and the stack is `rest` for the plain forms (`v` popped) and
`v :: rest` for the `elsepop` forms (unchanged); and it does end so when the
gate falls through (and the destination of a long jump passes `CHECK_RANGE`).
Otherwise the branch is not taken: the instruction ends at `NEXT` behind its
operand with the stack `rest`, one value popped, in all eight forms.  The
values of `rest` are the same in every case. -/
theorem conditional_jump_stack {H : Type} (c : Config) (hc : c.WellFormed) (h : Host H)
    (f : Frame) (m : Machine H) (o b0 b1 : Nat) (v : LispObject) (rest : List LispObject)
    (long ifnil elsepop : Bool)
    (hsafe : c.build.BYTE_CODE_SAFE = true → m.top.length ≤ f.maxdepth)
    (hpc : m.pc = (o : Int))
    (hop : f.bytestr[o]? = some (c.B (cond_jump_label long ifnil elsepop)))
    (hb0 : f.bytestr[o + 1]? = some b0) (hb1 : long = true → f.bytestr[o + 2]? = some b1)
    (htop : m.top = v :: rest) :
    (NILP v = ifnil →
      (∀ m', step c h f m = Step.next m' →
        m'.pc = (if long then ((b0 + 256 * b1 : Nat) : Int)
                 else ((o : Int) + 2) + ((b0 : Int) - 128)) ∧
        m'.top = if elsepop then v :: rest else rest) ∧
      (∀ w', gate_world h m.quitcounter m.world = some w' →
        (long = true → c.build.BYTE_CODE_SAFE = true → b0 + 256 * b1 < f.bytestr.length) →
        step c h f m =
          Step.next { pc := (if long then ((b0 + 256 * b1 : Nat) : Int)
                             else ((o : Int) + 2) + ((b0 : Int) - 128)),
                      top := if elsepop then v :: rest else rest,
                      quitcounter := (m.quitcounter + 1) % 256, world := w' })) ∧
    (¬ NILP v = ifnil →
      step c h f m =
        Step.next { pc := (if long then (o : Int) + 3 else (o : Int) + 2), top := rest,
                    quitcounter := m.quitcounter, world := m.world }) := by
  rw [step_label c hc h f m o _ (cond_jump_label_mem long ifnil elsepop) hsafe hpc hop]
  have hfall3 : (((o + 1 + 2 : Nat) : Int)) = (o : Int) + 3 := by push_cast; ring
  have hfall2 : (((o + 1 + 1 : Nat) : Int)) = (o : Int) + 2 := by push_cast; ring
  have hfall1 : (((o + 1 : Nat) : Int)) + 1 = (o : Int) + 2 := by push_cast; ring
  cases long with
  | false =>
    simp only [Bool.false_eq_true, if_false]
    cases elsepop with
    | false =>
      have hbody : exec_insn c h f (cond_jump_label false ifnil false)
          (c.B (cond_jump_label false ifnil false)) { m with pc := ((o + 1 : Nat) : Int) } =
          insn_BRgotoif h f ifnil { m with pc := ((o + 1 : Nat) : Int) } := by
        cases ifnil <;> rfl
      rw [hbody]
      simp only [Bool.false_eq_true, if_false]
      refine ⟨fun hv => ?_, fun hv => ?_⟩
      · have hs := insn_BRgotoif_spec h f ifnil { m with pc := ((o + 1 : Nat) : Int) } o b0 v
          rest rfl hb0 htop hv
        exact ⟨hs.1, fun w' hg _ => hs.2 w' hg⟩
      · rw [insn_BRgotoif_fall h f ifnil { m with pc := ((o + 1 : Nat) : Int) } v rest htop hv]
        simp only [hfall1]
    | true =>
      have hbody : exec_insn c h f (cond_jump_label false ifnil true)
          (c.B (cond_jump_label false ifnil true)) { m with pc := ((o + 1 : Nat) : Int) } =
          insn_BRgotoifelsepop h f ifnil { m with pc := ((o + 1 : Nat) : Int) } := by
        cases ifnil <;> rfl
      rw [hbody]
      simp only [if_true]
      refine ⟨fun hv => ?_, fun hv => ?_⟩
      · have hs := insn_BRgotoifelsepop_spec h f ifnil { m with pc := ((o + 1 : Nat) : Int) }
          o b0 v rest rfl hb0 htop hv
        exact ⟨hs.1, fun w' hg _ => hs.2 w' hg⟩
      · rw [insn_BRgotoifelsepop_fall h f ifnil { m with pc := ((o + 1 : Nat) : Int) } o b0
          v rest rfl hb0 htop hv]
        simp only [hfall2]
  | true =>
    simp only [if_true]
    have hb1' := hb1 rfl
    cases elsepop with
    | false =>
      have hbody : exec_insn c h f (cond_jump_label true ifnil false)
          (c.B (cond_jump_label true ifnil false)) { m with pc := ((o + 1 : Nat) : Int) } =
          insn_Bgotoif c h f ifnil { m with pc := ((o + 1 : Nat) : Int) } := by
        cases ifnil <;> rfl
      rw [hbody]
      simp only [Bool.false_eq_true, if_false]
      have hs := long_cond_stack c h f { m with pc := ((o + 1 : Nat) : Int) } _ ifnil v
        (b0 + 256 * b1) ((o + 1 + 2 : Nat) : Int) rest rest
        (insn_Bgotoif_eq c h f ifnil { m with pc := ((o + 1 : Nat) : Int) } o b0 b1 v rest
          rfl hb0 hb1' htop)
      refine ⟨fun hv => ⟨(hs.1 hv).1, fun w' hg hr => (hs.1 hv).2 w' hg (hr trivial)⟩,
        fun hv => ?_⟩
      rw [hs.2 hv]
      simp only [hfall3]
    | true =>
      have hbody : exec_insn c h f (cond_jump_label true ifnil true)
          (c.B (cond_jump_label true ifnil true)) { m with pc := ((o + 1 : Nat) : Int) } =
          insn_Bgotoifelsepop c h f ifnil { m with pc := ((o + 1 : Nat) : Int) } := by
        cases ifnil <;> rfl
      rw [hbody]
      simp only [if_true]
      have hs := long_cond_stack c h f { m with pc := ((o + 1 : Nat) : Int) } _ ifnil v
        (b0 + 256 * b1) ((o + 1 + 2 : Nat) : Int) m.top rest
        (insn_Bgotoifelsepop_eq c h f ifnil { m with pc := ((o + 1 : Nat) : Int) } o b0 b1
          v rest rfl hb0 hb1' htop)
      refine ⟨fun hv => ⟨fun m' hn => ⟨((hs.1 hv).1 m' hn).1, (((hs.1 hv).1 m' hn).2).trans htop⟩,
        fun w' hg hr => ((hs.1 hv).2 w' hg (hr trivial)).trans (by rw [htop])⟩, fun hv => ?_⟩
      rw [hs.2 hv]
      simp only [hfall3]

theorem conditional_jump_stack_witness :
    step (stdConfig (Build.switch true)) arithHost
        { bytestr := [stdB Insn.Bgotoifnilelsepop, 0, 0], vectorp := [], maxdepth := 2,
          count := 0 }
        { pc := 0, top := [Qnil, LispObject.symbol "a"], quitcounter := 1,
          world := quietWorld } =
      Step.next { pc := 0, top := [Qnil, LispObject.symbol "a"], quitcounter := 2,
                  world := quietWorld } ∧
    step (stdConfig (Build.switch true)) arithHost
        { bytestr := [stdB Insn.Bgotoifnilelsepop, 0, 0], vectorp := [], maxdepth := 2,
          count := 0 }
        { pc := 0, top := [Qt, LispObject.symbol "a"], quitcounter := 1,
          world := quietWorld } =
      Step.next { pc := 3, top := [LispObject.symbol "a"], quitcounter := 1,
                  world := quietWorld } ∧
    step (stdConfig Build.threaded) arithHost
        { bytestr := [stdB Insn.BRgotoifnonnil, 130], vectorp := [], maxdepth := 2,
          count := 0 }
        { pc := 0, top := [Qt, LispObject.symbol "a"], quitcounter := 1,
          world := quietWorld } =
      Step.next { pc := 4, top := [LispObject.symbol "a"], quitcounter := 2,
                  world := quietWorld } :=
  ⟨((conditional_jump_stack (stdConfig (Build.switch true)) (stdConfig_wellFormed _) arithHost
      { bytestr := [stdB Insn.Bgotoifnilelsepop, 0, 0], vectorp := [], maxdepth := 2,
        count := 0 }
      { pc := 0, top := [Qnil, LispObject.symbol "a"], quitcounter := 1, world := quietWorld }
      0 0 0 Qnil [LispObject.symbol "a"] true true true (fun _ => by decide) rfl rfl rfl
      (fun _ => rfl) rfl).1 rfl).2 quietWorld rfl (fun _ _ => by decide),
   (conditional_jump_stack (stdConfig (Build.switch true)) (stdConfig_wellFormed _) arithHost
      { bytestr := [stdB Insn.Bgotoifnilelsepop, 0, 0], vectorp := [], maxdepth := 2,
        count := 0 }
      { pc := 0, top := [Qt, LispObject.symbol "a"], quitcounter := 1, world := quietWorld }
      0 0 0 Qt [LispObject.symbol "a"] true true true (fun _ => by decide) rfl rfl rfl
      (fun _ => rfl) rfl).2 (by decide),
   ((conditional_jump_stack (stdConfig Build.threaded) (stdConfig_wellFormed _) arithHost
      { bytestr := [stdB Insn.BRgotoifnonnil, 130], vectorp := [], maxdepth := 2,
        count := 0 }
      { pc := 0, top := [Qt, LispObject.symbol "a"], quitcounter := 1, world := quietWorld }
      0 130 0 Qt [LispObject.symbol "a"] false false false (fun _ => by decide) rfl rfl rfl
      (fun hl => absurd hl (by decide)) rfl).1 rfl).2 quietWorld rfl
      (fun hl => absurd hl (by decide))⟩
/-! ### `BdiscardN` and `Bstack_set` -/

set_option maxRecDepth 100000 in
theorem low_bits_of_clear : ∀ n : Fin 256, n.val &&& 0x80 = 0 → n.val &&& 0x7F = n.val := by
  decide

theorem drop_set_self (v : LispObject) :
    ∀ (s : List LispObject) (j : Nat), j < s.length → (s.set j v).drop j = v :: s.drop (j + 1)
  | [], j, hj => absurd hj (Nat.not_lt_zero _)
  | _ :: s, 0, _ => rfl
  | _ :: s, j + 1, hj => by
    simp only [List.set_cons_succ, List.drop_succ_cons]
    exact drop_set_self v s j (Nat.lt_of_succ_lt_succ hj)

/-- Writing the top into the slot `k` below it and dropping `k` slots leaves
the top above what was below the dropped slots. -/
theorem set_drop_preserve (v : LispObject) (s : List LispObject) (k : Nat)
    (hk : k ≤ s.length) : ((v :: s).set k v).drop k = v :: s.drop k := by
  cases k with
  | zero => rfl
  | succ j =>
    simp only [List.set_cons_succ, List.drop_succ_cons]
    exact drop_set_self v s j hk

theorem insn_BdiscardN_eq {H : Type} (f : Frame) (m : Machine H) (o n : Nat)
    (hpc : m.pc = ((o + 1 : Nat) : Int)) (hn : f.bytestr[o + 1]? = some n)
    (hlen : n &&& 0x7F < m.top.length) (h256 : n < 256) :
    (n &&& 0x80 = 0 →
      insn_BdiscardN f m =
        Step.next { m with pc := ((o + 2 : Nat) : Int), top := m.top.drop (n &&& 0x7F) }) ∧
    (n &&& 0x80 ≠ 0 → ∀ v s, m.top = v :: s →
      insn_BdiscardN f m =
        Step.next { m with pc := ((o + 2 : Nat) : Int), top := v :: s.drop (n &&& 0x7F) }) := by
  unfold insn_BdiscardN
  rw [FETCH_eq f m _ (o + 1) n hpc hn]
  constructor
  · intro hclear
    have hk : n &&& 0x7F = n := low_bits_of_clear ⟨n, h256⟩ hclear
    have hb : (n &&& 0x80 != 0) = false := by simp [hclear]
    simp only [hb, Bool.false_eq_true, if_false]
    unfold DISCARD
    rw [hk] at hlen ⊢
    have hle : n ≤ m.top.length := Nat.le_of_lt hlen
    simp only [hle, if_true]
  · intro hset v s htop
    have hb : (n &&& 0x80 != 0) = true := by simpa using hset
    simp only [hb, if_true]
    unfold TOP DISCARD
    simp only [htop] at hlen ⊢
    have hlen' : n &&& 0x7F < (v :: s).length := hlen
    have hle : n &&& 0x7F ≤ ((v :: s).set (n &&& 0x7F) v).length := by
      rw [List.length_set]
      exact Nat.le_of_lt hlen'
    simp only [hlen', hle, if_true]
    rw [set_drop_preserve v s _ (Nat.lt_succ_iff.mp hlen')]

/-- C22.  `BdiscardN` at offset `o` with the operand byte `n`, `k = n & 0x7F`,
on a stack of more than `k` values.  With bit 7 of `n` clear the top `k` values
are removed.  With bit 7 set the stack becomes `k` shorter as well, its new top
is the old top `v` and under it is what was under the `k` values beneath `v`.
What stays is unchanged in both cases, and for `k = 0` the stack is left as it
was.  The program counter moves behind the operand byte. -/
theorem discardN_effect {H : Type} (c : Config) (hc : c.WellFormed) (h : Host H) (f : Frame)
    (m : Machine H) (o n : Nat)
    (hsafe : c.build.BYTE_CODE_SAFE = true → m.top.length ≤ f.maxdepth)
    (hpc : m.pc = (o : Int)) (hop : f.bytestr[o]? = some (c.B Insn.BdiscardN))
    (hn : f.bytestr[o + 1]? = some n) (h256 : n < 256)
    (hlen : n &&& 0x7F < m.top.length) :
    (n &&& 0x80 = 0 →
      step c h f m =
        Step.next { m with pc := ((o + 2 : Nat) : Int), top := m.top.drop (n &&& 0x7F) }) ∧
    (n &&& 0x80 ≠ 0 → ∃ v s, m.top = v :: s ∧
      step c h f m =
        Step.next { m with pc := ((o + 2 : Nat) : Int), top := v :: s.drop (n &&& 0x7F) } ∧
      (v :: s.drop (n &&& 0x7F)).length = m.top.length - (n &&& 0x7F)) ∧
    (n &&& 0x7F = 0 → step c h f m = Step.next { m with pc := ((o + 2 : Nat) : Int) }) := by
  have hstep : step c h f m = insn_BdiscardN f { m with pc := ((o + 1 : Nat) : Int) } :=
    step_label c hc h f m o _ (by decide) hsafe hpc hop
  have hspec := insn_BdiscardN_eq f { m with pc := ((o + 1 : Nat) : Int) } o n rfl hn hlen h256
  obtain ⟨v, s, htop⟩ : ∃ v s, m.top = v :: s := by
    cases hm : m.top with
    | nil =>
      rw [hm] at hlen
      exact absurd hlen (Nat.not_lt_zero _)
    | cons v s => exact ⟨v, s, rfl⟩
  refine ⟨fun hclear => hstep.trans (hspec.1 hclear), fun hset => ⟨v, s, htop, ?_, ?_⟩,
    fun hk => ?_⟩
  · exact hstep.trans (hspec.2 hset v s htop)
  · rw [htop] at hlen ⊢
    simp only [List.length_cons, List.length_drop] at hlen ⊢
    omega
  · by_cases hbit : n &&& 0x80 = 0
    · rw [hstep, hspec.1 hbit, hk]
      rfl
    · rw [hstep, hspec.2 hbit v s htop, hk]
      simp only [List.drop_zero]
      congr 1
      cases m
      simp only at htop
      subst htop
      rfl

theorem discardN_effect_witness :
    (∃ v s, [LispObject.integer 1, LispObject.integer 2, LispObject.integer 3,
              LispObject.integer 4] = v :: s ∧
      step (stdConfig (Build.switch true)) arithHost
        { bytestr := [stdB Insn.BdiscardN, 0x82], vectorp := [], maxdepth := 4, count := 0 }
        { pc := 0,
          top := [LispObject.integer 1, LispObject.integer 2, LispObject.integer 3,
                  LispObject.integer 4],
          quitcounter := 0, world := quietWorld } =
        Step.next { pc := 2, top := v :: s.drop 2, quitcounter := 0, world := quietWorld } ∧
      (v :: s.drop 2).length = 4 - 2) ∧
    step (stdConfig (Build.switch true)) arithHost
        { bytestr := [stdB Insn.BdiscardN, 2], vectorp := [], maxdepth := 4, count := 0 }
        { pc := 0,
          top := [LispObject.integer 1, LispObject.integer 2, LispObject.integer 3,
                  LispObject.integer 4],
          quitcounter := 0, world := quietWorld } =
      Step.next { pc := 2, top := [LispObject.integer 3, LispObject.integer 4],
                  quitcounter := 0, world := quietWorld } ∧
    step (stdConfig (Build.switch true)) arithHost
        { bytestr := [stdB Insn.BdiscardN, 0x80], vectorp := [], maxdepth := 4, count := 0 }
        { pc := 0, top := [LispObject.integer 1, LispObject.integer 2],
          quitcounter := 0, world := quietWorld } =
      Step.next { pc := 2, top := [LispObject.integer 1, LispObject.integer 2],
                  quitcounter := 0, world := quietWorld } :=
  ⟨(discardN_effect (stdConfig (Build.switch true)) (stdConfig_wellFormed _) arithHost
      { bytestr := [stdB Insn.BdiscardN, 0x82], vectorp := [], maxdepth := 4, count := 0 }
      { pc := 0,
        top := [LispObject.integer 1, LispObject.integer 2, LispObject.integer 3,
                LispObject.integer 4],
        quitcounter := 0, world := quietWorld } 0 0x82 (fun _ => by decide) rfl rfl rfl
      (by decide) (by decide)).2.1 (by decide),
   (discardN_effect (stdConfig (Build.switch true)) (stdConfig_wellFormed _) arithHost
      { bytestr := [stdB Insn.BdiscardN, 2], vectorp := [], maxdepth := 4, count := 0 }
      { pc := 0,
        top := [LispObject.integer 1, LispObject.integer 2, LispObject.integer 3,
                LispObject.integer 4],
        quitcounter := 0, world := quietWorld } 0 2 (fun _ => by decide) rfl rfl rfl
      (by decide) (by decide)).1 (by decide),
   (discardN_effect (stdConfig (Build.switch true)) (stdConfig_wellFormed _) arithHost
      { bytestr := [stdB Insn.BdiscardN, 0x80], vectorp := [], maxdepth := 4, count := 0 }
      { pc := 0, top := [LispObject.integer 1, LispObject.integer 2],
        quitcounter := 0, world := quietWorld } 0 0x80 (fun _ => by decide) rfl rfl rfl
      (by decide) (by decide)).2.2 (by decide)⟩
theorem step_Bstack_set {H : Type} (c : Config) (hc : c.WellFormed) (h : Host H) (f : Frame)
    (m : Machine H) (o n : Nat) (v : LispObject) (s : List LispObject)
    (hsafe : c.build.BYTE_CODE_SAFE = true → m.top.length ≤ f.maxdepth)
    (hpc : m.pc = (o : Int)) (hop : f.bytestr[o]? = some (c.B Insn.Bstack_set))
    (hn : f.bytestr[o + 1]? = some n) (htop : m.top = v :: s) (hlen : n < (v :: s).length) :
    step c h f m =
      Step.next { m with pc := ((o + 2 : Nat) : Int), top := ((v :: s).set n v).drop 1 } := by
  have hstep : step c h f m =
      FETCH f { m with pc := ((o + 1 : Nat) : Int) } (fun n m => stack_set n m) :=
    step_label c hc h f m o _ (by decide) hsafe hpc hop
  rw [hstep, FETCH_eq f _ _ (o + 1) n rfl hn]
  unfold stack_set TOP
  simp only [htop, hlen, if_true]

theorem step_Bdiscard {H : Type} (c : Config) (hc : c.WellFormed) (h : Host H) (f : Frame)
    (m : Machine H) (o : Nat) (v : LispObject) (s : List LispObject)
    (hsafe : c.build.BYTE_CODE_SAFE = true → m.top.length ≤ f.maxdepth)
    (hpc : m.pc = (o : Int)) (hop : f.bytestr[o]? = some (c.B Insn.Bdiscard))
    (htop : m.top = v :: s) :
    step c h f m = Step.next { m with pc := ((o + 1 : Nat) : Int), top := s } := by
  have hstep : step c h f m =
      DISCARD 1 { m with pc := ((o + 1 : Nat) : Int) } (fun m => Step.next m) :=
    step_label c hc h f m o _ (by decide) hsafe hpc hop
  rw [hstep]
  unfold DISCARD
  simp [htop]

/-- C23.  On a stack with top `v`, `Bstack_set` with operand 0 and `Bdiscard`
both end at `NEXT` with `v` removed and everything else as it was; on a stack
with `v` above `x`, `Bstack_set` with operand 1 and `BdiscardN` with operand
0x81 both end at `NEXT` with `x` removed and `v` on top of the rest.  Only the
program counter tells the two instructions of a pair apart (`Bdiscard` has no
operand byte). -/
theorem stack_set_as_discard {H : Type} (c : Config) (hc : c.WellFormed) (h : Host H)
    (f₁ f₂ : Frame) (m : Machine H) (o : Nat)
    (hsafe₁ : c.build.BYTE_CODE_SAFE = true → m.top.length ≤ f₁.maxdepth)
    (hsafe₂ : c.build.BYTE_CODE_SAFE = true → m.top.length ≤ f₂.maxdepth)
    (hpc : m.pc = (o : Int)) (hop : f₁.bytestr[o]? = some (c.B Insn.Bstack_set)) :
    (∀ v s, m.top = v :: s → f₁.bytestr[o + 1]? = some 0 →
      f₂.bytestr[o]? = some (c.B Insn.Bdiscard) →
      step c h f₁ m = Step.next { m with pc := ((o + 2 : Nat) : Int), top := s } ∧
      step c h f₂ m = Step.next { m with pc := ((o + 1 : Nat) : Int), top := s }) ∧
    (∀ v x s, m.top = v :: x :: s → f₁.bytestr[o + 1]? = some 1 →
      f₂.bytestr[o]? = some (c.B Insn.BdiscardN) → f₂.bytestr[o + 1]? = some 0x81 →
      step c h f₁ m = Step.next { m with pc := ((o + 2 : Nat) : Int), top := v :: s } ∧
      step c h f₂ m = Step.next { m with pc := ((o + 2 : Nat) : Int), top := v :: s }) := by
  constructor
  · intro v s htop h0 hd
    exact ⟨step_Bstack_set c hc h f₁ m o 0 v s hsafe₁ hpc hop h0 htop (Nat.succ_pos _),
      step_Bdiscard c hc h f₂ m o v s hsafe₂ hpc hd htop⟩
  · intro v x s htop h1 hd hn
    refine ⟨step_Bstack_set c hc h f₁ m o 1 v (x :: s) hsafe₁ hpc hop h1 htop (by simp), ?_⟩
    have hstep : step c h f₂ m = insn_BdiscardN f₂ { m with pc := ((o + 1 : Nat) : Int) } :=
      step_label c hc h f₂ m o _ (by decide) hsafe₂ hpc hd
    have hlen : 0x81 &&& 0x7F < ({ m with pc := ((o + 1 : Nat) : Int) } : Machine H).top.length := by
      show 0x81 &&& 0x7F < m.top.length
      rw [htop]
      have h1 : 0x81 &&& 0x7F = 1 := by decide
      rw [h1]
      simp
    rw [hstep, (insn_BdiscardN_eq f₂ { m with pc := ((o + 1 : Nat) : Int) } o 0x81 rfl hn hlen
      (by decide)).2 (by decide) v (x :: s) htop]
    rfl

theorem stack_set_as_discard_witness :
    (step (stdConfig (Build.switch true)) arithHost
        { bytestr := [stdB Insn.Bstack_set, 0], vectorp := [], maxdepth := 3, count := 0 }
        { pc := 0, top := [LispObject.integer 1, LispObject.integer 2, LispObject.integer 3],
          quitcounter := 0, world := quietWorld } =
      Step.next { pc := 2, top := [LispObject.integer 2, LispObject.integer 3],
                  quitcounter := 0, world := quietWorld } ∧
     step (stdConfig (Build.switch true)) arithHost
        { bytestr := [stdB Insn.Bdiscard], vectorp := [], maxdepth := 3, count := 0 }
        { pc := 0, top := [LispObject.integer 1, LispObject.integer 2, LispObject.integer 3],
          quitcounter := 0, world := quietWorld } =
      Step.next { pc := 1, top := [LispObject.integer 2, LispObject.integer 3],
                  quitcounter := 0, world := quietWorld }) ∧
    (step (stdConfig (Build.switch true)) arithHost
        { bytestr := [stdB Insn.Bstack_set, 1], vectorp := [], maxdepth := 3, count := 0 }
        { pc := 0, top := [LispObject.integer 1, LispObject.integer 2, LispObject.integer 3],
          quitcounter := 0, world := quietWorld } =
      Step.next { pc := 2, top := [LispObject.integer 1, LispObject.integer 3],
                  quitcounter := 0, world := quietWorld } ∧
     step (stdConfig (Build.switch true)) arithHost
        { bytestr := [stdB Insn.BdiscardN, 0x81], vectorp := [], maxdepth := 3, count := 0 }
        { pc := 0, top := [LispObject.integer 1, LispObject.integer 2, LispObject.integer 3],
          quitcounter := 0, world := quietWorld } =
      Step.next { pc := 2, top := [LispObject.integer 1, LispObject.integer 3],
                  quitcounter := 0, world := quietWorld }) :=
  ⟨(stack_set_as_discard (stdConfig (Build.switch true)) (stdConfig_wellFormed _) arithHost
      { bytestr := [stdB Insn.Bstack_set, 0], vectorp := [], maxdepth := 3, count := 0 }
      { bytestr := [stdB Insn.Bdiscard], vectorp := [], maxdepth := 3, count := 0 }
      { pc := 0, top := [LispObject.integer 1, LispObject.integer 2, LispObject.integer 3],
        quitcounter := 0, world := quietWorld } 0 (fun _ => by decide) (fun _ => by decide)
      rfl rfl).1 _ _ rfl rfl rfl,
   (stack_set_as_discard (stdConfig (Build.switch true)) (stdConfig_wellFormed _) arithHost
      { bytestr := [stdB Insn.Bstack_set, 1], vectorp := [], maxdepth := 3, count := 0 }
      { bytestr := [stdB Insn.BdiscardN, 0x81], vectorp := [], maxdepth := 3, count := 0 }
      { pc := 0, top := [LispObject.integer 1, LispObject.integer 2, LispObject.integer 3],
        quitcounter := 0, world := quietWorld } 0 (fun _ => by decide) (fun _ => by decide)
      rfl rfl).2 _ _ _ rfl rfl rfl rfl⟩
/-! ### The counter and the gate across an instruction -/

/-- A gate whose continuation raises nothing leaves non-locally with the
program counter it was entered with. -/
theorem gate_nonlocal_pc {H : Type} (h : Host H) (mg : Machine H) (k : Machine H → Step H)
    (hk : ∀ m₂, (k m₂).Satisfies (fun _ => True) (fun _ => False))
    (e : NonLocalExit) (m' : Machine H) (hs : BYTE_CODE_QUIT h mg k = Step.nonlocal e m') :
    m'.pc = mg.pc := by
  have hkk : ∀ m₂, k m₂ ≠ Step.nonlocal e m' := by
    intro m₂ hm₂
    have := hk m₂
    rw [hm₂] at this
    exact this
  unfold BYTE_CODE_QUIT at hs
  simp only at hs
  split at hs
  · exact absurd hs (hkk _)
  · split at hs
    · split at hs
      · cases hs
        rfl
      · cases hs
        rfl
    · split at hs
      · unfold after_host at hs
        split at hs
        · exact absurd hs (hkk _)
        · cases hs
          rfl
      · exact absurd hs (hkk _)

/-- With `BYTE_CODE_QUIT` for the gate, `jump_body` is the body that the loop
selects for a jump. -/
theorem exec_insn_jump_body {H : Type} (c : Config) (h : Host H) (f : Frame) (l : Insn)
    (op : Nat) (m : Machine H) (hl : l ∈ jumpLabels) :
    exec_insn c h f l op m = jump_body (BYTE_CODE_QUIT h) c f l m := by
  simp only [jumpLabels, List.mem_cons, List.mem_singleton, List.not_mem_nil, or_false] at hl
  rcases hl with rfl | rfl | rfl | rfl | rfl | rfl | rfl | rfl | rfl | rfl <;> rfl

theorem branch_taken_label_cond (ifnil : Bool) (l : Insn) (top : List LispObject)
    (hl : branch_taken_label l top = true)
    (hcase : ifnil = true ∧ (l = Insn.Bgotoifnil ∨ l = Insn.Bgotoifnilelsepop ∨
        l = Insn.BRgotoifnil ∨ l = Insn.BRgotoifnilelsepop) ∨
      ifnil = false ∧ (l = Insn.Bgotoifnonnil ∨ l = Insn.Bgotoifnonnilelsepop ∨
        l = Insn.BRgotoifnonnil ∨ l = Insn.BRgotoifnonnilelsepop)) :
    ∃ v rest, top = v :: rest ∧ NILP v = ifnil := by
  cases top with
  | nil =>
    rcases hcase with ⟨_, rfl | rfl | rfl | rfl⟩ | ⟨_, rfl | rfl | rfl | rfl⟩ <;>
      exact Bool.noConfusion hl
  | cons v rest =>
    refine ⟨v, rest, rfl, ?_⟩
    rcases hcase with ⟨rfl, rfl | rfl | rfl | rfl⟩ | ⟨rfl, rfl | rfl | rfl | rfl⟩
    · exact hl
    · exact hl
    · exact hl
    · exact hl
    · have : (!NILP v) = true := hl
      simpa using this
    · have : (!NILP v) = true := hl
      simpa using this
    · have : (!NILP v) = true := hl
      simpa using this
    · have : (!NILP v) = true := hl
      simpa using this

theorem insn_BRgotoif_taken {H : Type} (h : Host H) (f : Frame) (ifnil : Bool) (m : Machine H)
    (v : LispObject) (rest : List LispObject) (htop : m.top = v :: rest)
    (hv : NILP v = ifnil) :
    insn_BRgotoif h f ifnil m =
      BYTE_CODE_QUIT h { m with top := rest } (fun m =>
        deref_pc f m fun b =>
          Step.next { m with pc := m.pc + ((b : Int) - 128) + 1 }) := by
  unfold insn_BRgotoif POP
  simp only [htop, hv, beq_self_eq_true, if_true]

theorem insn_BRgotoifelsepop_taken {H : Type} (h : Host H) (f : Frame) (ifnil : Bool)
    (m : Machine H) (o b : Nat) (v : LispObject) (rest : List LispObject)
    (hpc : m.pc = ((o + 1 : Nat) : Int)) (hb : f.bytestr[o + 1]? = some b)
    (htop : m.top = v :: rest) (hv : NILP v = ifnil) :
    insn_BRgotoifelsepop h f ifnil m =
      BYTE_CODE_QUIT h { m with pc := ((o + 1 + 1 : Nat) : Int) } (fun m =>
        Step.next { m with pc := m.pc + ((b : Int) - 128) }) := by
  unfold insn_BRgotoifelsepop
  rw [FETCH_eq f m _ (o + 1) b hpc hb]
  unfold TOP
  simp only [htop, hv, beq_self_eq_true, if_true]

theorem jump_to_eq_gate {H : Type} (c : Config) (h : Host H) (f : Frame) (dest : Nat)
    (m : Machine H) :
    jump_to c h f dest m =
      BYTE_CODE_QUIT h m (fun m => CHECK_RANGE c f dest (Step.next { m with pc := dest })) :=
  rfl

/-- C25, as the claim has it: `Bgoto` at offset 0 with the operand bytes 5, 0,
run with a quit pending and the counter at 0, leaves by `quit` out of the gate
with the program counter at offset 1, the first operand byte, not at offset 3
behind the instruction.  Without a quit pending the gate is entered with the
same program counter: the body is `jump_body` with `BYTE_CODE_QUIT` for the
gate, and a gate that only reports the machine it is entered with reports the
program counter 1. -/
theorem gate_program_counter_counterexample :
    step (stdConfig (Build.switch true)) arithHost
        { bytestr := [stdB Insn.Bgoto, 5, 0, 0, 0, stdB Insn.Breturn], vectorp := [],
          maxdepth := 1, count := 0 }
        { pc := 0, top := [], quitcounter := 0,
          world := { quietWorld with Vquit_flag := Qt } } =
      Step.nonlocal (NonLocalExit.signal Qquit Qnil)
        { pc := 1, top := [], quitcounter := 1, world := quietWorld } ∧
    ((1 : Int) ≠ 0 + 3) ∧
    step (stdConfig (Build.switch true)) arithHost
        { bytestr := [stdB Insn.Bgoto, 5, 0, 0, 0, stdB Insn.Breturn], vectorp := [],
          maxdepth := 1, count := 0 }
        { pc := 0, top := [], quitcounter := 0, world := quietWorld } =
      jump_body (BYTE_CODE_QUIT arithHost) (stdConfig (Build.switch true))
        { bytestr := [stdB Insn.Bgoto, 5, 0, 0, 0, stdB Insn.Breturn], vectorp := [],
          maxdepth := 1, count := 0 }
        Insn.Bgoto { pc := 1, top := [], quitcounter := 0, world := quietWorld } ∧
    jump_body (fun mg _ => Step.next mg) (stdConfig (Build.switch true))
        { bytestr := [stdB Insn.Bgoto, 5, 0, 0, 0, stdB Insn.Breturn], vectorp := [],
          maxdepth := 1, count := 0 }
        Insn.Bgoto { pc := 1, top := [], quitcounter := 0, world := quietWorld } =
      Step.next ({ pc := 1, top := [], quitcounter := 0, world := quietWorld } :
        Machine Unit) :=
  ⟨rfl, by decide, rfl, rfl⟩

/-- C25, amended.  When a jump at offset `o` takes its branch, its body
invokes the gate once, with the program counter at `gate_pc`, and does nothing
before it but read operands and pop: whatever stands in the place of
`BYTE_CODE_QUIT`, the body is that, entered with the machine whose program
counter is `gate_pc`, followed by the rest of the body.  `gate_pc` is behind
the opcode and the operand bytes for `Bgotoifnil`, `Bgotoifnonnil`,
`Bgotoifnilelsepop`, `Bgotoifnonnilelsepop` (offset `o + 3`) and for
`BRgotoifnilelsepop`, `BRgotoifnonnilelsepop` (offset `o + 2`), but at the
first operand byte, offset `o + 1`, for `Bgoto`, `BRgoto`, `BRgotoifnil` and
`BRgotoifnonnil`, which read their operand only behind the gate.  It is never
at the second byte of a two-byte operand.  A non-local exit out of the
instruction, which only the gate can start, leaves with the program counter
there. -/
theorem gate_program_counter {H : Type} (c : Config) (hc : c.WellFormed) (h : Host H)
    (f : Frame) (m : Machine H) (o b0 b1 : Nat) (l : Insn) (hl : l ∈ jumpLabels)
    (hsafe : c.build.BYTE_CODE_SAFE = true → m.top.length ≤ f.maxdepth)
    (hpc : m.pc = (o : Int)) (hop : f.bytestr[o]? = some (c.B l))
    (hb0 : f.bytestr[o + 1]? = some b0)
    (hb1 : gate_pc l o = (o : Int) + 3 → f.bytestr[o + 2]? = some b1)
    (htaken : branch_taken_label l m.top = true) :
    step c h f m =
      jump_body (BYTE_CODE_QUIT h) c f l { m with pc := ((o + 1 : Nat) : Int) } ∧
    (∃ top' k, ∀ G : Machine H → (Machine H → Step H) → Step H,
      jump_body G c f l { m with pc := ((o + 1 : Nat) : Int) } =
        G { pc := gate_pc l o, top := top', quitcounter := m.quitcounter, world := m.world }
          k) ∧
    (∀ e m', step c h f m = Step.nonlocal e m' → m'.pc = gate_pc l o) ∧
    (l = Insn.Bgoto ∨ l = Insn.BRgoto ∨ l = Insn.BRgotoifnil ∨ l = Insn.BRgotoifnonnil →
      gate_pc l o = (o : Int) + 1) ∧
    (l = Insn.BRgotoifnilelsepop ∨ l = Insn.BRgotoifnonnilelsepop →
      gate_pc l o = (o : Int) + 2) ∧
    (l = Insn.Bgotoifnil ∨ l = Insn.Bgotoifnonnil ∨ l = Insn.Bgotoifnilelsepop ∨
        l = Insn.Bgotoifnonnilelsepop → gate_pc l o = (o : Int) + 3) := by
  have h1 : (((o + 1 : Nat) : Int)) = (o : Int) + 1 := by push_cast; ring
  have h2 : (((o + 1 + 1 : Nat) : Int)) = (o : Int) + 2 := by push_cast; ring
  have h3 : (((o + 1 + 2 : Nat) : Int)) = (o : Int) + 3 := by push_cast; ring
  have hmem : l ∈ caseLabels := by
    have hl' := hl
    simp only [jumpLabels, List.mem_cons, List.mem_singleton, List.not_mem_nil, or_false] at hl'
    rcases hl' with rfl | rfl | rfl | rfl | rfl | rfl | rfl | rfl | rfl | rfl <;> decide
  have hstep : step c h f m =
      jump_body (BYTE_CODE_QUIT h) c f l { m with pc := ((o + 1 : Nat) : Int) } :=
    (step_label c hc h f m o l hmem hsafe hpc hop).trans
      (exec_insn_jump_body c h f l _ _ hl)
  have fin : ∀ (P : Int) (top' : List LispObject) (k : Machine H → Step H),
      P = gate_pc l o →
      (∀ G : Machine H → (Machine H → Step H) → Step H,
        jump_body G c f l { m with pc := ((o + 1 : Nat) : Int) } =
          G { pc := P, top := top', quitcounter := m.quitcounter, world := m.world } k) →
      (∀ m₂, (k m₂).Satisfies (fun _ => True) (fun _ => False)) →
      (∃ top' k, ∀ G : Machine H → (Machine H → Step H) → Step H,
        jump_body G c f l { m with pc := ((o + 1 : Nat) : Int) } =
          G { pc := gate_pc l o, top := top', quitcounter := m.quitcounter,
              world := m.world } k) ∧
      (∀ e m', step c h f m = Step.nonlocal e m' → m'.pc = gate_pc l o) := by
    intro P top' k hP hG hk
    subst hP
    refine ⟨⟨top', k, hG⟩, fun e m' hs => ?_⟩
    rw [hstep, hG (BYTE_CODE_QUIT h)] at hs
    exact gate_nonlocal_pc h _ k hk e m' hs
  have hclass : (l = Insn.Bgoto ∨ l = Insn.BRgoto ∨ l = Insn.BRgotoifnil ∨
        l = Insn.BRgotoifnonnil → gate_pc l o = (o : Int) + 1) ∧
      (l = Insn.BRgotoifnilelsepop ∨ l = Insn.BRgotoifnonnilelsepop →
        gate_pc l o = (o : Int) + 2) ∧
      (l = Insn.Bgotoifnil ∨ l = Insn.Bgotoifnonnil ∨ l = Insn.Bgotoifnilelsepop ∨
        l = Insn.Bgotoifnonnilelsepop → gate_pc l o = (o : Int) + 3) := by
    refine ⟨?_, ?_, ?_⟩
    · rintro (rfl | rfl | rfl | rfl) <;> rfl
    · rintro (rfl | rfl) <;> rfl
    · rintro (rfl | rfl | rfl | rfl) <;> rfl
  have hshort : ∀ m₂ : Machine H, (deref_pc f m₂ fun b =>
      Step.next { m₂ with pc := m₂.pc + ((b : Int) - 128) + 1 }).Satisfies
        (fun _ => True) (fun _ => False) :=
    fun m₂ => deref_pc_sat _ _ f m₂ _ (fun _ => trivial)
  have hlong : ∀ (d : Nat) (m₂ : Machine H),
      (CHECK_RANGE c f d (Step.next { m₂ with pc := d })).Satisfies
        (fun _ => True) (fun _ => False) :=
    fun d m₂ => CHECK_RANGE_sat _ _ c f d _ trivial
  suffices hmain : (∃ top' k, ∀ G : Machine H → (Machine H → Step H) → Step H,
        jump_body G c f l { m with pc := ((o + 1 : Nat) : Int) } =
          G { pc := gate_pc l o, top := top', quitcounter := m.quitcounter,
              world := m.world } k) ∧
      (∀ e m', step c h f m = Step.nonlocal e m' → m'.pc = gate_pc l o) from
    ⟨hstep, hmain.1, hmain.2, hclass⟩
  have e1 : (Insn.Bgotoifnonnil == Insn.Bgotoifnil) = false := rfl
  have e2 : (Insn.Bgotoifnonnilelsepop == Insn.Bgotoifnilelsepop) = false := rfl
  have e3 : (Insn.BRgotoifnonnil == Insn.BRgotoifnil) = false := rfl
  have e4 : (Insn.BRgotoifnonnilelsepop == Insn.BRgotoifnilelsepop) = false := rfl
  have hl' := hl
  simp only [jumpLabels, List.mem_cons, List.mem_singleton, List.not_mem_nil, or_false] at hl'
  rcases hl' with rfl | rfl | rfl | rfl | rfl | rfl | rfl | rfl | rfl | rfl
  · exact fin _ m.top _ h1 (fun G => rfl)
      (fun m₂ => FETCH2_sat _ _ f m₂ _ (fun _ _ => CHECK_RANGE_sat _ _ c f _ _ trivial))
  · obtain ⟨v, rest, htop, hv⟩ := branch_taken_label_cond true _ _ htaken
      (Or.inl ⟨rfl, Or.inl rfl⟩)
    refine fin _ rest _ h3 (fun G => ?_) (hlong (b0 + 256 * b1))
    simp only [jump_body]
    rw [FETCH2_eq f _ _ (o + 1) b0 b1 rfl hb0 (hb1 rfl)]
    simp only [POP, htop, hv, beq_self_eq_true, if_true]
  · obtain ⟨v, rest, htop, hv⟩ := branch_taken_label_cond false _ _ htaken
      (Or.inr ⟨rfl, Or.inl rfl⟩)
    refine fin _ rest _ h3 (fun G => ?_) (hlong (b0 + 256 * b1))
    simp only [jump_body]
    rw [FETCH2_eq f _ _ (o + 1) b0 b1 rfl hb0 (hb1 rfl)]
    simp only [POP, htop, hv, e1, beq_self_eq_true, if_true]
  · obtain ⟨v, rest, htop, hv⟩ := branch_taken_label_cond true _ _ htaken
      (Or.inl ⟨rfl, Or.inr (Or.inl rfl)⟩)
    refine fin _ m.top _ h3 (fun G => ?_) (hlong (b0 + 256 * b1))
    simp only [jump_body]
    rw [FETCH2_eq f _ _ (o + 1) b0 b1 rfl hb0 (hb1 rfl)]
    simp only [TOP, htop, hv, beq_self_eq_true, if_true]
  · obtain ⟨v, rest, htop, hv⟩ := branch_taken_label_cond false _ _ htaken
      (Or.inr ⟨rfl, Or.inr (Or.inl rfl)⟩)
    refine fin _ m.top _ h3 (fun G => ?_) (hlong (b0 + 256 * b1))
    simp only [jump_body]
    rw [FETCH2_eq f _ _ (o + 1) b0 b1 rfl hb0 (hb1 rfl)]
    simp only [TOP, htop, hv, e2, beq_self_eq_true, if_true]
  · exact fin _ m.top _ h1 (fun G => rfl)
      (fun m₂ => deref_pc_sat _ _ f m₂ _ (fun _ => trivial))
  · obtain ⟨v, rest, htop, hv⟩ := branch_taken_label_cond true _ _ htaken
      (Or.inl ⟨rfl, Or.inr (Or.inr (Or.inl rfl))⟩)
    refine fin _ rest _ h1 (fun G => ?_) hshort
    simp only [jump_body, POP, htop, hv, beq_self_eq_true, if_true]
  · obtain ⟨v, rest, htop, hv⟩ := branch_taken_label_cond false _ _ htaken
      (Or.inr ⟨rfl, Or.inr (Or.inr (Or.inl rfl))⟩)
    refine fin _ rest _ h1 (fun G => ?_) hshort
    simp only [jump_body, POP, htop, hv, e3, beq_self_eq_true, if_true]
  · obtain ⟨v, rest, htop, hv⟩ := branch_taken_label_cond true _ _ htaken
      (Or.inl ⟨rfl, Or.inr (Or.inr (Or.inr rfl))⟩)
    refine fin _ m.top (fun m₂ => Step.next { m₂ with pc := m₂.pc + ((b0 : Int) - 128) }) h2
      (fun G => ?_) (fun _ => trivial)
    simp only [jump_body]
    rw [FETCH_eq f _ _ (o + 1) b0 rfl hb0]
    simp only [TOP, htop, hv, beq_self_eq_true, if_true]
  · obtain ⟨v, rest, htop, hv⟩ := branch_taken_label_cond false _ _ htaken
      (Or.inr ⟨rfl, Or.inr (Or.inr (Or.inr rfl))⟩)
    refine fin _ m.top (fun m₂ => Step.next { m₂ with pc := m₂.pc + ((b0 : Int) - 128) }) h2
      (fun G => ?_) (fun _ => trivial)
    simp only [jump_body]
    rw [FETCH_eq f _ _ (o + 1) b0 rfl hb0]
    simp only [TOP, htop, hv, e4, beq_self_eq_true, if_true]

/-- Witness of C25 amended: `Bgotoifnil` at offset 0 with destination 5, run on
a nil top of stack.  Its body enters the gate with the program counter at
offset 3; a gate that only reports the machine it is entered with shows it, and
so does the `quit` that leaves out of `BYTE_CODE_QUIT`. -/
theorem gate_program_counter_witness :
    (∃ top' k, ∀ G : Machine Unit → (Machine Unit → Step Unit) → Step Unit,
      jump_body G (stdConfig (Build.switch true))
          { bytestr := [stdB Insn.Bgotoifnil, 5, 0, 0, 0, stdB Insn.Breturn], vectorp := [],
            maxdepth := 1, count := 0 }
          Insn.Bgotoifnil
          { pc := 1, top := [Qnil], quitcounter := 0,
            world := { quietWorld with Vquit_flag := Qt } } =
        G { pc := 3, top := top', quitcounter := 0,
            world := { quietWorld with Vquit_flag := Qt } } k) ∧
    jump_body (fun mg _ => Step.next mg) (stdConfig (Build.switch true))
        { bytestr := [stdB Insn.Bgotoifnil, 5, 0, 0, 0, stdB Insn.Breturn], vectorp := [],
          maxdepth := 1, count := 0 }
        Insn.Bgotoifnil
        { pc := 1, top := [Qnil], quitcounter := 0,
          world := { quietWorld with Vquit_flag := Qt } } =
      Step.next { pc := 3, top := [], quitcounter := 0,
                  world := { quietWorld with Vquit_flag := Qt } } ∧
    step (stdConfig (Build.switch true)) arithHost
        { bytestr := [stdB Insn.Bgotoifnil, 5, 0, 0, 0, stdB Insn.Breturn], vectorp := [],
          maxdepth := 1, count := 0 }
        { pc := 0, top := [Qnil], quitcounter := 0,
          world := { quietWorld with Vquit_flag := Qt } } =
      Step.nonlocal (NonLocalExit.signal Qquit Qnil)
        { pc := 3, top := [], quitcounter := 1, world := quietWorld } :=
  ⟨(gate_program_counter (stdConfig (Build.switch true)) (stdConfig_wellFormed _) arithHost
      { bytestr := [stdB Insn.Bgotoifnil, 5, 0, 0, 0, stdB Insn.Breturn], vectorp := [],
        maxdepth := 1, count := 0 }
      { pc := 0, top := [Qnil], quitcounter := 0,
        world := { quietWorld with Vquit_flag := Qt } }
      0 5 0 Insn.Bgotoifnil (by decide) (fun _ => by decide) rfl rfl rfl (fun _ => rfl)
      rfl).2.1,
   rfl, rfl⟩
/-! ### The number of values the unpacker pushes -/

/-- C26.  When the argument unpacker accepts a call into a frame whose
`maxdepth` leaves room for them, the number of values on the operand stack
with which the loop is entered is `nonrest + 1` if the rest flag of the
descriptor is set and `nonrest` if not, whatever the number of actuals; with
the rest flag set and at most `nonrest` actuals the topmost of them is nil, the
empty rest list.  The stack lies within the slots of the frame. -/
theorem unpack_args_count {H : Type} (c : Config) (h : Host H) (bytestr : List Nat)
    (vector : List LispObject) (maxdepth : Nat) (A : Nat) (args top : List LispObject)
    (w : World H) (fuel : Nat)
    (hok : unpack_args c.PTRDIFF_MAX A args [] = Except.ok top)
    (hcap : arity_nonrest A + (if arity_rest A then 1 else 0) ≤ maxdepth) :
    top.length = arity_nonrest A + (if arity_rest A then 1 else 0) ∧
      (arity_rest A = true → args.length ≤ arity_nonrest A → top.head? = some Qnil) ∧
      Frame.fits
        { bytestr := bytestr, vectorp := vector, maxdepth := maxdepth,
          count := h.SPECPDL_INDEX w.host, next := w.byte_stack_list } top ∧
      exec_byte_code__ c h bytestr vector maxdepth (some A) args w fuel =
        run c h
          { bytestr := bytestr, vectorp := vector, maxdepth := maxdepth,
            count := h.SPECPDL_INDEX w.host, next := w.byte_stack_list } fuel
          { pc := 0, top := top, quitcounter := 0,
            world := { w with byte_stack_list := bytestr :: w.byte_stack_list } } := by
  have hlen : top.length = arity_nonrest A + (if arity_rest A then 1 else 0) ∧
      (arity_rest A = true → args.length ≤ arity_nonrest A → top.head? = some Qnil) := by
    by_cases hacc : arity_mandatory A ≤ args.length ∧
        args.length ≤ (if arity_rest A then c.PTRDIFF_MAX else arity_nonrest A)
    · have hok' := hok
      rw [unpack_args_accept c.PTRDIFF_MAX A args [] hacc] at hok'
      by_cases hlt : arity_nonrest A < args.length
      · rw [if_pos hlt] at hok'
        have hrest : arity_rest A = true := by
          cases hr : arity_rest A
          · rw [hr] at hacc
            simp only [Bool.false_eq_true, if_false] at hacc
            omega
          · rfl
        injection hok' with hok'
        rw [← hok']
        refine ⟨?_, ?_⟩
        · simp only [List.length_cons, List.length_append, List.length_reverse,
            List.length_take, List.length_nil, hrest, if_true]
          omega
        · intro _ hle
          omega
      · rw [if_neg hlt] at hok'
        injection hok' with hok'
        rw [← hok']
        refine ⟨?_, ?_⟩
        · simp only [List.length_append, List.length_replicate, List.length_reverse,
            List.length_nil]
          omega
        · intro hrest hle
          simp only [hrest, if_true]
          obtain ⟨k, hk⟩ : ∃ k, arity_nonrest A + 1 - args.length = k + 1 :=
            ⟨arity_nonrest A - args.length, by omega⟩
          rw [hk]
          rfl
    · rw [unpack_args_reject c.PTRDIFF_MAX A args [] hacc] at hok
      exact Except.noConfusion hok
  refine ⟨hlen.1, hlen.2, ?_, exec_byte_code___unpacked c h bytestr vector maxdepth A args top
    w fuel hok⟩
  unfold Frame.fits
  rw [hlen.1]
  exact hcap

/-- Witness of C26: the descriptor 641 (`nonrest = 2`, rest flag set) with four
actuals and with one actual, in a frame with `maxdepth = 3`: three values both
times, the topmost being the rest list `(9 10)` and nil. -/
theorem unpack_args_count_witness :
    ([Flist [LispObject.integer 9, LispObject.integer 10], LispObject.integer 8,
        LispObject.integer 7].length = arity_nonrest 641 + (if arity_rest 641 then 1 else 0) ∧
      [Flist [LispObject.integer 9, LispObject.integer 10], LispObject.integer 8,
        LispObject.integer 7].length ≤ 3) ∧
    ([Qnil, Qnil, LispObject.integer 7].length =
        arity_nonrest 641 + (if arity_rest 641 then 1 else 0) ∧
      (arity_rest 641 = true → [LispObject.integer 7].length ≤ arity_nonrest 641 →
        [Qnil, Qnil, LispObject.integer 7].head? = some Qnil) ∧
      [Qnil, Qnil, LispObject.integer 7].length ≤ 3) :=
  ⟨have hw :=
      unpack_args_count (stdConfig (Build.switch true)) arithHost [stdB Insn.Breturn] [] 3 641
        [LispObject.integer 7, LispObject.integer 8, LispObject.integer 9,
          LispObject.integer 10]
        [Flist [LispObject.integer 9, LispObject.integer 10], LispObject.integer 8,
          LispObject.integer 7] quietWorld 1 (by rfl) (by decide);
    ⟨hw.1, hw.2.2.1⟩,
   have hw :=
      unpack_args_count (stdConfig (Build.switch true)) arithHost [stdB Insn.Breturn] [] 3 641
        [LispObject.integer 7] [Qnil, Qnil, LispObject.integer 7] quietWorld 1 (by rfl)
        (by decide);
    ⟨hw.1, hw.2.1, hw.2.2.1⟩⟩
end Bytecode
